import Mathlib

/-!
# Verification of the enjinql query compiler against its specification

This file shallowly embeds the core of the `go-corelibs/enjinql` package —
the EQL lexer/parser/AST, the placeholder preparation, the schema and
relationship graph, the query planner, the SQL compilation pipeline and the
engine facade — as executable Lean definitions, and proves or refutes the
frozen claims about the specification.

Strings are modelled as `List Char`; Go maps that the code iterates in
sorted order are modelled as association lists plus an explicit sort; Go
`error` values are modelled by inductive error types.  External collaborators
(the SQL driver, the `go-sqlbuilder` serializer) are modelled abstractly:
database effects become explicit action traces, and compiled SQL is kept as
the structured builder state that the external serializer would render.
-/

set_option maxHeartbeats 1000000

/-- Characters that are awkward to write literally under this development's
conventions. -/
def lbrace : Char := Char.ofNat 123

/-- Closing curly brace character. -/
def rbrace : Char := Char.ofNat 125

/-- Backtick character (the third EQL string-quote delimiter). -/
def btick : Char := Char.ofNat 96

/-- `Str` abbreviates the string model used throughout: a list of characters. -/
abbrev Str := List Char

/-- Convert a Lean string literal into the `Str` model. -/
def sl (s : String) : Str := s.toList

/-! ## C10 — engine lifecycle (`enjinql.Close` / `Ready` and the readiness guards)

Translated from `src/enjinql.go`: the `enjinql` struct's `closed` flag, the
`Close`/`Ready` methods, and the `Ready`-guarded operations `Perform`,
`SqlExec`, `SqlQuery`, `CreateTables` and `CreateIndexes`.  The external
`sql.DB` handle is abstracted: closing it is recorded as an explicit
`DbCall.closeHandle` action and its result is a parameter, and the body that
each guarded operation runs when the engine is ready is likewise a parameter
`body` standing for the database-touching continuation (whose calls would be
recorded in its own trace). -/

/-- Errors surfaced by the engine lifecycle; `connDone` is Go's
`sql.ErrConnDone`, `dbErr` stands for an arbitrary driver error. -/
inductive SqlErr
  | connDone
  | dbErr (msg : Str)
deriving DecidableEq, Repr

/-- Database-touching actions the engine can issue; the claims only need to
observe the closing of the underlying handle and whether any call happens. -/
inductive DbCall
  | closeHandle
  | beginTx
  | execSql (q : Str)
  | runSql (q : Str)
deriving DecidableEq, Repr

/-- The `enjinql` struct state relevant to the lifecycle claims: the
`closed` flag guarded by the instance mutex. -/
structure EState where
  closed : Bool
deriving DecidableEq, Repr

/-- `enjinql.Ready`: returns `sql.ErrConnDone` when the instance is closed,
`nil` otherwise. -/
def eqlReady (s : EState) : Option SqlErr :=
  if s.closed then some SqlErr.connDone else none

/-- `enjinql.Close`: when not yet closed, sets the flag and closes the
underlying handle (result `dbCloseRes`), emitting one `closeHandle` call;
otherwise a no-op returning `nil`. -/
def eqlClose (dbCloseRes : Option SqlErr) (s : EState) :
    Option SqlErr × EState × List DbCall :=
  if s.closed then (none, s, [])
  else (dbCloseRes, { s with closed := true }, [DbCall.closeHandle])

/-- `enjinql.Perform`: body runs only when `Ready` returns `nil`.  `body` is
the database-touching continuation (ToSQL + SqlQuery) with its trace. -/
def eqlPerform (s : EState) (body : Option SqlErr × List DbCall) :
    Option SqlErr × List DbCall :=
  match eqlReady s with
  | some e => (some e, [])
  | none => body

/-- `enjinql.SqlExec`: body runs only when `Ready` returns `nil`. -/
def eqlSqlExec (s : EState) (body : Option SqlErr × List DbCall) :
    Option SqlErr × List DbCall :=
  match eqlReady s with
  | some e => (some e, [])
  | none => body

/-- `enjinql.SqlQuery`: body runs only when `Ready` returns `nil`. -/
def eqlSqlQuery (s : EState) (body : Option SqlErr × List DbCall) :
    Option SqlErr × List DbCall :=
  match eqlReady s with
  | some e => (some e, [])
  | none => body

/-- `enjinql.CreateTables`: the per-source DDL loop runs only when `Ready`
returns `nil`. -/
def eqlCreateTables (s : EState) (body : Option SqlErr × List DbCall) :
    Option SqlErr × List DbCall :=
  match eqlReady s with
  | some e => (some e, [])
  | none => body

/-- `enjinql.CreateIndexes`: the per-index DDL loop runs only when `Ready`
returns `nil`. -/
def eqlCreateIndexes (s : EState) (body : Option SqlErr × List DbCall) :
    Option SqlErr × List DbCall :=
  match eqlReady s with
  | some e => (some e, [])
  | none => body

/-- **C10.** After the first `Close` of an open instance the `closed` flag is
set: `Ready` returns `sql.ErrConnDone`; `Perform`, `SqlExec`, `SqlQuery`,
`CreateTables` and `CreateIndexes` all return `sql.ErrConnDone` without
issuing any database call (their would-be body never runs); a second `Close`
is a no-op returning `nil` with no further calls, so across both closes the
underlying handle is closed exactly once. -/
theorem c10_close_lifecycle (s0 : EState) (h : s0.closed = false)
    (dbCloseRes dbCloseRes' : Option SqlErr) :
    let r1 := eqlClose dbCloseRes s0
    eqlReady r1.2.1 = some SqlErr.connDone ∧
    (∀ body, eqlPerform r1.2.1 body = (some SqlErr.connDone, [])) ∧
    (∀ body, eqlSqlExec r1.2.1 body = (some SqlErr.connDone, [])) ∧
    (∀ body, eqlSqlQuery r1.2.1 body = (some SqlErr.connDone, [])) ∧
    (∀ body, eqlCreateTables r1.2.1 body = (some SqlErr.connDone, [])) ∧
    (∀ body, eqlCreateIndexes r1.2.1 body = (some SqlErr.connDone, [])) ∧
    eqlClose dbCloseRes' r1.2.1 = (none, r1.2.1, []) ∧
    r1.2.2 ++ (eqlClose dbCloseRes' r1.2.1).2.2 = [DbCall.closeHandle] := by
  simp [eqlClose, eqlReady, eqlPerform, eqlSqlExec, eqlSqlQuery,
    eqlCreateTables, eqlCreateIndexes, h]

/-- **C10 witness.** The lifecycle property evaluated on the freshly opened
engine state. -/
theorem c10_close_lifecycle_witness :
    (EState.mk false).closed = false ∧
    (let r1 := eqlClose none (EState.mk false)
     eqlReady r1.2.1 = some SqlErr.connDone ∧
     (∀ body, eqlPerform r1.2.1 body = (some SqlErr.connDone, [])) ∧
     (∀ body, eqlSqlExec r1.2.1 body = (some SqlErr.connDone, [])) ∧
     (∀ body, eqlSqlQuery r1.2.1 body = (some SqlErr.connDone, [])) ∧
     (∀ body, eqlCreateTables r1.2.1 body = (some SqlErr.connDone, [])) ∧
     (∀ body, eqlCreateIndexes r1.2.1 body = (some SqlErr.connDone, [])) ∧
     eqlClose none r1.2.1 = (none, r1.2.1, []) ∧
     r1.2.2 ++ (eqlClose none r1.2.1).2.2 = [DbCall.closeHandle]) :=
  ⟨rfl, c10_close_lifecycle (EState.mk false) rfl none none⟩

/-! ## C7 — name utility (`cSources.formal` / `cSources.alias` and snake-casing)

`formal` and `alias` are translated from the source.  The snake-casing
function is the external `strcase.ToSnake` collaborator; `snake` below is
modelled from the spec: "`snake(s)` lower-cases and inserts underscores at
case/digit boundaries", with the separator characters space/dash/dot mapped
to underscores as the canonical snake_case form requires.  Character classes
are defined by enumeration of the ASCII ranges so that class facts are
decidable. -/

/-- Uppercase ASCII letters. -/
def upsList : Str := sl "ABCDEFGHIJKLMNOPQRSTUVWXYZ"

/-- Lowercase ASCII letters. -/
def losList : Str := sl "abcdefghijklmnopqrstuvwxyz"

/-- ASCII digits. -/
def digsList : Str := sl "0123456789"

/-- Separator characters normalized to underscores. -/
def sepsList : Str := [' ', '-', '.']

/-- Is `c` an uppercase ASCII letter. -/
def isUpA (c : Char) : Bool := decide (c ∈ upsList)

/-- Is `c` a lowercase ASCII letter. -/
def isLoA (c : Char) : Bool := decide (c ∈ losList)

/-- Is `c` an ASCII digit. -/
def isDigA (c : Char) : Bool := decide (c ∈ digsList)

/-- Is `c` a separator (space, dash or dot). -/
def isSepA (c : Char) : Bool := decide (c ∈ sepsList)

/-- Upper-to-lower pairing used for lower-casing. -/
def loPair : List (Char × Char) := upsList.zip losList

/-- Lower-case an uppercase ASCII letter, leave anything else unchanged. -/
def loA (c : Char) : Char :=
  match loPair.find? (fun p => p.1 == c) with
  | some p => p.2
  | none => c

/-- A case/digit boundary between an original previous character and the
current one: lower/digit followed by upper, letter followed by digit, or
digit followed by letter. -/
def sBoundary (p c : Char) : Bool :=
  ((isLoA p || isDigA p) && isUpA c) ||
  ((isLoA p || isUpA p) && isDigA c) ||
  (isDigA p && (isLoA c || isUpA c))

/-- Normalize one character: separators become underscores, uppercase
letters are lower-cased. -/
def snakeChar (c : Char) : Char := if isSepA c then '_' else loA c

/-- The snake-casing scan; `p` is the previous original character. -/
def snakeAux : Option Char → Str → Str
  | _, [] => []
  | p, c :: cs =>
    let b := match p with
      | none => false
      | some q => sBoundary q c
    (if b then ['_', snakeChar c] else [snakeChar c]) ++ snakeAux (some c) cs

/-- Modelled from the spec: `snake(s)` (the external `strcase.ToSnake`)
lower-cases and inserts underscores at case/digit boundaries. -/
def snake (s : Str) : Str := snakeAux none s

/-- A character already in normal form: not uppercase, not a separator. -/
def normChar (c : Char) : Bool := !(isUpA c) && !(isSepA c)

/-- A string in snake-normal form: every character normal and no boundary
between adjacent characters. -/
def NormS (s : Str) : Prop :=
  (∀ c ∈ s, normChar c = true) ∧ List.Chain' (fun a b => sBoundary a b = false) s

instance : DecidablePred NormS := fun s =>
  inferInstanceAs (Decidable ((∀ c ∈ s, normChar c = true) ∧
    List.Chain' (fun a b => sBoundary a b = false) s))

/-- Boolean form of the adjacent-pair condition of `NormS`. -/
def normPairsB : Str → Bool
  | [] => true
  | [_] => true
  | a :: b :: rest => !(sBoundary a b) && normPairsB (b :: rest)

theorem chain'_iff_normPairsB (s : Str) :
    List.Chain' (fun a b => sBoundary a b = false) s ↔ normPairsB s = true := by
  induction s with
  | nil => simp [normPairsB]
  | cons a t ih =>
    cases t with
    | nil => simp [normPairsB]
    | cons b r =>
      rw [List.chain'_cons, normPairsB]
      rw [ih]
      simp [Bool.not_eq_true']

theorem normS_of_bool {s : Str} (h : (s.all normChar && normPairsB s) = true) :
    NormS s := by
  rw [Bool.and_eq_true] at h
  exact ⟨by simpa [List.all_eq_true] using h.1, (chain'_iff_normPairsB s).mpr h.2⟩

theorem mem_loPair_fst : ∀ p ∈ loPair, p.1 ∈ upsList := by decide

theorem loA_eq_self {c : Char} (h : isUpA c = false) : loA c = c := by
  have hc : c ∉ upsList := by simpa [isUpA] using h
  unfold loA
  have : loPair.find? (fun p => p.1 == c) = none := by
    apply List.find?_eq_none.mpr
    intro p hp
    simp only [beq_iff_eq]
    intro he
    exact hc (he ▸ mem_loPair_fst p hp)
  rw [this]

theorem loA_mem_los : ∀ c ∈ upsList, loA c ∈ losList := by decide

theorem isUpA_loA (c : Char) : isUpA (loA c) = false := by
  by_cases h : isUpA c = true
  · have hc : c ∈ upsList := by simpa [isUpA] using h
    have h1 := loA_mem_los c hc
    have hdis : ∀ x ∈ losList, isUpA x = false := by decide
    exact hdis _ h1
  · simp only [Bool.not_eq_true] at h
    rw [loA_eq_self h]; exact h

theorem isLoA_loA (c : Char) : isLoA (loA c) = (isLoA c || isUpA c) := by
  by_cases h : isUpA c = true
  · have hc : c ∈ upsList := by simpa [isUpA] using h
    have h1 := loA_mem_los c hc
    have h2 : ∀ x ∈ losList, isLoA x = true := by decide
    have h3 : ∀ x ∈ upsList, isLoA x = false := by decide
    rw [h2 _ h1, h, h3 _ hc]
    decide
  · simp only [Bool.not_eq_true] at h
    rw [loA_eq_self h, h, Bool.or_false]

theorem isDigA_loA (c : Char) : isDigA (loA c) = isDigA c := by
  by_cases h : isUpA c = true
  · have hc : c ∈ upsList := by simpa [isUpA] using h
    have h1 := loA_mem_los c hc
    have h2 : ∀ x ∈ losList, isDigA x = false := by decide
    have h3 : ∀ x ∈ upsList, isDigA x = false := by decide
    rw [h2 _ h1, h3 _ hc]
  · simp only [Bool.not_eq_true] at h
    rw [loA_eq_self h]

theorem isUpA_snakeChar (c : Char) : isUpA (snakeChar c) = false := by
  unfold snakeChar
  split
  · decide
  · exact isUpA_loA c

theorem isSepA_snakeChar (c : Char) : isSepA (snakeChar c) = false := by
  unfold snakeChar
  split
  · decide
  · rename_i h
    by_cases hu : isUpA c = true
    · have hc : c ∈ upsList := by simpa [isUpA] using hu
      have h1 := loA_mem_los c hc
      have h2 : ∀ x ∈ losList, isSepA x = false := by decide
      exact h2 _ h1
    · simp only [Bool.not_eq_true] at hu
      rw [loA_eq_self hu]
      simpa using h

theorem normChar_snakeChar (c : Char) : normChar (snakeChar c) = true := by
  simp [normChar, isUpA_snakeChar, isSepA_snakeChar]

theorem isDigA_snakeChar (c : Char) : isDigA (snakeChar c) = isDigA c := by
  unfold snakeChar
  split
  · rename_i h
    have h2 : ∀ x ∈ sepsList, isDigA x = false := by decide
    have h3 : c ∈ sepsList := by simpa [isSepA] using h
    rw [h2 c h3]; decide
  · exact isDigA_loA c

theorem sBoundary_underscore_left (c : Char) : sBoundary '_' c = false := by
  have h1 : isLoA '_' = false := by decide
  have h2 : isDigA '_' = false := by decide
  have h3 : isUpA '_' = false := by decide
  simp [sBoundary, h1, h2, h3]

theorem sBoundary_right_underscore (p : Char) : sBoundary p '_' = false := by
  have h1 : isUpA '_' = false := by decide
  have h2 : isLoA '_' = false := by decide
  have h3 : isDigA '_' = false := by decide
  simp [sBoundary, h1, h2, h3]

theorem isLoA_snakeChar (c : Char) : isLoA (snakeChar c) = (isLoA c || isUpA c) := by
  unfold snakeChar
  split
  · rename_i h
    have h3 : c ∈ sepsList := by simpa [isSepA] using h
    have h4 : ∀ x ∈ sepsList, isLoA x = false ∧ isUpA x = false := by decide
    have h5 : isLoA '_' = false := by decide
    rw [h5, (h4 c h3).1, (h4 c h3).2]
    decide
  · exact isLoA_loA c

theorem sBoundary_snakeChar {p c : Char} (h : sBoundary p c = false) :
    sBoundary (snakeChar p) (snakeChar c) = false := by
  have e1 : isUpA (snakeChar c) = false := isUpA_snakeChar c
  have e2 : isUpA (snakeChar p) = false := isUpA_snakeChar p
  have e3 : isDigA (snakeChar c) = isDigA c := isDigA_snakeChar c
  have e4 : isDigA (snakeChar p) = isDigA p := isDigA_snakeChar p
  have e5 : isLoA (snakeChar p) = (isLoA p || isUpA p) := isLoA_snakeChar p
  have e6 : isLoA (snakeChar c) = (isLoA c || isUpA c) := isLoA_snakeChar c
  simp only [sBoundary, e1, e2, e3, e4, e5, e6, Bool.and_false, Bool.false_or,
    Bool.or_false, Bool.false_and]
  simp only [sBoundary, Bool.or_eq_false_iff] at h
  exact Bool.or_eq_false_iff.mpr ⟨h.1.2, h.2⟩

theorem snakeAux_head_link (c : Char) (cs : Str) :
    ∀ x ∈ (snakeAux (some c) cs).head?, sBoundary (snakeChar c) x = false := by
  cases cs with
  | nil => simp [snakeAux]
  | cons d ds =>
    by_cases hb : sBoundary c d = true
    · simp only [snakeAux, hb]
      intro x hx
      simp at hx
      rw [← hx]
      exact sBoundary_right_underscore _
    · simp only [Bool.not_eq_true] at hb
      simp only [snakeAux, hb]
      intro x hx
      simp at hx
      rw [← hx]
      exact sBoundary_snakeChar hb

theorem normS_snakeAux (s : Str) : ∀ (p : Option Char), NormS (snakeAux p s) := by
  induction s with
  | nil => intro p; exact ⟨by simp [snakeAux], by simp [snakeAux]⟩
  | cons c cs ih =>
    intro p
    obtain ⟨ihc, ihl⟩ := ih (some c)
    constructor
    · intro x hx
      simp only [snakeAux, List.mem_append] at hx
      rcases hx with hx | hx
      · split at hx
        · simp at hx
          rcases hx with h | h
          · rw [h]; decide
          · rw [h]; exact normChar_snakeChar c
        · simp at hx
          rw [hx]; exact normChar_snakeChar c
      · exact ihc x hx
    · simp only [snakeAux]
      rw [List.chain'_append]
      refine ⟨?_, ihl, ?_⟩
      · split
        · exact List.chain'_pair.mpr (sBoundary_underscore_left _)
        · exact List.chain'_singleton _
      · intro x hx y hy
        have hx' : x = snakeChar c := by
          split at hx <;> simp_all
        rw [hx']
        exact snakeAux_head_link c cs y hy

theorem snakeChar_eq_self {c : Char} (h : normChar c = true) : snakeChar c = c := by
  simp only [normChar, Bool.and_eq_true, Bool.not_eq_true'] at h
  unfold snakeChar
  rw [if_neg (by rw [h.2]; exact fun hh => nomatch hh)]
  exact loA_eq_self h.1

theorem snakeAux_norm_id (s : Str) : ∀ (p : Option Char), NormS s →
    (∀ q, p = some q → ∀ x ∈ s.head?, sBoundary q x = false) →
    snakeAux p s = s := by
  induction s with
  | nil => intro p _ _; rfl
  | cons c cs ih =>
    intro p hn hq
    obtain ⟨hc, hl⟩ := hn
    have hchar : snakeChar c = c := snakeChar_eq_self (hc c (by simp))
    have hrec : snakeAux (some c) cs = cs := by
      apply ih
      · exact ⟨fun x hx => hc x (by simp [hx]), hl.tail⟩
      · intro q hqc x hx
        cases hqc
        cases cs with
        | nil => simp at hx
        | cons d ds =>
          simp at hx
          rw [← hx]
          exact (List.chain'_cons.mp hl).1
    cases p with
    | none => simp [snakeAux, hchar, hrec]
    | some q =>
      have hbq : sBoundary q c = false := hq q rfl c (by simp)
      simp [snakeAux, hbq, hchar, hrec]

/-- Snake-casing is idempotent (claim C7, first equation). -/
theorem snake_idem (x : Str) : snake (snake x) = snake x :=
  snakeAux_norm_id (snake x) none (normS_snakeAux x none) (by intro q h; cases h)

/-- `strings.HasPrefix`. -/
def hasPfx (s p : Str) : Bool := p.isPrefixOf s

/-- `strings.TrimPrefix`. -/
def trimPfx (s p : Str) : Str := if hasPfx s p then s.drop p.length else s

/-- `strings.Split(s, "_")`. -/
def splitUnd (s : Str) : List Str :=
  s.foldr
    (fun c acc =>
      if c = '_' then [] :: acc
      else
        match acc with
        | [] => [[c]]
        | a :: as => (c :: a) :: as)
    [[]]

/-- `strings.Join(xs, "_")`. -/
def joinUnd (xs : List Str) : Str := List.intercalate ['_'] xs

/-- The candidate prefix-suffix strings tried by `cSources.formal`'s strip
loop, in loop order (`i` descending from `len(parts)-1` to `0`). -/
def stripSuffixes (parts : List Str) : List Str :=
  ((List.range parts.length).reverse).map (fun i => joinUnd (parts.drop i) ++ ['_'])

/-- The strip loop of `cSources.formal`: the first candidate that prefixes
`full` wins, returning the trimmed remainder. -/
def stripFirst (full : Str) : List Str → Option Str
  | [] => none
  | t :: ts => if hasPfx full t then some (full.drop t.length) else stripFirst full ts

/-- `cSources.formal`: snake-case the parts, join with underscores, and
prepend the prefix, suppressing it when the name already carries the prefix
or starts with one of its underscore-suffixes. -/
def formalGo (pfx : Str) (name : Str) (more : List Str) : Str :=
  let nameS := snake name
  let moreS := more.map snake
  let full := if moreS.isEmpty then nameS else nameS ++ ['_'] ++ joinUnd moreS
  if pfx = [] then full
  else if full ≠ pfx ∧ hasPfx full (pfx ++ ['_']) = true then full
  else
    match stripFirst full (stripSuffixes (splitUnd pfx)) with
    | some rest => pfx ++ ['_'] ++ rest
    | none => pfx ++ ['_'] ++ full

/-- `cSources.alias`: snake-case the name and strip the prefix from its
formal form. -/
def aliasGo (pfx : Str) (name : Str) : Str :=
  let nameS := snake name
  if pfx = [] then nameS
  else trimPfx (formalGo pfx nameS []) (pfx ++ ['_'])

theorem normS_drop (k : Nat) (s : Str) (h : NormS s) : NormS (s.drop k) := by
  induction k generalizing s with
  | zero => simpa using h
  | succ n ih =>
    cases s with
    | nil => exact ⟨by simp, by simp⟩
    | cons c cs =>
      simp only [List.drop_succ_cons]
      exact ih cs ⟨fun x hx => h.1 x (by simp [hx]), h.2.tail⟩

theorem normS_append_und {p r : Str} (hp : NormS p) (hr : NormS r) :
    NormS (p ++ '_' :: r) := by
  constructor
  · intro x hx
    rcases List.mem_append.mp hx with hx | hx
    · exact hp.1 x hx
    · rcases List.mem_cons.mp hx with hx | hx
      · rw [hx]; decide
      · exact hr.1 x hx
  · rw [List.chain'_append]
    refine ⟨hp.2, ?_, ?_⟩
    · cases r with
      | nil => simp
      | cons d ds => exact List.chain'_cons.mpr ⟨sBoundary_underscore_left d, hr.2⟩
    · intro x _ y hy
      simp at hy
      rw [← hy]
      exact sBoundary_right_underscore x

theorem stripFirst_some {full r : Str} : ∀ {ts : List Str}, stripFirst full ts = some r →
    ∃ t, t ∈ ts ∧ hasPfx full t = true ∧ r = full.drop t.length := by
  intro ts
  induction ts with
  | nil => intro h; cases h
  | cons t ts ih =>
    intro h
    by_cases hp : hasPfx full t = true
    · simp only [stripFirst, hp, if_true, Option.some.injEq] at h
      exact ⟨t, by simp, hp, h.symm⟩
    · simp only [stripFirst, hp, if_false, Bool.false_eq_true] at h
      obtain ⟨u, hu1, hu2, hu3⟩ := ih h
      exact ⟨u, by simp [hu1], hu2, hu3⟩

theorem formalGo_shape (pfx n : Str) (hpfx : ¬ pfx = []) :
    ∃ rest, NormS rest ∧ formalGo pfx n [] = pfx ++ '_' :: rest := by
  have hfull : NormS (snake n) := normS_snakeAux n none
  simp only [formalGo, List.map_nil, List.isEmpty_nil, if_true, if_neg hpfx]
  by_cases hbr : (¬ snake n = pfx ∧ hasPfx (snake n) (pfx ++ ['_']) = true)
  · rw [if_pos hbr]
    have hpre := (List.isPrefixOf_iff_prefix).mp hbr.2
    obtain ⟨u, hu⟩ := hpre
    refine ⟨u, ?_, ?_⟩
    · have hu2 : u = (snake n).drop (pfx ++ ['_']).length := by
        rw [← hu, List.drop_left]
      rw [hu2]; exact normS_drop _ _ hfull
    · rw [← hu]; simp [List.append_assoc]
  · rw [if_neg hbr]
    cases hsf : stripFirst (snake n) (stripSuffixes (splitUnd pfx)) with
    | some rest =>
      obtain ⟨t, _, _, hr⟩ := stripFirst_some hsf
      exact ⟨rest, by rw [hr]; exact normS_drop _ _ hfull, by simp⟩
    | none => exact ⟨snake n, hfull, by simp⟩

theorem snake_norm_id {s : Str} (h : NormS s) : snake s = s :=
  snakeAux_norm_id s none h (by intro q hq; cases hq)

theorem formalGo_prefixed (pfx rest : Str) (hpfx : ¬ pfx = [])
    (hn : NormS (pfx ++ '_' :: rest)) :
    formalGo pfx (pfx ++ '_' :: rest) [] = pfx ++ '_' :: rest := by
  have hsnake : snake (pfx ++ '_' :: rest) = pfx ++ '_' :: rest := snake_norm_id hn
  have hne : ¬ (pfx ++ '_' :: rest) = pfx := by
    intro h
    have := congrArg List.length h
    simp at this
  have hhp : hasPfx (pfx ++ '_' :: rest) (pfx ++ ['_']) = true := by
    unfold hasPfx
    exact (List.isPrefixOf_iff_prefix).mpr ⟨rest, by simp⟩
  simp only [formalGo, List.map_nil, List.isEmpty_nil, if_true, hsnake, if_neg hpfx]
  rw [if_pos ⟨hne, hhp⟩]

theorem aliasGo_prefixed (pfx rest : Str) (hpfx : ¬ pfx = [])
    (hn : NormS (pfx ++ '_' :: rest)) :
    aliasGo pfx (pfx ++ '_' :: rest) = rest := by
  have hsnake : snake (pfx ++ '_' :: rest) = pfx ++ '_' :: rest := snake_norm_id hn
  have hhp : hasPfx (pfx ++ '_' :: rest) (pfx ++ ['_']) = true := by
    unfold hasPfx
    exact (List.isPrefixOf_iff_prefix).mpr ⟨rest, by simp⟩
  simp only [aliasGo, hsnake, if_neg hpfx]
  rw [formalGo_prefixed pfx rest hpfx hn]
  simp only [trimPfx, hhp, if_true]
  have : pfx ++ '_' :: rest = (pfx ++ ['_']) ++ rest := by simp
  rw [this, List.drop_left]

/-- **C7 counterexample.** Under prefix `be_eql`, the formal table name
`be_eql_eql_x` (the physical name of the validly snake_cased source
`eql_eql_x`) breaks `formal(alias(f)) == f`: `alias` strips the prefix to
`eql_x`, and `formal` then strips the prefix-suffix `eql_` a second time,
producing `be_eql_x ≠ be_eql_eql_x`; `alias(formal(alias(f))) == alias(f)`
fails at the same input. -/
theorem c7_counterexample :
    formalGo (sl "be_eql") (sl "eql_eql_x") [] = sl "be_eql_eql_x" ∧
    aliasGo (sl "be_eql") (sl "be_eql_eql_x") = sl "eql_x" ∧
    formalGo (sl "be_eql") (aliasGo (sl "be_eql") (sl "be_eql_eql_x")) [] ≠
      sl "be_eql_eql_x" ∧
    aliasGo (sl "be_eql")
        (formalGo (sl "be_eql") (aliasGo (sl "be_eql") (sl "be_eql_eql_x")) []) ≠
      aliasGo (sl "be_eql") (sl "be_eql_eql_x") := by
  refine ⟨by decide, by decide, by decide, by decide⟩

/-- **C7 (amended).** `snake(snake(x)) == snake(x)` always holds; the
round-trip identities `formal(alias(f)) == f` and
`alias(formal(alias(f))) == alias(f)` hold for every formal table name
`f = formal(n)` whose alias does not itself begin with the configured
prefix or with any underscore-suffix of it (the strip loop finds no match);
without that proviso the prefix suppression strips a second time and the
identities fail (see the counterexample). -/
theorem c7_amended (pfx x n : Str) (hp : NormS pfx)
    (hstrip : stripFirst (aliasGo pfx (formalGo pfx n []))
        (stripSuffixes (splitUnd pfx)) = none)
    (hhas : hasPfx (aliasGo pfx (formalGo pfx n [])) (pfx ++ ['_']) = false) :
    snake (snake x) = snake x ∧
    formalGo pfx (aliasGo pfx (formalGo pfx n [])) [] = formalGo pfx n [] ∧
    aliasGo pfx (formalGo pfx (aliasGo pfx (formalGo pfx n [])) []) =
      aliasGo pfx (formalGo pfx n []) := by
  refine ⟨snake_idem x, ?_⟩
  by_cases hpfx : pfx = []
  · subst hpfx
    have hf : formalGo [] n [] = snake n := by
      simp [formalGo]
    have ha : aliasGo [] (snake n) = snake n := by
      simp [aliasGo, snake_idem]
    have h1 : formalGo [] (aliasGo [] (formalGo [] n [])) [] = formalGo [] n [] := by
      rw [hf, ha]
      simp [formalGo, snake_idem]
    exact ⟨h1, by rw [h1]⟩
  · obtain ⟨rest, hrn, hshape⟩ := formalGo_shape pfx n hpfx
    have hfn : NormS (pfx ++ '_' :: rest) := normS_append_und hp hrn
    have halias : aliasGo pfx (formalGo pfx n []) = rest := by
      rw [hshape]; exact aliasGo_prefixed pfx rest hpfx hfn
    rw [halias] at hstrip hhas
    have h1 : formalGo pfx (aliasGo pfx (formalGo pfx n [])) [] = formalGo pfx n [] := by
      rw [halias, hshape]
      have hsr : snake rest = rest := snake_norm_id hrn
      simp only [formalGo, List.map_nil, List.isEmpty_nil, if_true, hsr, if_neg hpfx]
      rw [if_neg (by rintro ⟨-, hh⟩; rw [hhas] at hh; cases hh), hstrip]
      simp
    exact ⟨h1, by rw [h1]⟩

/-- **C7 amended witness.** The amended identities evaluated under prefix
`be_eql` on the source name `word` (whose alias has no strippable prefix
suffix). -/
theorem c7_amended_witness :
    ((sl "be_eql").all normChar && normPairsB (sl "be_eql")) = true ∧
    stripFirst (aliasGo (sl "be_eql") (formalGo (sl "be_eql") (sl "word") []))
        (stripSuffixes (splitUnd (sl "be_eql"))) = none ∧
    hasPfx (aliasGo (sl "be_eql") (formalGo (sl "be_eql") (sl "word") []))
        (sl "be_eql" ++ ['_']) = false ∧
    (snake (snake (sl "PageURL")) = snake (sl "PageURL") ∧
     formalGo (sl "be_eql")
         (aliasGo (sl "be_eql") (formalGo (sl "be_eql") (sl "word") [])) [] =
       formalGo (sl "be_eql") (sl "word") [] ∧
     aliasGo (sl "be_eql")
         (formalGo (sl "be_eql")
           (aliasGo (sl "be_eql") (formalGo (sl "be_eql") (sl "word") [])) []) =
       aliasGo (sl "be_eql") (formalGo (sl "be_eql") (sl "word") [])) :=
  ⟨by decide, by decide, by decide,
    c7_amended (sl "be_eql") (sl "PageURL") (sl "word") (normS_of_bool (by decide))
      (by decide) (by decide)⟩

/-! ## C2 / C6 — the relationship graph and the query planner

Translated from `src/unnamed/part_004` (`gSourceTableKey`, `gSourceJoin`,
`gSourceNode`, `gSourceGraph`, `gSourceGraph.validate`, `gSourceGraph.plan`,
`gSourceGraph.planPrimaryTopsUnsafe`).  Go's `slices.StackUnique` is an
ordered duplicate-free list (`Push` appends when absent, `Unshift` pops the
front, `Prune` removes, `First` peeks).  The node's Go `link` map is an
association list; the planner's observable behavior (top selection,
reachability failures) does not depend on its iteration order.  The external
`dominikbraun/graph` store is the undirected edge list built by
`_addVertexUnsafe`; its `ShortestPath` is modelled by breadth-first search
(it errors exactly when the target is unreachable; among equally short paths
the Go library's tie-breaking is map-order dependent, the model picks the
edge-list order representative). -/

/-- `gSourceTableKey`: a `<table>.<key>` reference inside a join. -/
structure GTableKey where
  table : Str
  key : Str
deriving DecidableEq, Repr

/-- `gSourceJoin`: an INNER JOIN of `table` (`thisK`) onto `otherK`. -/
structure GJoin where
  table : Str
  thisK : GTableKey
  otherK : GTableKey
deriving DecidableEq, Repr

/-- `gSourceNode`: a source vertex with optional parent join and link joins
to other sources. -/
structure GNode where
  name : Str
  parent : Option GJoin
  link : List (Str × GJoin)
deriving DecidableEq, Repr

/-- `gSourceNode.isData`: no parent and no links. -/
def gIsData (n : GNode) : Bool := n.parent.isNone && n.link.isEmpty

/-- One undirected edge of the `dominikbraun/graph` store with its join. -/
structure GEdge where
  a : Str
  b : Str
  join : GJoin
deriving DecidableEq, Repr

/-- `gSourceGraph`: primary source name, nodes in insertion order, and the
undirected edge list. -/
structure SGraph where
  primary : Str
  nodes : List GNode
  edges : List GEdge
deriving DecidableEq, Repr

instance exceptDecEq {e a : Type} [DecidableEq e] [DecidableEq a] :
    DecidableEq (Except e a) := fun x y =>
  match x, y with
  | Except.error u, Except.error v =>
    if h : u = v then isTrue (by rw [h])
    else isFalse (fun hh => h (by cases hh; rfl))
  | Except.error _, Except.ok _ => isFalse (fun hh => Except.noConfusion hh)
  | Except.ok _, Except.error _ => isFalse (fun hh => Except.noConfusion hh)
  | Except.ok u, Except.ok v =>
    if h : u = v then isTrue (by rw [h])
    else isFalse (fun hh => h (by cases hh; rfl))

/-- `gSourceGraph.getNode`. -/
def getNode (g : SGraph) (name : Str) : Option GNode :=
  g.nodes.find? (fun n => n.name = name)

/-- `slices.StackUnique.Push`: append when absent. -/
def stackPush (st : List Str) (x : Str) : List Str :=
  if x ∈ st then st else st ++ [x]

/-- `slices.NewStackUnique`: fold the inputs through `Push`. -/
def newStackUnique (xs : List Str) : List Str := xs.foldl stackPush []

/-- `slices.StackUnique.Prune`: remove an element. -/
def stackPrune (st : List Str) (x : Str) : List Str := st.filter (fun y => ¬ y = x)

/-- Errors the planner can return. -/
inductive PlanErr
  | cycle (names : List Str)
  | notFound (name : Str)
  | searchErr (start goal : Str)
  | noTop (required : List Str)
  | notEnough (pending : List Str) (top : Str)
deriving DecidableEq, Repr

/-- `gSourcePlan`: the chosen top table plus the accumulated joins. -/
structure GPlan where
  top : Str
  joins : List GJoin
  require : List Str
  topNote : Str
deriving DecidableEq, Repr

/-- `gSourcePlan.Has`: the name is the top or one of the joined tables. -/
def planHas (pl : GPlan) (name : Str) : Bool :=
  pl.top = name || pl.joins.any (fun j => j.table = name)

/-- `gSourcePlan.add`: append the join unless its table is present. -/
def planAdd (pl : GPlan) (j : GJoin) : GPlan :=
  if planHas pl j.table then pl else { pl with joins := pl.joins ++ [j] }

/-- Byte-wise (code-point) lexicographic order on strings, as Go's
`sort.Strings` uses. -/
def strLtB : Str → Str → Bool
  | [], [] => false
  | [], _ :: _ => true
  | _ :: _, [] => false
  | a :: as, b :: bs =>
    if a.toNat < b.toNat then true
    else if a.toNat = b.toNat then strLtB as bs
    else false

/-- Insertion into a sorted list of strings. -/
def insSorted (x : Str) : List Str → List Str
  | [] => [x]
  | y :: ys => if strLtB x y then x :: y :: ys else y :: insSorted x ys

/-- `maps.SortedKeys` on a string list. -/
def sortStrs (l : List Str) : List Str := l.foldr insSorted []

/-- The dependency set of a node for Kahn's algorithm in
`gSourceGraph.validate`: its parent table and its link targets. -/
def nodeDeps (n : GNode) : List Str :=
  newStackUnique ((match n.parent with
    | some j => [j.otherK.table]
    | none => []) ++ n.link.map Prod.fst)

/-- The outer iteration of `gSourceGraph.validate`'s Kahn loop; the pending
map strictly shrinks each round, so `pending.length + 1` fuel always
suffices and the fuel-exhaustion branch is unreachable. -/
def kahnLoop : Nat → List (Str × List Str) → Option PlanErr
  | 0, _ => none
  | fuel + 1, pending =>
    if pending = [] then none
    else
      let empt := pending.filter (fun p => p.2.isEmpty)
      if empt = [] then some (PlanErr.cycle (sortStrs (pending.map Prod.fst)))
      else
        kahnLoop fuel ((pending.filter (fun p => ¬ p.2.isEmpty)).map
          (fun p => (p.1, p.2.filter (fun d => ¬ d ∈ empt.map Prod.fst))))

/-- `gSourceGraph.validate`: cycle detection by Kahn's algorithm. -/
def gValidate (nodes : List GNode) : Option PlanErr :=
  kahnLoop (nodes.length + 1) (nodes.map (fun n => (n.name, nodeDeps n)))

/-- Neighbors of a vertex in the undirected edge list. -/
def gNeighbors (edges : List GEdge) (v : Str) : List Str :=
  edges.filterMap (fun e => if e.a = v then some e.b else if e.b = v then some e.a else none)

/-- One BFS expansion round building the predecessor map: `vis` maps each
discovered vertex to its predecessor. -/
def bfsRounds (edges : List GEdge) : List Str → List (Str × Str) → Nat → List (Str × Str)
  | _, vis, 0 => vis
  | frontier, vis, n + 1 =>
    let step := frontier.foldl
      (fun (st : List (Str × Str) × List Str) v =>
        (gNeighbors edges v).foldl
          (fun st2 w =>
            if (st2.1.find? (fun p => p.1 = w)).isSome then st2
            else (st2.1 ++ [(w, v)], st2.2 ++ [w]))
          st)
      (vis, [])
    bfsRounds edges step.2 step.1 n

/-- The full predecessor map from `start` (|V| rounds reach everything). -/
def parentsMap (g : SGraph) (start : Str) : List (Str × Str) :=
  bfsRounds g.edges [start] [(start, start)] g.nodes.length

/-- Walk the predecessor map back from `goal` to produce a path. -/
def walkBack (pm : List (Str × Str)) : Str → Nat → List Str
  | goal, 0 => [goal]
  | goal, n + 1 =>
    match pm.find? (fun p => p.1 = goal) with
    | some pr => if pr.2 = goal then [goal] else walkBack pm pr.2 n ++ [goal]
    | none => [goal]

/-- Is `goal` reachable from `start` (discovered by the BFS)? -/
def reachableB (g : SGraph) (start goal : Str) : Bool :=
  ((parentsMap g start).find? (fun p => p.1 = goal)).isSome

/-- `gSourceGraph.search` via the external `graph.ShortestPath`: a path when
the goal is reachable, an error (modelled as `none`) otherwise. -/
def gSearch (g : SGraph) (start goal : Str) : Option (List Str) :=
  let pm := parentsMap g start
  if ((pm.find? (fun p => p.1 = goal)).isSome) then some (walkBack pm goal g.nodes.length)
  else none

/-- `graph.Edge`: look the edge up in either orientation. -/
def findEdge (edges : List GEdge) (x y : Str) : Option GJoin :=
  (edges.find? (fun e => (e.a = x ∧ e.b = y) ∨ (e.a = y ∧ e.b = x))).map (fun e => e.join)

/-- Add the joins along one path to the plan (skipping the start vertex and
already-present tables). -/
def addPath (g : SGraph) (pl : GPlan) (path : List Str) : GPlan :=
  (path.zip path.tail).foldl
    (fun acc pr =>
      match findEdge g.edges pr.1 pr.2 with
      | some j => if planHas acc j.table then acc else planAdd acc j
      | none => acc)
    pl

/-- The planner's join loop: pop each pending source, search from the top,
fail on the first search error, and append the path's joins. -/
def joinsLoop (g : SGraph) (top : Str) : List Str → GPlan → Except PlanErr (GPlan × List Str)
  | [], pl => Except.ok (pl, [])
  | s :: rest, pl =>
    match gSearch g top s with
    | none => Except.error (PlanErr.searchErr top s)
    | some path => joinsLoop g top rest (addPath g pl path)

/-- `gSourceGraph.planPrimaryTopsUnsafe`: prefer the primary source when it
is among the tops, else among the parents; prune it from both stacks. -/
def planPrimaryTops (primary : Str) (tops parents sources : List Str) :
    List Str × List Str × Str :=
  match tops.find? (fun s => s = primary) with
  | some s => (stackPrune tops s, stackPrune sources s, s)
  | none =>
    match parents.find? (fun p => p = primary) with
    | some p => (stackPrune tops p, stackPrune sources p, p)
    | none => (tops, sources, [])

/-- The `tops` stack built from the pending sources: names of the
data-typed required sources, unique, in pending order. -/
def topsOf (g : SGraph) (pending : List Str) : List Str :=
  pending.foldl
    (fun a s =>
      match getNode g s with
      | some nd => if gIsData nd then stackPush a nd.name else a
      | none => a)
    []

/-- The `parents` stack built from the pending sources: parent tables of the
parented required sources, unique, in pending order. -/
def parentsOf (g : SGraph) (pending : List Str) : List Str :=
  pending.foldl
    (fun a s =>
      match getNode g s with
      | some nd =>
        match nd.parent with
        | some j => stackPush a j.otherK.table
        | none => a
      | none => a)
    []

/-- Both stacks (the planner's per-source loop performs the two independent
pushes in one pass). -/
def topsParentsOf (g : SGraph) (pending : List Str) : List Str × List Str :=
  (topsOf g pending, parentsOf g pending)

/-- The top-table selection of `gSourceGraph.plan` for two or more pending
sources (`switch tops.Len()`): returns the top (empty = failure), its note,
and the pending stack after pruning. -/
def planTopSel (g : SGraph) (pending tops parents : List Str) :
    Str × Str × List Str :=
  if tops.length = 0 then
    if parents.length = 1 then (parents.headD [], sl "first parent", pending)
    else if (planPrimaryTops g.primary tops parents pending).2.2 = [] then
      match (planPrimaryTops g.primary tops parents pending).2.1 with
      | [] => ([], [], [])
      | x :: rest => (x, sl "first required", stackPrune rest x)
    else ((planPrimaryTops g.primary tops parents pending).2.2, sl "primary source",
      (planPrimaryTops g.primary tops parents pending).2.1)
  else if (planPrimaryTops g.primary tops parents pending).2.2 = [] then
    match (planPrimaryTops g.primary tops parents pending).1 with
    | [] => ([], [], (planPrimaryTops g.primary tops parents pending).2.1)
    | x :: _ =>
      (x, sl "first required", stackPrune (planPrimaryTops g.primary tops parents pending).2.1 x)
  else ((planPrimaryTops g.primary tops parents pending).2.2, sl "primary source",
    (planPrimaryTops g.primary tops parents pending).2.1)

/-- Top selection composed with the stack construction, as `plan` performs
it for two or more required sources. -/
def planTopSelFull (g : SGraph) (pending : List Str) : Str × Str × List Str :=
  planTopSel g pending (topsParentsOf g pending).1 (topsParentsOf g pending).2

/-- `gSourceGraph.plan`: validate, check presence, select the top, then walk
the remaining sources adding joins. -/
def gPlan (g : SGraph) (required0 : List Str) : Except PlanErr GPlan :=
  let count := required0.length
  let required :=
    if count = 0 then
      match g.nodes with
      | [] => []
      | n :: _ => [n.name]
    else required0
  match gValidate g.nodes with
  | some e => Except.error e
  | none =>
    let pending := newStackUnique required
    match pending.find? (fun s => (getNode g s).isNone) with
    | some s => Except.error (PlanErr.notFound s)
    | none =>
      if count = 1 then
        Except.ok { top := pending.headD [], joins := [], require := required,
                    topNote := sl "only table" }
      else
        if (planTopSelFull g pending).1 = []
        then Except.error (PlanErr.noTop required)
        else
          match joinsLoop g (planTopSelFull g pending).1 (planTopSelFull g pending).2.2
              { top := (planTopSelFull g pending).1, joins := [], require := required,
                topNote := (planTopSelFull g pending).2.1 } with
          | Except.error e => Except.error e
          | Except.ok (plDone, rem) =>
            if rem.length > 0 then
              Except.error (PlanErr.notEnough rem (planTopSelFull g pending).1)
            else Except.ok plDone

/-- `graph.AddEdge` on the undirected store: duplicate edges (in either
orientation) are `ErrEdgeAlreadyExists`. -/
def addEdgeU (edges : List GEdge) (a b : Str) (j : GJoin) : Except Str (List GEdge) :=
  if edges.any (fun e => (e.a = a ∧ e.b = b) ∨ (e.a = b ∧ e.b = a)) then
    Except.error (sl "edge exists")
  else Except.ok (edges ++ [GEdge.mk a b j])

/-- `gSourceGraph._addVertexUnsafe`: the parent edge from the parent to this
node, then one edge per link. -/
def addVertexU (edges : List GEdge) (n : GNode) : Except Str (List GEdge) := do
  let e1 ←
    match n.parent with
    | some j => addEdgeU edges j.otherK.table n.name j
    | none => Except.ok edges
  n.link.foldlM (fun acc pr => addEdgeU acc n.name pr.2.table pr.2) e1

/-- `gSourceGraph.Add`: skip duplicates, first node becomes the primary. -/
def graphAdd (g : SGraph) (ns : List GNode) : Except Str SGraph :=
  ns.foldlM
    (fun g n =>
      if g.nodes.any (fun m => m.name = n.name) then pure g
      else do
        let primary := if g.nodes.isEmpty then n.name else g.primary
        let edges ← addVertexU g.edges n
        pure { primary := primary, nodes := g.nodes ++ [n], edges := edges })
    g

/-- The empty source graph. -/
def sgEmpty : SGraph := ⟨[], [], []⟩

/-- Keep the first occurrence of each element (a `StackUnique` fold). -/
def dedupKeepFirst (xs : List Str) : List Str := xs.foldl stackPush []

/-- The data-typed test the claim's `tops` partition uses. -/
def pDataOf (g : SGraph) (s : Str) : Bool :=
  match getNode g s with
  | some n => gIsData n
  | none => false

/-- The parent-name extraction the claim's `parent-ofs` partition uses. -/
def pParOf (g : SGraph) (s : Str) : Option Str :=
  match getNode g s with
  | some n => n.parent.map (fun j => j.otherK.table)
  | none => none

/-- Modelled from the claim (C2) as frozen: the five top-selection rules in
order, reading "first data-typed required source in declaration order"
literally (first in the graph's node declaration order). -/
def claimTopDecl (g : SGraph) (required : List Str) : Str :=
  let pending := newStackUnique required
  let tops := pending.filter (pDataOf g)
  let parents := dedupKeepFirst (pending.filterMap (pParOf g))
  if g.primary ∈ tops then g.primary
  else if g.primary ∈ parents then g.primary
  else if tops = [] ∧ parents.length = 1 then parents.headD []
  else if ¬ tops = [] then
    match g.nodes.find? (fun n => decide (n.name ∈ pending) && gIsData n) with
    | some n => n.name
    | none => []
  else pending.headD []

/-- Modelled from the claim (C2), amended: identical rules but "first"
data-typed (and first remaining) required source taken in the order of the
required list, which is how the code's `StackUnique` stacks are built. -/
def claimTopReq (g : SGraph) (required : List Str) : Str :=
  let pending := newStackUnique required
  let tops := pending.filter (pDataOf g)
  let parents := dedupKeepFirst (pending.filterMap (pParOf g))
  if g.primary ∈ tops then g.primary
  else if g.primary ∈ parents then g.primary
  else if tops = [] ∧ parents.length = 1 then parents.headD []
  else if ¬ tops = [] then tops.headD []
  else pending.headD []

theorem mem_stackPush {x y : Str} {st : List Str} :
    x ∈ stackPush st y ↔ x ∈ st ∨ x = y := by
  unfold stackPush
  split
  · rename_i h
    constructor
    · exact Or.inl
    · rintro (hx | rfl)
      · exact hx
      · exact h
  · simp

theorem stackPush_nodup {st : List Str} (h : st.Nodup) (y : Str) :
    (stackPush st y).Nodup := by
  unfold stackPush
  split
  · exact h
  · rename_i hy
    simpa [List.nodup_append] using ⟨h, hy⟩

theorem newStackUnique_nodup (l : List Str) : (newStackUnique l).Nodup := by
  suffices hgen : ∀ acc : List Str, acc.Nodup → (l.foldl stackPush acc).Nodup from
    hgen [] (by simp)
  induction l with
  | nil => intro acc h; exact h
  | cons x xs ih => intro acc h; exact ih _ (stackPush_nodup h x)

theorem mem_foldl_stackPush {x : Str} :
    ∀ (l acc : List Str), x ∈ l.foldl stackPush acc ↔ x ∈ acc ∨ x ∈ l := by
  intro l
  induction l with
  | nil => simp
  | cons y ys ih =>
    intro acc
    rw [List.foldl_cons, ih, mem_stackPush]
    constructor
    · rintro ((h | h) | h)
      · exact Or.inl h
      · exact Or.inr (by simp [h])
      · exact Or.inr (by simp [h])
    · rintro (h | h)
      · exact Or.inl (Or.inl h)
      · rcases List.mem_cons.mp h with h | h
        · exact Or.inl (Or.inr h)
        · exact Or.inr h

theorem mem_newStackUnique {x : Str} {l : List Str} :
    x ∈ newStackUnique l ↔ x ∈ l := by
  rw [newStackUnique, mem_foldl_stackPush]
  simp

theorem foldl_stackPush_append {l : List Str} :
    ∀ acc : List Str, (acc ++ l).Nodup → l.foldl stackPush acc = acc ++ l := by
  induction l with
  | nil => intro acc _; simp
  | cons x xs ih =>
    intro acc h
    have hx : x ∉ acc := by
      intro hx
      have := List.disjoint_of_nodup_append h
      exact this hx (by simp)
    rw [List.foldl_cons]
    rw [show stackPush acc x = acc ++ [x] from by unfold stackPush; rw [if_neg hx]]
    rw [ih (acc ++ [x]) (by simpa using h)]
    simp

theorem newStackUnique_of_nodup {l : List Str} (h : l.Nodup) :
    newStackUnique l = l := by
  rw [newStackUnique, foldl_stackPush_append [] (by simpa using h)]
  simp

theorem newStackUnique_length_le (l : List Str) :
    (newStackUnique l).length ≤ l.length := by
  suffices hgen : ∀ acc : List Str,
      (l.foldl stackPush acc).length ≤ acc.length + l.length from by
    simpa using hgen []
  induction l with
  | nil => simp
  | cons x xs ih =>
    intro acc
    rw [List.foldl_cons]
    refine le_trans (ih (stackPush acc x)) ?_
    have : (stackPush acc x).length ≤ acc.length + 1 := by
      unfold stackPush
      split
      · omega
      · simp
    simp only [List.length_cons]
    omega

theorem getNode_name {g : SGraph} {s : Str} {n : GNode} (h : getNode g s = some n) :
    n.name = s := by
  have := List.find?_some h
  simpa using this

theorem find?_eq_value {l : List Str} {v x : Str}
    (h : l.find? (fun s => s = v) = some x) : x = v := by
  have := List.find?_some h
  simpa using this

theorem find?_eq_isSome_iff {l : List Str} {v : Str} :
    (l.find? (fun s => s = v)).isSome = true ↔ v ∈ l := by
  rw [List.find?_isSome]
  constructor
  · rintro ⟨x, hx, he⟩
    simp at he
    exact he ▸ hx
  · intro hv
    exact ⟨v, hv, by simp⟩

theorem topsOf_eq (g : SGraph) (pending : List Str)
    (hpres : ∀ s ∈ pending, (getNode g s).isSome = true) (hnd : pending.Nodup) :
    topsOf g pending = pending.filter (pDataOf g) := by
  have step1 : ∀ (l acc : List Str), (∀ s ∈ l, (getNode g s).isSome = true) →
      l.foldl
        (fun a s =>
          match getNode g s with
          | some nd => if gIsData nd then stackPush a nd.name else a
          | none => a)
        acc
      = l.foldl (fun a s => if pDataOf g s then stackPush a s else a) acc := by
    intro l
    induction l with
    | nil => intro acc _; rfl
    | cons x xs ih =>
      intro acc hp
      simp only [List.foldl_cons]
      have hx := hp x (by simp)
      cases hgn : getNode g x with
      | none => rw [hgn] at hx; cases hx
      | some nd =>
        have hname : nd.name = x := getNode_name hgn
        dsimp only
        rw [hname, show pDataOf g x = gIsData nd from by simp [pDataOf, hgn]]
        exact ih _ (fun s hs => hp s (by simp [hs]))
  have step2 : ∀ (l acc : List Str),
      l.foldl (fun a s => if pDataOf g s then stackPush a s else a) acc
      = (l.filter (pDataOf g)).foldl stackPush acc := by
    intro l
    induction l with
    | nil => intro acc; rfl
    | cons x xs ih =>
      intro acc
      by_cases hx : pDataOf g x = true
      · simp only [List.foldl_cons, if_pos hx, List.filter_cons_of_pos hx]
        exact ih _
      · simp only [List.foldl_cons, if_neg (by simpa using hx : ¬ pDataOf g x = true),
          List.filter_cons_of_neg (by simpa using hx : ¬ pDataOf g x = true)]
        exact ih _
  rw [topsOf, step1 pending [] hpres, step2,
    foldl_stackPush_append [] (by simpa using hnd.filter (pDataOf g))]
  simp

theorem parentsOf_eq (g : SGraph) (pending : List Str) :
    parentsOf g pending = dedupKeepFirst (pending.filterMap (pParOf g)) := by
  have step : ∀ (l acc : List Str),
      l.foldl
        (fun a s =>
          match getNode g s with
          | some nd =>
            match nd.parent with
            | some j => stackPush a j.otherK.table
            | none => a
          | none => a)
        acc
      = (l.filterMap (pParOf g)).foldl stackPush acc := by
    intro l
    induction l with
    | nil => intro acc; rfl
    | cons x xs ih =>
      intro acc
      simp only [List.foldl_cons]
      cases hgn : getNode g x with
      | none =>
        rw [List.filterMap_cons_none (by simp [pParOf, hgn])]
        exact ih _
      | some nd =>
        dsimp only
        cases hpar : nd.parent with
        | none =>
          rw [List.filterMap_cons_none (by simp [pParOf, hgn, hpar])]
          exact ih _
        | some j =>
          rw [List.filterMap_cons_some
              (by simp [pParOf, hgn, hpar] : pParOf g x = some j.otherK.table),
            List.foldl_cons]
          exact ih _
  rw [parentsOf, step pending []]
  rfl

theorem addPath_top (g : SGraph) (pl : GPlan) (path : List Str) :
    (addPath g pl path).top = pl.top := by
  unfold addPath
  generalize path.zip path.tail = prs
  induction prs generalizing pl with
  | nil => rfl
  | cons pr rest ih =>
    rw [List.foldl_cons]
    rw [ih]
    cases findEdge g.edges pr.1 pr.2 with
    | none => rfl
    | some j =>
      dsimp only
      split
      · rfl
      · simp [planAdd]
        split <;> rfl

theorem joinsLoop_top {g : SGraph} {top : Str} :
    ∀ {pending : List Str} {pl pl' : GPlan} {rem : List Str},
    joinsLoop g top pending pl = Except.ok (pl', rem) → pl'.top = pl.top := by
  intro pending
  induction pending with
  | nil =>
    intro pl pl' rem h
    simp only [joinsLoop] at h
    cases h
    rfl
  | cons s rest ih =>
    intro pl pl' rem h
    simp only [joinsLoop] at h
    cases hs : gSearch g top s with
    | none => rw [hs] at h; cases h
    | some path =>
      rw [hs] at h
      rw [ih h, addPath_top]

theorem joinsLoop_rem {g : SGraph} {top : Str} :
    ∀ {pending : List Str} {pl pl' : GPlan} {rem : List Str},
    joinsLoop g top pending pl = Except.ok (pl', rem) → rem = [] := by
  intro pending
  induction pending with
  | nil =>
    intro pl pl' rem h
    simp only [joinsLoop] at h
    cases h
    rfl
  | cons s rest ih =>
    intro pl pl' rem h
    simp only [joinsLoop] at h
    cases hs : gSearch g top s with
    | none => rw [hs] at h; cases h
    | some path => rw [hs] at h; exact ih h

theorem joinsLoop_unreachable {g : SGraph} {top : Str} :
    ∀ {pending : List Str} (pl : GPlan),
    (∃ r ∈ pending, reachableB g top r = false) →
    ∃ r, joinsLoop g top pending pl = Except.error (PlanErr.searchErr top r) ∧
      reachableB g top r = false := by
  intro pending
  induction pending with
  | nil =>
    intro pl h
    rcases h with ⟨r, hr, _⟩
    cases hr
  | cons s rest ih =>
    intro pl h
    by_cases hs : reachableB g top s = false
    · refine ⟨s, ?_, hs⟩
      simp only [joinsLoop]
      have : gSearch g top s = none := by
        unfold gSearch
        rw [if_neg]
        intro hcon
        rw [reachableB] at hs
        rw [hs] at hcon
        cases hcon
      rw [this]
    · rcases h with ⟨r, hr, hru⟩
      have hrs : r ∈ rest := by
        rcases List.mem_cons.mp hr with h' | h'
        · exact absurd (h' ▸ hru) hs
        · exact h'
      simp only [joinsLoop]
      have hsr : gSearch g top s =
          some (walkBack (parentsMap g top) s g.nodes.length) := by
        unfold gSearch
        rw [if_pos]
        rw [Bool.not_eq_false] at hs
        exact hs
      rw [hsr]
      exact ih _ ⟨r, hrs, hru⟩

theorem planTopSel_cascade (g : SGraph) (pending T P : List Str)
    (hprim : ¬ g.primary = []) :
    (planTopSel g pending T P).1 =
      if g.primary ∈ T then g.primary
      else if g.primary ∈ P then g.primary
      else if T = [] ∧ P.length = 1 then P.headD []
      else if ¬ T = [] then T.headD []
      else pending.headD [] := by
  unfold planTopSel
  by_cases hT0 : T.length = 0
  · have hTnil : T = [] := List.length_eq_zero.mp hT0
    subst hTnil
    rw [if_pos (by simp : ([] : List Str).length = 0),
      if_neg (by simp : ¬ g.primary ∈ ([] : List Str))]
    by_cases hP1 : P.length = 1
    · rw [if_pos hP1]
      rcases List.length_eq_one.mp hP1 with ⟨a, rfl⟩
      by_cases hm : g.primary ∈ [a]
      · have ha : g.primary = a := List.mem_singleton.mp hm
        rw [if_pos hm]
        simp [← ha]
      · rw [if_neg hm, if_pos ⟨rfl, hP1⟩]
    · rw [if_neg hP1]
      cases hf : P.find? (fun p => p = g.primary) with
      | some p =>
        have hp : p = g.primary := find?_eq_value hf
        have hmem : g.primary ∈ P := by
          rw [← find?_eq_isSome_iff (v := g.primary), hf]; rfl
        have hr : planPrimaryTops g.primary [] P pending =
            (stackPrune [] p, stackPrune pending p, p) := by
          unfold planPrimaryTops
          rw [show ([] : List Str).find? (fun s => s = g.primary) = none from rfl, hf]
        rw [hr]
        dsimp only
        rw [if_neg (by rw [hp]; exact hprim)]
        rw [if_pos hmem]
        exact hp
      | none =>
        have hnm : ¬ g.primary ∈ P := by
          rw [← find?_eq_isSome_iff (v := g.primary), hf]; simp
        have hr : planPrimaryTops g.primary [] P pending = ([], pending, []) := by
          unfold planPrimaryTops
          rw [show ([] : List Str).find? (fun s => s = g.primary) = none from rfl, hf]
        rw [hr]
        dsimp only
        rw [if_pos rfl]
        rw [if_neg hnm, if_neg (fun hand => hP1 hand.2),
          if_neg (by simp : ¬ ¬ ([] : List Str) = [])]
        cases pending with
        | nil => rfl
        | cons x rest => rfl
  · have hTne : ¬ T = [] := fun h => hT0 (by rw [h]; rfl)
    rw [if_neg hT0]
    cases hf : T.find? (fun s => s = g.primary) with
    | some t =>
      have ht : t = g.primary := find?_eq_value hf
      have hmem : g.primary ∈ T := by
        rw [← find?_eq_isSome_iff (v := g.primary), hf]; rfl
      have hr : planPrimaryTops g.primary T P pending =
          (stackPrune T t, stackPrune pending t, t) := by
        unfold planPrimaryTops
        rw [hf]
      rw [hr]
      dsimp only
      rw [if_neg (by rw [ht]; exact hprim)]
      rw [if_pos hmem]
      exact ht
    | none =>
      have hnm : ¬ g.primary ∈ T := by
        rw [← find?_eq_isSome_iff (v := g.primary), hf]; simp
      cases hf2 : P.find? (fun p => p = g.primary) with
      | some p =>
        have hp : p = g.primary := find?_eq_value hf2
        have hmem2 : g.primary ∈ P := by
          rw [← find?_eq_isSome_iff (v := g.primary), hf2]; rfl
        have hr : planPrimaryTops g.primary T P pending =
            (stackPrune T p, stackPrune pending p, p) := by
          unfold planPrimaryTops
          rw [hf, hf2]
        rw [hr]
        dsimp only
        rw [if_neg (by rw [hp]; exact hprim)]
        rw [if_neg hnm, if_pos hmem2]
        exact hp
      | none =>
        have hnm2 : ¬ g.primary ∈ P := by
          rw [← find?_eq_isSome_iff (v := g.primary), hf2]; simp
        have hr : planPrimaryTops g.primary T P pending = (T, pending, []) := by
          unfold planPrimaryTops
          rw [hf, hf2]
        rw [hr]
        dsimp only
        rw [if_pos rfl]
        rw [if_neg hnm, if_neg hnm2, if_neg (fun hand => hTne hand.1), if_pos hTne]
        cases T with
        | nil => exact absurd rfl hTne
        | cons t ts => rfl

/-- **C2 (amended).** For a plan request whose required-source set has at
least two elements (all of them present in the graph, with a named primary
source), the chosen top table follows the claim's rule cascade with "first"
read in required-list order: the primary source if it is among the
data-typed required sources; else the primary source if it is among the
parents of the parented required sources; else, when no data-typed source is
required and all parented required sources share a single parent, that
parent; else the first data-typed required source in required order; else
the first remaining required source.  Any successful plan carries exactly
this top. -/
theorem c2_amended (g : SGraph) (required : List Str)
    (hprim : ¬ g.primary = [])
    (hlen : 2 ≤ (newStackUnique required).length)
    (hpres : ∀ s ∈ required, (getNode g s).isSome = true) :
    (planTopSelFull g (newStackUnique required)).1 = claimTopReq g required ∧
    ∀ pl, gPlan g required = Except.ok pl →
      pl.top = (planTopSelFull g (newStackUnique required)).1 := by
  have hnd := newStackUnique_nodup required
  have hpres' : ∀ s ∈ newStackUnique required, (getNode g s).isSome = true :=
    fun s hs => hpres s (mem_newStackUnique.mp hs)
  have hTeq := topsOf_eq g (newStackUnique required) hpres' hnd
  have hPeq := parentsOf_eq g (newStackUnique required)
  constructor
  · rw [planTopSelFull, topsParentsOf, hTeq, hPeq, planTopSel_cascade _ _ _ _ hprim]
    rfl
  · intro pl hok
    have h2 : 2 ≤ required.length := le_trans hlen (newStackUnique_length_le required)
    simp only [gPlan] at hok
    rw [if_neg (show ¬ required.length = 0 by omega)] at hok
    cases hv : gValidate g.nodes with
    | some e => rw [hv] at hok; exact absurd hok (by simp)
    | none =>
      rw [hv] at hok
      cases hfind : (newStackUnique required).find? (fun s => (getNode g s).isNone) with
      | some s => rw [hfind] at hok; exact absurd hok (by simp)
      | none =>
        rw [hfind] at hok
        rw [if_neg (show ¬ required.length = 1 by omega)] at hok
        by_cases hsel : (planTopSelFull g (newStackUnique required)).1 = []
        · rw [if_pos hsel] at hok; exact absurd hok (by simp)
        · rw [if_neg hsel] at hok
          cases hjl : joinsLoop g (planTopSelFull g (newStackUnique required)).1
              (planTopSelFull g (newStackUnique required)).2.2
              { top := (planTopSelFull g (newStackUnique required)).1, joins := [],
                require := required,
                topNote := (planTopSelFull g (newStackUnique required)).2.1 } with
          | error e => rw [hjl] at hok; exact absurd hok (by simp)
          | ok pr =>
            rw [hjl] at hok
            rcases pr with ⟨plDone, rem⟩
            dsimp only at hok
            by_cases hrem : rem.length > 0
            · rw [if_pos hrem] at hok; exact absurd hok (by simp)
            · rw [if_neg hrem] at hok
              have : plDone = pl := by
                simpa using hok
              rw [← this]
              exact joinsLoop_top hjl

/-- **C6 (amended).** When the required-source set (two or more present
sources, top selection succeeding) contains a source unreachable from the
chosen top in the relationship graph, the planner fails with the search
error `error searching from <top> to <r>` (wrapping the graph library's
target-not-reachable error) for some unreachable required source `r`; the
`not enough constraints to resolve a plan` error is never returned. -/
theorem c6_amended (g : SGraph) (required : List Str)
    (hval : gValidate g.nodes = none)
    (hpres2 : (newStackUnique required).find? (fun s => (getNode g s).isNone) = none)
    (hlen : 2 ≤ (newStackUnique required).length)
    (hsel : ¬ (planTopSelFull g (newStackUnique required)).1 = [])
    (hunreach : ∃ r ∈ (planTopSelFull g (newStackUnique required)).2.2,
        reachableB g (planTopSelFull g (newStackUnique required)).1 r = false) :
    (∃ r, gPlan g required = Except.error
        (PlanErr.searchErr (planTopSelFull g (newStackUnique required)).1 r) ∧
      reachableB g (planTopSelFull g (newStackUnique required)).1 r = false) ∧
    ∀ pend t, gPlan g required ≠ Except.error (PlanErr.notEnough pend t) := by
  have h2 : 2 ≤ required.length := le_trans hlen (newStackUnique_length_le required)
  obtain ⟨r, hjl, hru⟩ := @joinsLoop_unreachable g
    (planTopSelFull g (newStackUnique required)).1
    (planTopSelFull g (newStackUnique required)).2.2
    { top := (planTopSelFull g (newStackUnique required)).1, joins := [],
      require := required,
      topNote := (planTopSelFull g (newStackUnique required)).2.1 } hunreach
  have heq : gPlan g required = Except.error
      (PlanErr.searchErr (planTopSelFull g (newStackUnique required)).1 r) := by
    simp only [gPlan]
    rw [if_neg (show ¬ required.length = 0 by omega), hval, hpres2,
      if_neg (show ¬ required.length = 1 by omega), if_neg hsel, hjl]
  refine ⟨⟨r, heq, hru⟩, ?_⟩
  intro pend t hcon
  rw [heq] at hcon
  simp at hcon

/-! Concrete instances for the C2 and C6 counterexamples and witnesses. -/

/-- Primary data source `p`. -/
def c2pN : GNode := ⟨sl "p", none, []⟩

/-- Data source `z_data` (declared before `a_data`). -/
def c2zN : GNode := ⟨sl "z_data", none, []⟩

/-- Data source `a_data` (declared after `z_data`). -/
def c2aN : GNode := ⟨sl "a_data", none, []⟩

/-- The parent join of the join source `j` onto `z_data`. -/
def c2jParent : GJoin := ⟨sl "j", ⟨sl "j", sl "z_data_id"⟩, ⟨sl "z_data", sl "id"⟩⟩

/-- The link join of the join source `j` onto `a_data`. -/
def c2jLink : GJoin := ⟨sl "a_data", ⟨sl "a_data", sl "id"⟩, ⟨sl "j", sl "a_data_id"⟩⟩

/-- The join source `j` (parent `z_data`, linked to `a_data`). -/
def c2jN : GNode := ⟨sl "j", some c2jParent, [(sl "a_data", c2jLink)]⟩

/-- The graph `gSourceGraph.Add` builds from the four sources above. -/
def c2Graph : SGraph :=
  ⟨sl "p", [c2pN, c2zN, c2aN, c2jN],
   [⟨sl "z_data", sl "j", c2jParent⟩, ⟨sl "j", sl "a_data", c2jLink⟩]⟩

/-- **C2 counterexample.** In a graph declaring `p` (primary), `z_data`,
`a_data`, `j` in that order, the plan request `[a_data, z_data]` (sorted
canonical order, as `getRequiredSources` produces) succeeds with top
`a_data` — the first data-typed required source in *required* order — while
the claim's rules pick `z_data`, the first data-typed required source in
*declaration* order. -/
theorem c2_counterexample :
    graphAdd sgEmpty [c2pN, c2zN, c2aN, c2jN] = Except.ok c2Graph ∧
    gPlan c2Graph [sl "a_data", sl "z_data"] = Except.ok
      { top := sl "a_data", joins := [c2jParent],
        require := [sl "a_data", sl "z_data"], topNote := sl "first required" } ∧
    claimTopDecl c2Graph [sl "a_data", sl "z_data"] = sl "z_data" ∧
    ¬ (sl "a_data" = sl "z_data") := by
  refine ⟨by decide, by decide, by decide, by decide⟩

/-- **C2 amended witness.** The amended rule cascade evaluated on the
counterexample graph and required set. -/
theorem c2_amended_witness :
    ¬ c2Graph.primary = [] ∧
    2 ≤ (newStackUnique [sl "a_data", sl "z_data"]).length ∧
    (∀ s ∈ [sl "a_data", sl "z_data"], (getNode c2Graph s).isSome = true) ∧
    ((planTopSelFull c2Graph (newStackUnique [sl "a_data", sl "z_data"])).1 =
        claimTopReq c2Graph [sl "a_data", sl "z_data"] ∧
      ∀ pl, gPlan c2Graph [sl "a_data", sl "z_data"] = Except.ok pl →
        pl.top = (planTopSelFull c2Graph (newStackUnique [sl "a_data", sl "z_data"])).1) :=
  ⟨by decide, by decide, by decide,
    c2_amended c2Graph [sl "a_data", sl "z_data"] (by decide) (by decide) (by decide)⟩

/-- The disconnected two-source graph for the C6 counterexample. -/
def c6Graph : SGraph := ⟨sl "p", [⟨sl "p", none, []⟩, ⟨sl "q", none, []⟩], []⟩

/-- **C6 counterexample.** With two disconnected data sources `p` (primary)
and `q` both required, the planner fails with the search error
`error searching from "p" to "q"`, not with the claimed
`not enough constraints to resolve a plan` error. -/
theorem c6_counterexample :
    graphAdd sgEmpty [⟨sl "p", none, []⟩, ⟨sl "q", none, []⟩] = Except.ok c6Graph ∧
    gPlan c6Graph [sl "p", sl "q"] =
      Except.error (PlanErr.searchErr (sl "p") (sl "q")) ∧
    ∀ pend t, gPlan c6Graph [sl "p", sl "q"] ≠
      Except.error (PlanErr.notEnough pend t) := by
  have h : gPlan c6Graph [sl "p", sl "q"] =
      Except.error (PlanErr.searchErr (sl "p") (sl "q")) := by decide
  refine ⟨by decide, h, ?_⟩
  intro pend t hcon
  rw [h] at hcon
  simp at hcon

/-- **C6 amended witness.** The amended failure mode evaluated on the
disconnected graph. -/
theorem c6_amended_witness :
    gValidate c6Graph.nodes = none ∧
    (newStackUnique [sl "p", sl "q"]).find?
      (fun s => (getNode c6Graph s).isNone) = none ∧
    2 ≤ (newStackUnique [sl "p", sl "q"]).length ∧
    ¬ (planTopSelFull c6Graph (newStackUnique [sl "p", sl "q"])).1 = [] ∧
    (∃ r ∈ (planTopSelFull c6Graph (newStackUnique [sl "p", sl "q"])).2.2,
        reachableB c6Graph (planTopSelFull c6Graph (newStackUnique [sl "p", sl "q"])).1 r
          = false) ∧
    ((∃ r, gPlan c6Graph [sl "p", sl "q"] = Except.error
        (PlanErr.searchErr (planTopSelFull c6Graph (newStackUnique [sl "p", sl "q"])).1 r) ∧
      reachableB c6Graph (planTopSelFull c6Graph (newStackUnique [sl "p", sl "q"])).1 r
        = false) ∧
    ∀ pend t, gPlan c6Graph [sl "p", sl "q"] ≠
      Except.error (PlanErr.notEnough pend t)) :=
  ⟨by decide, by decide, by decide, by decide, by decide,
    c6_amended c6Graph [sl "p", sl "q"] (by decide) (by decide) (by decide) (by decide)
      (by decide)⟩

/-! ## The EQL AST (`Syntax` and friends)

Translated from `src/syntax.go`, `src/syntax_source-key.go`,
`src/syntax_source-ref.go`, `src/syntax_src-key.go`, `src/syntax_value.go`,
`src/syntax_operator.go`, `src/syntax_expression.go`,
`src/syntax_condition.go`, `src/unnamed/part_008` (Constraint),
`src/unnamed/part_012` (OrderBy) and `src/unnamed/part_007` (Boolean).
Nil-able Go pointers become `Option`s.  Source positions carried by the Go
errors are not modelled; a `SyntaxError` is its parent and specific error.
The Go `Null` type's `String` is not under `src/`; modelled from the spec:
null renders as `NULL`. -/

/-- The error values of `src/errors.go` plus the wrapping shapes the
compiler produces; `syntaxErr` is `newSyntaxError`'s parent/specific pair
(positions elided). -/
inductive EqlErr
  | invalidSyntax
  | syntaxErr (parent specific : EqlErr)
  | nilStructure
  | mismatchQuery
  | mismatchLookup
  | negativeOffset
  | negativeLimit
  | missingSourceKey
  | missingOperator
  | missingLeftSide
  | missingRightSide
  | invalidConstraint
  | invalidInOp
  | opStringRequired
  | syntaxValueType
  | countNeedsOneKey
  | distinctNeedsOneKey
  | unquoteErr
  | builderError
  | tableNotFound (name : Str)
  | columnNotFound (table key : Str)
  | columnConfigNotFound (key : Str)
  | sourceNotFound
  | unknownSourceName (name : Str)
  | unknownSourceKeyAlias (name : Str)
  | unknownSourceRef (ref : Str)
  | queryRequiresStub
  | invalidConfig (cause : EqlErr)
  | noSources
  | unnamedSource
  | noSourceValues
  | notSnakeCased (got want : Str)
  | parentNotFound (source needs : Str)
  | emptySourceValue (source : Str) (idx : Nat)
  | emptySourceValueKey (source : Str) (idx : Nat)
  | sourceExists (name : Str)
  | parentSourceNotFound (name : Str)
  | graphAddErr (name : Str)
  | unknownKey (method name : Str)
  | invalidSourceValueType (key : Str)
  | parseFailed
  | emptyInput
  | noSourcesRequired
  | planFailed (e : PlanErr)
deriving DecidableEq, Repr

/-- `SrcKey` (`src/syntax_src-key.go`). -/
structure SrcKeyT where
  src : Str
  key : Str
  keyAlias : Str
deriving DecidableEq, Repr

/-- `SrcKey.String`. -/
def srcKeyString (s : SrcKeyT) : Str :=
  if ¬ s.keyAlias = [] then s.keyAlias
  else if s.src = [] then '.' :: s.key
  else s.src ++ '.' :: s.key

/-- `SourceKey` (projection keys of a LOOKUP). -/
structure SourceKeyT where
  source : Option Str
  key : Str
  keyAlias : Option Str
deriving DecidableEq, Repr

/-- `SourceKey.validate`. -/
def sourceKeyValidate (s : SourceKeyT) : Option EqlErr :=
  match s.keyAlias with
  | none =>
    if s.source = none ∧ s.key = [] then
      some (EqlErr.syntaxErr EqlErr.invalidSyntax EqlErr.nilStructure)
    else if s.key = [] then
      some (EqlErr.syntaxErr EqlErr.invalidSyntax EqlErr.missingSourceKey)
    else none
  | some a =>
    if a = [] then some (EqlErr.syntaxErr EqlErr.invalidSyntax EqlErr.nilStructure)
    else none

/-- `SourceKey.findSources` (and `AsKey`). -/
def sourceKeyFindSources (s : SourceKeyT) : List SrcKeyT :=
  [⟨s.source.getD [], s.key, s.keyAlias.getD []⟩]

/-- `SourceKey.String`. -/
def sourceKeyString (s : SourceKeyT) : Str :=
  (s.source.getD []) ++ '.' :: s.key ++
    (match s.keyAlias with
     | some a => sl " AS " ++ a
     | none => [])

/-- `SourceRef` (column references). -/
structure SourceRefT where
  source : Option Str
  key : Option Str
  refAlias : Option Str
deriving DecidableEq, Repr

/-- `SourceRef.String`. -/
def sourceRefString (s : SourceRefT) : Str :=
  match s.refAlias with
  | some a => a
  | none =>
    match s.source, s.key with
    | some src, some k => src ++ '.' :: k
    | none, some k => '.' :: k
    | _, _ => []

/-- `SourceRef.validate`. -/
def sourceRefValidate (s : SourceRefT) : Option EqlErr :=
  match s.refAlias with
  | none =>
    if s.source = none ∧ s.key = none then
      some (EqlErr.syntaxErr EqlErr.invalidSyntax EqlErr.nilStructure)
    else if s.key = none then
      some (EqlErr.syntaxErr EqlErr.invalidSyntax EqlErr.missingSourceKey)
    else none
  | some a =>
    if a = [] then some (EqlErr.syntaxErr EqlErr.invalidSyntax EqlErr.nilStructure)
    else none

/-- `SourceRef.findSources`. -/
def sourceRefFindSources (s : SourceRefT) : List SrcKeyT :=
  match s.key with
  | none => []
  | some k => [⟨s.source.getD [], k, s.refAlias.getD []⟩]

/-- Carrier for a Go `float64` together with its `%v` rendering; the
shortest-round-trip float formatting itself is out of scope. -/
structure GoFloat where
  render : Str
deriving DecidableEq, Repr

/-- A column of the SQL builder: qualified table and key. -/
structure ColumnT where
  table : Str
  key : Str
deriving DecidableEq, Repr

/-- The `interface{}` values handed to the SQL builder as comparison
operands. -/
inductive SqlVal
  | vStr (s : Str)
  | vInt (n : Int)
  | vFloat (f : GoFloat)
  | vCol (c : ColumnT)
deriving DecidableEq, Repr

/-- The SQL builder conditions produced by the compiler. -/
inductive CondT
  | andL (cs : List CondT)
  | orL (cs : List CondT)
  | ceq (c : ColumnT) (v : SqlVal)
  | cne (c : ColumnT) (v : SqlVal)
  | cge (c : ColumnT) (v : SqlVal)
  | cle (c : ColumnT) (v : SqlVal)
  | cgt (c : ColumnT) (v : SqlVal)
  | clt (c : ColumnT) (v : SqlVal)
  | clike (c : ColumnT) (pat : Str)
  | cnotLike (c : ColumnT) (pat : Str)
  | cin (c : ColumnT) (vs : List SqlVal)
  | cnotIn (c : ColumnT) (vs : List SqlVal)
deriving Repr

/-- `Operator` (13 capture booleans). -/
structure OperatorT where
  opEQ : Bool := false
  opNE : Bool := false
  opGE : Bool := false
  opLE : Bool := false
  opGT : Bool := false
  opLT : Bool := false
  opNot : Bool := false
  opNt : Bool := false
  opLK : Bool := false
  opSW : Bool := false
  opEW : Bool := false
  opCS : Bool := false
  opCF : Bool := false
deriving DecidableEq, Repr

/-- `Operator.String`. -/
def operatorString (o : OperatorT) : Str :=
  let pre : Str := if o.opNot then sl "NOT " else if o.opNt then sl "!" else []
  if o.opEQ then pre ++ sl "=="
  else if o.opNE then pre ++ sl "!="
  else if o.opLE then pre ++ sl "<="
  else if o.opGE then pre ++ sl ">="
  else if o.opLT then pre ++ sl "<"
  else if o.opGT then pre ++ sl ">"
  else if o.opLK then pre ++ sl "LIKE"
  else if o.opSW then pre ++ sl "^="
  else if o.opEW then pre ++ sl "$="
  else if o.opCS then pre ++ sl "*="
  else if o.opCF then pre ++ sl "~="
  else []

/-- `Operator.validate`. -/
def operatorValidate (o : OperatorT) : Option EqlErr :=
  if operatorString o = [] then
    some (EqlErr.syntaxErr EqlErr.invalidSyntax EqlErr.nilStructure)
  else none

/-- Digit value of an ASCII digit. -/
def digitVal (c : Char) : Option Nat :=
  if isDigA c then some (c.toNat - 48) else none

/-- Parse a nonempty all-digit string. -/
def parseDigits (s : Str) : Option Nat :=
  match s with
  | [] => none
  | _ =>
    s.foldl
      (fun acc c =>
        match acc, digitVal c with
        | some n, some d => some (n * 10 + d)
        | _, _ => none)
      (some 0)

/-- `strconv.Atoi` (decimal, optional sign). -/
def parseIntS (s : Str) : Option Int :=
  match s with
  | '-' :: rest => (parseDigits rest).map (fun n => -(n : Int))
  | '+' :: rest => (parseDigits rest).map (fun n => (n : Int))
  | _ => (parseDigits s).map (fun n => (n : Int))

/-- Decimal digits of a natural number, fuel-guided (`n` is always reached
within `fuel = n + 1` divisions by ten). -/
def natDigitsF : Nat → Nat → Str
  | 0, _ => []
  | fuel + 1, n =>
    if n = 0 then []
    else natDigitsF fuel (n / 10) ++ [Char.ofNat (48 + n % 10)]

/-- Decimal digits of a positive natural number. -/
def natDigits (n : Nat) : Str := natDigitsF (n + 1) n

/-- `strconv.Itoa`. -/
def intToStr (n : Int) : Str :=
  if n < 0 then '-' :: natDigits n.natAbs
  else if n = 0 then ['0']
  else natDigits n.natAbs

/-- Is `c` ASCII whitespace (as `unicode.IsSpace` treats the ASCII range). -/
def isWsA (c : Char) : Bool := c = ' ' || c = '\t' || c = '\n' || c = '\r'

/-- `strings.Fields`: split around runs of whitespace. -/
def fieldsWs (s : Str) : List Str :=
  let step := s.foldr
    (fun c (acc : List Str × Str) =>
      if isWsA c then
        if acc.2 = [] then acc else (acc.2 :: acc.1, [])
      else (acc.1, c :: acc.2))
    ([], [])
  if step.2 = [] then step.1 else step.2 :: step.1

/-- The Go runtime values handed to `Value.apply` (and `PrepareSyntax`);
`gtime` carries the `time.Time`'s `String()` rendering, `gother` stands for
any other dynamic type. -/
inductive GoVal
  | gstr (s : Str)
  | gint (n : Int)
  | gint8 (n : Int)
  | gint32 (n : Int)
  | gint64 (n : Int)
  | gfloat32 (f : GoFloat)
  | gfloat64 (f : GoFloat)
  | gbool (b : Bool)
  | gnil
  | gtime (render : Str)
  | gother (desc : Str)
deriving DecidableEq, Repr

/-- `Value` (`src/syntax_value.go`): at most one branch set. -/
structure ValueT where
  text : Option Str := none
  intv : Option Int := none
  floatv : Option GoFloat := none
  boolv : Option Bool := none
  nullv : Option Bool := none
  sourceRef : Option SourceRefT := none
  placeholder : Option Str := none
deriving DecidableEq, Repr

/-- `Boolean.String` (`src/unnamed/part_007`). -/
def booleanString (b : Bool) : Str := if b then sl "TRUE" else sl "FALSE"

/-- Modelled from the spec: the `Null` capture type renders as `NULL` (its
Go source is not under `src/`). -/
def nullString (_ : Bool) : Str := sl "NULL"

/-- `Value.validate`. -/
def valueValidate (v : ValueT) : Option EqlErr :=
  match v.sourceRef with
  | some r => sourceRefValidate r
  | none =>
    if v.placeholder.isSome || v.text.isSome || v.intv.isSome || v.floatv.isSome ||
        v.boolv.isSome || v.nullv.isSome then none
    else some (EqlErr.syntaxErr EqlErr.invalidSyntax EqlErr.nilStructure)

/-- `Value.findSources`. -/
def valueFindSources (v : ValueT) : List SrcKeyT :=
  match v.sourceRef with
  | some r => sourceRefFindSources r
  | none => []

/-- `Value.String`. -/
def valueString (v : ValueT) : Str :=
  match v.sourceRef with
  | some r => sourceRefString r
  | none =>
    match v.placeholder with
    | some p => p
    | none =>
      match v.text with
      | some t => t
      | none =>
        match v.intv with
        | some n => intToStr n
        | none =>
          match v.floatv with
          | some f => f.render
          | none =>
            match v.boolv with
            | some b => booleanString b
            | none =>
              match v.nullv with
              | some n => nullString n
              | none => []

/-- `Value.apply`: bind a `{N}` placeholder (1-based) to the matching
runtime argument when the index is within range; unsupported dynamic types
(including `time.Time`, which has no case) are `ErrSyntaxValueType`. -/
def valueApply (v : ValueT) (argv : List GoVal) : Except EqlErr ValueT :=
  match v.placeholder with
  | none => Except.ok v
  | some ph =>
    if ph = [] then Except.ok v
    else
      let number := (ph.drop 1).dropLast
      match parseIntS number with
      | none => Except.ok v
      | some pos =>
        let pos := pos - 1
        if 0 ≤ pos ∧ pos < argv.length then
          match argv.get? pos.toNat with
          | some (GoVal.gstr s) => Except.ok { v with text := some s, placeholder := none }
          | some (GoVal.gint n) => Except.ok { v with intv := some n, placeholder := none }
          | some (GoVal.gint8 n) => Except.ok { v with intv := some n, placeholder := none }
          | some (GoVal.gint32 n) => Except.ok { v with intv := some n, placeholder := none }
          | some (GoVal.gint64 n) => Except.ok { v with intv := some n, placeholder := none }
          | some (GoVal.gfloat32 f) =>
            Except.ok { v with floatv := some f, placeholder := none }
          | some (GoVal.gfloat64 f) =>
            Except.ok { v with floatv := some f, placeholder := none }
          | some (GoVal.gbool b) => Except.ok { v with boolv := some b, placeholder := none }
          | some GoVal.gnil => Except.ok { v with nullv := some true, placeholder := none }
          | some (GoVal.gtime _) => Except.error EqlErr.syntaxValueType
          | some (GoVal.gother _) => Except.error EqlErr.syntaxValueType
          | none => Except.ok v
        else Except.ok v

/-- Lower-to-upper pairing. -/
def upPair : List (Char × Char) := losList.zip upsList

/-- Upper-case a lowercase ASCII letter. -/
def upA (c : Char) : Char :=
  match upPair.find? (fun p => p.1 == c) with
  | some p => p.2
  | none => c

/-- `strings.ToUpper` (ASCII). -/
def strUpper (s : Str) : Str := s.map upA

/-- `clStrings.TrimQuotes` (external): strip one matching pair of quote
characters. -/
def trimQuotes (s : Str) : Str :=
  match s with
  | [] => []
  | [_] => s
  | c :: _ =>
    if (c = '\'' || c = '"' || c = btick) ∧ s.getLast? = some c then
      (s.drop 1).dropLast
    else s

/-- `strings.ReplaceAll(s, backslash-quote, quote)`. -/
def unescapeDQs : Str → Str
  | [] => []
  | '\\' :: '"' :: rest => '"' :: unescapeDQs rest
  | c :: rest => c :: unescapeDQs rest

/-- `strings.ReplaceAll(s, quote, backslash-quote)`. -/
def escapeDQs : Str → Str
  | [] => []
  | '"' :: rest => '\\' :: '"' :: escapeDQs rest
  | c :: rest => c :: escapeDQs rest

/-- The escape-processing core of `strconv.Unquote` for double-quoted
bodies (the escapes the EQL pipeline can produce). -/
def unquoteDQBody : Str → Option Str
  | [] => some []
  | '\\' :: c :: rest =>
    (match c with
     | '"' => some '"'
     | '\\' => some '\\'
     | 'n' => some '\n'
     | 't' => some '\t'
     | 'r' => some '\r'
     | '\'' => some '\''
     | _ => none).bind
      (fun e => (unquoteDQBody rest).map (fun r => e :: r))
  | '\\' :: [] => none
  | '"' :: _ => none
  | c :: rest => (unquoteDQBody rest).map (fun r => c :: r)

/-- `strconv.Unquote`: double-quoted strings with escapes, raw backtick
strings, single-character rune literals. -/
def goUnquote (s : Str) : Option Str :=
  match s with
  | '"' :: rest =>
    if rest.getLast? = some '"' ∧ 1 ≤ rest.length then unquoteDQBody rest.dropLast
    else none
  | c :: rest =>
    if c = btick then
      if rest.getLast? = some btick ∧ 1 ≤ rest.length then
        if (rest.dropLast).contains btick then none else some rest.dropLast
      else none
    else if c = '\'' then
      match rest with
      | [d, q] => if q = '\'' ∧ ¬ d = '\'' ∧ ¬ d = '\\' then some [d] else none
      | _ => none
    else none
  | [] => none

/-- `cProcessSrcKey`: one resolved source key reference. -/
structure CPSrcKey where
  name : Str
  k : Bool
  col : ColumnT
  o : SrcKeyT
  u : SrcKeyT
deriving DecidableEq, Repr

/-- Association-list lookup (Go map read). -/
def assocGet {A : Type} (m : List (Str × A)) (k : Str) : Option A :=
  (m.find? (fun p => p.1 = k)).map (fun p => p.2)

/-- Association-list insert-or-overwrite (Go map write). -/
def assocPut {A : Type} (m : List (Str × A)) (k : Str) (v : A) : List (Str × A) :=
  m.filter (fun p => ¬ p.1 = k) ++ [(k, v)]

/-- `SourceRef.make`: resolve through the processor's `updated` map. -/
def sourceRefMake (updated : List (Str × CPSrcKey)) (r : SourceRefT) :
    Except EqlErr SqlVal :=
  match assocGet updated (sourceRefString r) with
  | some bsk => Except.ok (SqlVal.vCol bsk.col)
  | none => Except.error (EqlErr.unknownSourceRef (sourceRefString r))

/-- `Value.makeOther`: the right-hand side of a constraint as a builder
operand.  A surviving placeholder is passed through as its literal text. -/
def valueMakeOther (updated : List (Str × CPSrcKey)) (v : ValueT) :
    Except EqlErr SqlVal :=
  match v.sourceRef with
  | some r => sourceRefMake updated r
  | none =>
    match v.placeholder with
    | some ph => Except.ok (SqlVal.vStr ph)
    | none =>
      match v.text with
      | some t =>
        let t2 :=
          if 0 < t.length ∧ t.head? = some '\'' ∧ t.getLast? = some '\'' then
            '"' :: escapeDQs (unescapeDQs (trimQuotes t)) ++ ['"']
          else t
        (match goUnquote t2 with
         | some u => Except.ok (SqlVal.vStr u)
         | none => Except.error (EqlErr.syntaxErr EqlErr.invalidSyntax EqlErr.unquoteErr))
      | none =>
        match v.intv with
        | some n => Except.ok (SqlVal.vInt n)
        | none =>
          match v.floatv with
          | some f => Except.ok (SqlVal.vFloat f)
          | none =>
            match v.boolv with
            | some b => Except.ok (SqlVal.vStr (booleanString b))
            | none =>
              match v.nullv with
              | some n => Except.ok (SqlVal.vStr (nullString n))
              | none => Except.ok (SqlVal.vStr [])

/-- `Operator.makeCS` / `makeCF` / `makeSW` / `makeEW` / `makeLK` and
`Operator.make`. -/
def operatorMake (o : OperatorT) (c : ColumnT) (right : SqlVal) :
    Except EqlErr CondT :=
  match operatorValidate o with
  | some e => Except.error e
  | none =>
    if o.opEQ then Except.ok (CondT.ceq c right)
    else if o.opNE then Except.ok (CondT.cne c right)
    else if o.opLE then Except.ok (CondT.cle c right)
    else if o.opGE then Except.ok (CondT.cge c right)
    else if o.opLT then Except.ok (CondT.clt c right)
    else if o.opGT then Except.ok (CondT.cgt c right)
    else if o.opCS then
      match right with
      | SqlVal.vStr v =>
        if o.opNot || o.opNt then Except.ok (CondT.cnotLike c ('%' :: v ++ ['%']))
        else Except.ok (CondT.clike c ('%' :: v ++ ['%']))
      | _ => Except.error (EqlErr.syntaxErr EqlErr.invalidSyntax EqlErr.opStringRequired)
    else if o.opCF then
      match right with
      | SqlVal.vStr v =>
        let conds := (fieldsWs v).map (fun fld =>
          if o.opNot || o.opNt then CondT.cnotLike c ('%' :: fld ++ ['%'])
          else CondT.clike c ('%' :: fld ++ ['%']))
        if conds.isEmpty then
          Except.error (EqlErr.syntaxErr EqlErr.invalidSyntax EqlErr.opStringRequired)
        else Except.ok (CondT.orL conds)
      | _ => Except.error (EqlErr.syntaxErr EqlErr.invalidSyntax EqlErr.opStringRequired)
    else if o.opSW then
      match right with
      | SqlVal.vStr v =>
        if o.opNot || o.opNt then Except.ok (CondT.cnotLike c (v ++ ['%']))
        else Except.ok (CondT.clike c (v ++ ['%']))
      | _ => Except.error (EqlErr.syntaxErr EqlErr.invalidSyntax EqlErr.opStringRequired)
    else if o.opEW then
      match right with
      | SqlVal.vStr v =>
        if o.opNot || o.opNt then Except.ok (CondT.cnotLike c ('%' :: v))
        else Except.ok (CondT.clike c ('%' :: v))
      | _ => Except.error (EqlErr.syntaxErr EqlErr.invalidSyntax EqlErr.opStringRequired)
    else if o.opLK then
      match right with
      | SqlVal.vStr v =>
        if o.opNot || o.opNt then Except.ok (CondT.cnotLike c v)
        else Except.ok (CondT.clike c v)
      | _ => Except.error (EqlErr.syntaxErr EqlErr.invalidSyntax EqlErr.opStringRequired)
    else Except.ok (CondT.andL [])

/-- `Constraint` (`src/unnamed/part_008`). -/
structure ConstraintT where
  left : Option SourceRefT := none
  op : Option OperatorT := none
  right : Option ValueT := none
  cnot : Bool := false
  cin : Bool := false
  values : List ValueT := []
deriving DecidableEq, Repr

/-- `Constraint.validate`. -/
def constraintValidate (c : ConstraintT) : Option EqlErr :=
  match c.left with
  | none => some (EqlErr.syntaxErr EqlErr.invalidSyntax EqlErr.missingLeftSide)
  | some l =>
    match sourceRefValidate l with
    | some e => some e
    | none =>
      if c.cin then
        if c.values.isEmpty then
          some (EqlErr.syntaxErr EqlErr.invalidSyntax EqlErr.invalidInOp)
        else (c.values.map valueValidate).foldl
          (fun acc e => match acc with | some _ => acc | none => e) none
      else
        match c.op with
        | none => some (EqlErr.syntaxErr EqlErr.invalidSyntax EqlErr.missingOperator)
        | some _ =>
          match c.right with
          | none => some (EqlErr.syntaxErr EqlErr.invalidSyntax EqlErr.missingRightSide)
          | some _ => none

/-- `Constraint.findSources`. -/
def constraintFindSources (c : ConstraintT) : List SrcKeyT :=
  (match c.left with
   | some l => sourceRefFindSources l
   | none => []) ++
  (if c.cin then (c.values.map valueFindSources).flatten
   else
    match c.right with
    | some r => valueFindSources r
    | none => [])

/-- `Constraint.apply` (only the right-hand side is bound; the IN-list
values are not visited). -/
def constraintApply (c : ConstraintT) (argv : List GoVal) : Except EqlErr ConstraintT :=
  match c.right with
  | none => Except.ok c
  | some r =>
    match valueApply r argv with
    | Except.error e => Except.error e
    | Except.ok r' => Except.ok { c with right := some r' }

/-- `Constraint.make`. -/
def constraintMake (updated : List (Str × CPSrcKey)) (c : ConstraintT) :
    Except EqlErr CondT :=
  match c.left with
  | none => Except.error (EqlErr.syntaxErr EqlErr.invalidSyntax EqlErr.invalidConstraint)
  | some l =>
    if c.op = none ∧ ¬ c.cin then
      Except.error (EqlErr.syntaxErr EqlErr.invalidSyntax EqlErr.invalidConstraint)
    else
      match sourceRefMake updated l with
      | Except.error e => Except.error e
      | Except.ok sv =>
        match sv with
        | SqlVal.vCol src =>
          if c.cin then
            match c.values.mapM (fun v =>
                match valueMakeOther updated v with
                | Except.error e =>
                  Except.error (EqlErr.syntaxErr EqlErr.invalidSyntax e)
                | Except.ok o => Except.ok o) with
            | Except.error e => Except.error e
            | Except.ok vals =>
              if c.cnot then Except.ok (CondT.cnotIn src vals)
              else Except.ok (CondT.cin src vals)
          else
            match c.right with
            | none =>
              Except.error (EqlErr.syntaxErr EqlErr.invalidSyntax EqlErr.missingRightSide)
            | some r =>
              match valueMakeOther updated r with
              | Except.error e => Except.error e
              | Except.ok other =>
                match c.op with
                | some o => operatorMake o src other
                | none =>
                  Except.error
                    (EqlErr.syntaxErr EqlErr.invalidSyntax EqlErr.missingOperator)
        | _ => Except.error (EqlErr.syntaxErr EqlErr.invalidSyntax EqlErr.builderError)

/-- `Constraint.String`. -/
def constraintString (c : ConstraintT) : Str :=
  match constraintValidate c with
  | some _ => []
  | none =>
    let lhs := match c.left with
      | some l => sourceRefString l
      | none => []
    if c.cin then
      lhs ++ (if c.cnot then sl " NOT" else []) ++ sl " IN (" ++
        (List.intercalate (sl ", ") (c.values.map valueString)) ++ sl ")"
    else
      lhs ++ [' '] ++
        (match c.op with
         | some o => operatorString o
         | none => []) ++ [' '] ++
        (match c.right with
         | some r => valueString r
         | none => [])

mutual
/-- `Expression` (`src/syntax_expression.go`): a constraint or an AND/OR
condition, both nil-able. -/
inductive ExpressionT where
  | mk (constraint : Option ConstraintT) (condition : Option ConditionT)
/-- `Condition` (`src/syntax_condition.go`): two nil-able sub-expressions
combined with `AND`/`OR`. -/
inductive ConditionT where
  | mk (left : Option ExpressionT) (ctype : Str) (right : Option ExpressionT)
end

/-- The constraint component of an expression. -/
def ExpressionT.constraint : ExpressionT → Option ConstraintT
  | ExpressionT.mk c _ => c

/-- The condition component of an expression. -/
def ExpressionT.condition : ExpressionT → Option ConditionT
  | ExpressionT.mk _ c => c

mutual
/-- Structural depth of an expression, used as sufficient fuel for the
fuel-guided expression functions. -/
def exprDepth : ExpressionT → Nat
  | ExpressionT.mk _ none => 1
  | ExpressionT.mk _ (some c) => condDepth c + 1

/-- Structural depth of a condition. -/
def condDepth : ConditionT → Nat
  | ConditionT.mk l _ r =>
    (match l with | some le => exprDepth le | none => 0) +
    (match r with | some re => exprDepth re | none => 0) + 1
end


/-- `Expression.validate` / `Condition.validate`, fuel-guided (the fuel
dominates the tree depth; callers pass `sizeOf`, so exhaustion is
unreachable). -/
def cExprValidate : Nat → ExpressionT → Option EqlErr
  | 0, _ => some (EqlErr.syntaxErr EqlErr.invalidSyntax EqlErr.nilStructure)
  | fuel + 1, ExpressionT.mk cst cnd =>
    match cnd with
    | some c => cCondValidate fuel c
    | none =>
      match cst with
      | some c => constraintValidate c
      | none => some (EqlErr.syntaxErr EqlErr.invalidSyntax EqlErr.nilStructure)
where
  cCondValidate : Nat → ConditionT → Option EqlErr
  | 0, _ => some (EqlErr.syntaxErr EqlErr.invalidSyntax EqlErr.nilStructure)
  | fuel + 1, ConditionT.mk l _ r =>
    match l, r with
    | none, none => some (EqlErr.syntaxErr EqlErr.invalidSyntax EqlErr.nilStructure)
    | none, some _ => some (EqlErr.syntaxErr EqlErr.invalidSyntax EqlErr.missingLeftSide)
    | some le, _ =>
      match cExprValidate fuel le with
      | some e => some e
      | none =>
        match r with
        | none => some (EqlErr.syntaxErr EqlErr.invalidSyntax EqlErr.missingRightSide)
        | some re => cExprValidate fuel re

/-- `Expression.findSources` / `Condition.findSources`, fuel-guided. -/
def cExprFindSources : Nat → ExpressionT → List SrcKeyT
  | 0, _ => []
  | fuel + 1, ExpressionT.mk cst cnd =>
    match cnd with
    | some c => cCondFindSources fuel c
    | none =>
      match cst with
      | some c => constraintFindSources c
      | none => []
where
  cCondFindSources : Nat → ConditionT → List SrcKeyT
  | 0, _ => []
  | fuel + 1, ConditionT.mk l _ r =>
    (match l with
     | some le => cExprFindSources fuel le
     | none => []) ++
    (match r with
     | some re => cExprFindSources fuel re
     | none => [])

/-- `Expression.apply` / `Condition.apply`, fuel-guided. -/
def cExprApply (argv : List GoVal) : Nat → ExpressionT → Except EqlErr ExpressionT
  | 0, e => Except.ok e
  | fuel + 1, ExpressionT.mk cst cnd =>
    match cnd with
    | some c =>
      match cCondApply fuel c with
      | Except.error e => Except.error e
      | Except.ok c' => Except.ok (ExpressionT.mk cst (some c'))
    | none =>
      match cst with
      | some c =>
        match constraintApply c argv with
        | Except.error e => Except.error e
        | Except.ok c' => Except.ok (ExpressionT.mk (some c') cnd)
      | none => Except.ok (ExpressionT.mk cst cnd)
where
  cCondApply : Nat → ConditionT → Except EqlErr ConditionT
  | 0, c => Except.ok c
  | fuel + 1, ConditionT.mk l t r =>
    match l with
    | some le =>
      match cExprApply argv fuel le with
      | Except.error e => Except.error e
      | Except.ok le' =>
        match r with
        | some re =>
          match cExprApply argv fuel re with
          | Except.error e => Except.error e
          | Except.ok re' => Except.ok (ConditionT.mk (some le') t (some re'))
        | none => Except.ok (ConditionT.mk (some le') t none)
    | none =>
      match r with
      | some re =>
        match cExprApply argv fuel re with
        | Except.error e => Except.error e
        | Except.ok re' => Except.ok (ConditionT.mk l t (some re'))
      | none => Except.ok (ConditionT.mk l t r)

/-- `Expression.make` / `Condition.make`, fuel-guided. -/
def cExprMake (updated : List (Str × CPSrcKey)) :
    Nat → ExpressionT → Except EqlErr CondT
  | 0, _ => Except.error (EqlErr.syntaxErr EqlErr.invalidSyntax EqlErr.nilStructure)
  | fuel + 1, ExpressionT.mk cst cnd =>
    match cExprValidate (fuel + 1) (ExpressionT.mk cst cnd) with
    | some e => Except.error e
    | none =>
      match cst with
      | some c => constraintMake updated c
      | none =>
        match cnd with
        | some c => cCondMake fuel c
        | none =>
          Except.error (EqlErr.syntaxErr EqlErr.invalidSyntax EqlErr.nilStructure)
where
  cCondMake : Nat → ConditionT → Except EqlErr CondT
  | 0, _ => Except.error (EqlErr.syntaxErr EqlErr.invalidSyntax EqlErr.nilStructure)
  | fuel + 1, ConditionT.mk l t r =>
    match l with
    | none => Except.error (EqlErr.syntaxErr EqlErr.invalidSyntax EqlErr.missingLeftSide)
    | some le =>
      match cExprMake updated fuel le with
      | Except.error e => Except.error e
      | Except.ok lc =>
        match r with
        | none =>
          Except.error (EqlErr.syntaxErr EqlErr.invalidSyntax EqlErr.missingRightSide)
        | some re =>
          match cExprMake updated fuel re with
          | Except.error e => Except.error e
          | Except.ok rc =>
            if strUpper t = sl "AND" then Except.ok (CondT.andL [lc, rc])
            else if strUpper t = sl "OR" then Except.ok (CondT.orL [lc, rc])
            else Except.error (EqlErr.syntaxErr EqlErr.invalidSyntax EqlErr.builderError)

/-- `Expression.String` / `Condition.String`, fuel-guided. -/
def cExprString : Nat → ExpressionT → Str
  | 0, _ => []
  | fuel + 1, ExpressionT.mk cst cnd =>
    match cnd with
    | some c => cCondString fuel c
    | none =>
      match cst with
      | some c => constraintString c
      | none => []
where
  cCondString : Nat → ConditionT → Str
  | 0, _ => []
  | fuel + 1, ConditionT.mk l t r =>
    match cExprValidate (condDepth (ConditionT.mk l t r) + 1)
        (ExpressionT.mk none (some (ConditionT.mk l t r))) with
    | some _ => []
    | none =>
      (match l with
       | some le => '(' :: cExprString fuel le ++ [')']
       | none => []) ++
      [' '] ++ strUpper t ++ [' '] ++
      (match r with
       | some re => '(' :: cExprString fuel re ++ [')']
       | none => [])

/-- `OrderBy` (`ORDER BY` clause). -/
structure OrderByT where
  sources : Option (List SourceRefT)
  random : Option Bool
  direction : Option Str
deriving Repr

/-- `OrderBy.IsDESC`. -/
def orderByIsDESC (o : OrderByT) : Bool :=
  match o.direction with
  | some d => ¬ strUpper d = sl "ASC"
  | none => false

/-- `OrderBy.validate`. -/
def orderByValidate (o : OrderByT) : Option EqlErr :=
  match o.sources, o.direction, o.random with
  | none, none, none => some (EqlErr.syntaxErr EqlErr.invalidSyntax EqlErr.nilStructure)
  | _, _, _ => none

/-- `OrderBy.findSources`. -/
def orderByFindSources (o : OrderByT) : List SrcKeyT :=
  match o.sources with
  | some srcs => (srcs.map sourceRefFindSources).flatten
  | none => []

/-- `OrderBy.String`: note the sources are concatenated with no separator. -/
def orderByString (o : OrderByT) : Str :=
  let body :=
    (if o.random = some true then sl "RANDOM()"
     else match o.sources with
       | some srcs => (srcs.map sourceRefString).flatten
       | none => []) ++
    (match o.direction with
     | some d =>
       ' ' :: (if strUpper d = sl "DSC" then sl "DESC" else strUpper d)
     | none => [])
  if body = [] then [] else sl "ORDER BY " ++ body

/-- The `Syntax` AST root (`src/syntax.go`). -/
structure Stx where
  lookup : Bool
  count : Bool
  distinct : Bool
  keys : List SourceKeyT
  query : Bool
  within : Option ExpressionT
  orderBy : Option OrderByT
  offset : Option Int
  limit : Option Int
  semicolon : Bool

/-- `Syntax.init`: mode normalization after parsing. -/
def stxInit (s : Stx) : Except EqlErr Stx :=
  if s.lookup then Except.ok s
  else if s.count then
    if ¬ s.keys.length = 1 then Except.error EqlErr.countNeedsOneKey
    else Except.ok s
  else if s.distinct then
    if ¬ s.keys.length = 1 then Except.error EqlErr.distinctNeedsOneKey
    else Except.ok s
  else if s.query then Except.ok s
  else if 0 < s.keys.length then Except.ok { s with lookup := true }
  else Except.ok { s with query := true }

/-- `Syntax.Validate`. -/
def stxValidate (s : Stx) : Option EqlErr :=
  let numKeys := s.keys.length
  let modeCheck : Option EqlErr :=
    if s.query then
      if 0 < numKeys then
        some (EqlErr.syntaxErr EqlErr.invalidSyntax EqlErr.mismatchQuery)
      else none
    else if s.lookup then
      if numKeys = 0 then
        some (EqlErr.syntaxErr EqlErr.invalidSyntax EqlErr.mismatchLookup)
      else if s.count then
        if ¬ numKeys = 1 then some EqlErr.countNeedsOneKey else none
      else if s.distinct then
        if ¬ numKeys = 1 then some EqlErr.distinctNeedsOneKey else none
      else none
    else none
  match modeCheck with
  | some e => some e
  | none =>
    match s.keys.findSome? sourceKeyValidate with
    | some e => some e
    | none =>
      match (match s.within with
             | some w => cExprValidate (exprDepth w) w
             | none => none) with
      | some e => some e
      | none =>
        match (match s.orderBy with
               | some o => orderByValidate o
               | none => none) with
        | some e => some e
        | none =>
          match s.offset with
          | some off =>
            if off < 0 then
              some (EqlErr.syntaxErr EqlErr.invalidSyntax EqlErr.negativeOffset)
            else
              match s.limit with
              | some lim =>
                if lim < 0 then
                  some (EqlErr.syntaxErr EqlErr.invalidSyntax EqlErr.negativeLimit)
                else none
              | none => none
          | none =>
            match s.limit with
            | some lim =>
              if lim < 0 then
                some (EqlErr.syntaxErr EqlErr.invalidSyntax EqlErr.negativeLimit)
              else none
            | none => none

/-- `Syntax.String`: faithful to the source, where `Offset` and `Limit`
are rendered as bare integers with no `OFFSET`/`LIMIT` keyword. -/
def stxString (s : Stx) : Str :=
  if ¬ stxValidate s = none then []
  else
    (if s.query then sl "QUERY"
     else if s.lookup then sl "LOOKUP"
     else if 0 < s.keys.length then sl "LOOKUP"
     else sl "QUERY") ++
    (if s.lookup then
       (if s.count then sl " COUNT" else []) ++
       (if s.distinct then sl " DISTINCT" else []) ++
       (s.keys.enum.map fun p =>
         (if 0 < p.1 then [','] else []) ++ ' ' :: sourceKeyString p.2).flatten
     else []) ++
    (match s.within with
     | some w => sl " WITHIN " ++ cExprString (exprDepth w) w
     | none => []) ++
    (match s.orderBy with
     | some o => ' ' :: orderByString o
     | none => []) ++
    (match s.offset with
     | some off => ' ' :: intToStr off
     | none => []) ++
    (match s.limit with
     | some lim => ' ' :: intToStr lim
     | none => []) ++
    (if s.semicolon then [';'] else [])

/-- `Syntax.findSources`. -/
def stxFindSources (s : Stx) : List SrcKeyT :=
  (s.keys.map sourceKeyFindSources).flatten ++
  (match s.within with
   | some w => cExprFindSources (exprDepth w) w
   | none => []) ++
  (match s.orderBy with
   | some o => orderByFindSources o
   | none => [])

/-- `Syntax.apply`: only the WITHIN expression receives arguments. -/
def stxApply (s : Stx) (argv : List GoVal) : Except EqlErr Stx :=
  match s.within with
  | some w =>
    match cExprApply argv (exprDepth w) w with
    | Except.error e => Except.error e
    | Except.ok w' => Except.ok { s with within := some w' }
  | none => Except.ok s

/-! ### The source schema: `cSource`, `cSources` and `Config` -/

/-- `SourceIdKey`: the SQL name of every table's primary key. -/
def sourceIdKey : Str := sl "id"

/-- `PageStubKey`. -/
def pageStubKey : Str := sl "stub"

/-- `sourceValueType`. -/
inductive ValKind
  | gInvalidValue
  | gIntValue
  | gBoolValue
  | gFloatValue
  | gStringValue
  | gLinkValue
  | gTimeValue
deriving DecidableEq, Repr

/-- `cSourceValue`: value kind, key, and the column options that matter to
the embedding (string size, not-null flag). -/
structure CSourceValue where
  ivt : ValKind
  key : Str
  optSize : Int := 0
  optNotNull : Bool := false
deriving DecidableEq, Repr

/-- `cSourceValue.columnConfig`: resolves to a named column (the embedding
keeps only the column name), failing on the invalid kind. -/
def svColumnConfig (v : CSourceValue) : Except EqlErr Str :=
  match v.ivt with
  | ValKind.gInvalidValue => Except.error (EqlErr.invalidConfig EqlErr.noSourceValues)
  | _ => Except.ok v.key

/-- `sqlbuilder.Table`, reduced to its name and the list of its column
names in declaration order. -/
structure STable where
  name : Str
  columns : List Str
deriving DecidableEq, Repr

/-- `Table.C` at the call sites that test `sqlbuilder.IsColumnError`:
`none` models the error column returned for an unknown name. -/
def tableC (t : STable) (key : Str) : Option ColumnT :=
  if key ∈ t.columns then some ⟨t.name, key⟩ else none

/-- `SourceConfigValue` (a struct of six nil-able variants, tested in the
order Int, Bool, Time, Float, String, Linked everywhere). -/
structure SourceConfigValue where
  int : Option Str := none
  bool : Option Str := none
  time : Option Str := none
  float : Option Str := none
  string : Option (Str × Int) := none
  linked : Option (Str × Str) := none
deriving DecidableEq, Repr

/-- `SourceConfig`. -/
structure SourceConfig where
  name : Str
  parent : Option Str := none
  values : List SourceConfigValue := []
  unique : List (List Str) := []
  index : List (List Str) := []
deriving DecidableEq, Repr

/-- `Config`. -/
structure Config where
  pfx : Str
  sources : List SourceConfig
deriving DecidableEq, Repr

/-- `cSource`: the processed source record.  The Go struct holds a
`*cSource` parent pointer and cached sqlbuilder objects; the embedding
keeps the parent's name and recomputes tables on demand. -/
structure CSource where
  name : Str
  node : GNode
  parent : Option Str := none
  order : List Str := []
  value : CSourceValue
  values : List CSourceValue := []
  unique : List (List Str) := []
  indexes : List (List Str) := []
  links : List (Str × Str) := []
deriving DecidableEq, Repr

/-- `cSources`: prefix, insertion order, lookup map and the source graph. -/
structure CSources where
  pfx : Str
  order : List Str := []
  lookup : List (Str × CSource) := []
  graph : SGraph := sgEmpty
deriving DecidableEq, Repr

/-- `newSources`. -/
def newSources (pfx : Str) : CSources :=
  { pfx := snake pfx, order := [], lookup := [], graph := sgEmpty }

/-- `cSources.formal` on a source name. -/
def csFormal (c : CSources) (name : Str) (more : List Str) : Str :=
  formalGo c.pfx name more

/-- `cSources.alias`. -/
def csAlias (c : CSources) (name : Str) : Str :=
  aliasGo c.pfx name

/-- `cSources.exists`. -/
def csExists (c : CSources) (name : Str) : Bool :=
  (assocGet c.lookup name).isSome

/-- `cSources.getSource`. -/
def getSource (c : CSources) (name : Str) : Option CSource :=
  assocGet c.lookup name

/-- `cSources.getPrimarySource`: the first added source. -/
def getPrimarySource (c : CSources) : Option CSource :=
  match c.order with
  | [] => none
  | first :: _ => getSource c first

/-- `cSources.getPrimarySourceName`. -/
def getPrimarySourceName (c : CSources) : Str :=
  match getPrimarySource c with
  | some s => s.name
  | none => []

/-- `cSource.formal`. -/
def sourceFormal (c : CSources) (s : CSource) : Str := csFormal c s.name []

/-- `cSource.getColumnConfig`: id column, then the primary value, then the
remaining values, else `ErrColumnConfigNotFound`. -/
def getColumnConfig (s : CSource) (name : Str) : Except EqlErr Str :=
  let key := snake name
  if key = sourceIdKey then Except.ok sourceIdKey
  else if key = s.value.key then svColumnConfig s.value
  else
    match s.values.find? (fun v => v.key = key) with
    | some v => svColumnConfig v
    | none => Except.error (EqlErr.columnConfigNotFound key)

/-- `cSource.getColumnConfigs`: the id key followed by the declared order. -/
def getColumnConfigs (s : CSource) : Except EqlErr (List Str) :=
  (sourceIdKey :: s.order).mapM (getColumnConfig s)

/-- `cSource.getTable`: a table named by `formal` holding the configured
columns. -/
def getTable (c : CSources) (s : CSource) : Except EqlErr STable :=
  match getColumnConfigs s with
  | Except.error e => Except.error e
  | Except.ok cols => Except.ok ⟨sourceFormal c s, cols⟩

/-- `cSources.T`. -/
def csT (c : CSources) (name : Str) : Except EqlErr STable :=
  match getSource c name with
  | some s => getTable c s
  | none => Except.error EqlErr.sourceNotFound

/-- `cSource.init`: validate the value kinds and the unique/index key
names, require the table to resolve, then `finishAddSource` (register the
source in the lookup and the insertion order). -/
def sourceInit (c : CSources) (s : CSource) : Except EqlErr CSources :=
  if s.value.ivt = ValKind.gInvalidValue then
    Except.error (EqlErr.invalidSourceValueType s.value.key)
  else
    match s.values.find? (fun v => v.ivt = ValKind.gInvalidValue) with
    | some v => Except.error (EqlErr.invalidSourceValueType v.key)
    | none =>
      let verify : Str → Str → Option EqlErr := fun method name =>
        if name = s.name ∨ name = sourceIdKey then none
        else if name ∈ s.order then none
        else some (EqlErr.unknownKey method name)
      match s.unique.flatten.findSome? (verify (sl "AddUnique")) with
      | some e => Except.error e
      | none =>
        match s.indexes.flatten.findSome? (verify (sl "AddIndex")) with
        | some e => Except.error e
        | none =>
          match getTable c s with
          | Except.error e => Except.error e
          | Except.ok _ =>
            if (assocGet c.lookup s.name).isSome then
              Except.error (EqlErr.sourceExists s.name)
            else
              Except.ok { c with
                lookup := assocPut c.lookup s.name s,
                order := c.order ++ [s.name] }

/-- One step of the `addSource` values loop: fold state is the
accumulated `(values, order, node links)`.  The variants are tested in
the Go switch order (Int, Bool, Time, Float, String, Linked). -/
def addSourceValue (c : CSources) (scName : Str)
    (st : List CSourceValue × List Str × List (Str × GJoin))
    (p : Nat × SourceConfigValue) :
    Except EqlErr (List CSourceValue × List Str × List (Str × GJoin)) :=
  let (vals, ord, lnk) := st
  let (idx, v) := p
  match v.int with
  | some key => Except.ok (vals ++ [⟨ValKind.gIntValue, key, 0, false⟩], ord ++ [key], lnk)
  | none =>
  match v.bool with
  | some key => Except.ok (vals ++ [⟨ValKind.gBoolValue, key, 0, false⟩], ord ++ [key], lnk)
  | none =>
  match v.time with
  | some key => Except.ok (vals ++ [⟨ValKind.gTimeValue, key, 0, false⟩], ord ++ [key], lnk)
  | none =>
  match v.float with
  | some key => Except.ok (vals ++ [⟨ValKind.gFloatValue, key, 0, false⟩], ord ++ [key], lnk)
  | none =>
  match v.string with
  | some (key, size) =>
    Except.ok (vals ++ [⟨ValKind.gStringValue, key, if 0 < size then size else 0, false⟩],
      ord ++ [key], lnk)
  | none =>
  match v.linked with
  | some (src, key) =>
    let linkedKey := src ++ '_' :: key
    let lnk' :=
      if ¬ getPrimarySourceName c = src then
        assocPut lnk src (GJoin.mk src ⟨src, key⟩ ⟨scName, src ++ '_' :: sourceIdKey⟩)
      else lnk
    Except.ok (vals ++ [⟨ValKind.gLinkValue, linkedKey, 0, true⟩], ord ++ [linkedKey], lnk')
  | none => Except.error (EqlErr.invalidConfig (EqlErr.emptySourceValue scName idx))

/-- `cSources.addSource`: existence and name checks, parent resolution,
the values loop, primary-value selection (first value for data sources,
the parent link for parented ones), graph registration and `init`. -/
def addSource (c : CSources) (sc : SourceConfig) : Except EqlErr CSources :=
  if csExists c sc.name then Except.error (EqlErr.sourceExists sc.name)
  else if sc.name = [] then Except.error (EqlErr.invalidConfig EqlErr.unnamedSource)
  else
    match (match sc.parent with
           | none => Except.ok (none, none)
           | some p =>
             match getSource c p with
             | none => Except.error (EqlErr.parentSourceNotFound p)
             | some par =>
               Except.ok (some par.name,
                 some (GJoin.mk sc.name ⟨sc.name, p ++ '_' :: sourceIdKey⟩
                   ⟨par.name, sourceIdKey⟩))) with
    | Except.error e => Except.error e
    | Except.ok (parentName, parentJoin) =>
      match sc.values.enum.foldlM (addSourceValue c sc.name) ([], [], []) with
      | Except.error e => Except.error e
      | Except.ok (vals, ord, lnk) =>
        if vals.isEmpty ∧ parentName = none then
          Except.error (EqlErr.invalidConfig EqlErr.noSourceValues)
        else
          let sel : CSourceValue × List CSourceValue × List Str × List (Str × Str) :=
            match parentName with
            | none =>
              match vals with
              | [] => (⟨ValKind.gInvalidValue, [], 0, false⟩, [], ord, [])
              | v :: rest => (v, rest, ord, [])
            | some pname =>
              let linkedKey := pname ++ '_' :: sourceIdKey
              (⟨ValKind.gLinkValue, linkedKey, 0, true⟩, vals, linkedKey :: ord,
               if ¬ getPrimarySourceName c = pname then [(pname, sourceIdKey)] else [])
          let node : GNode := ⟨sc.name, parentJoin, lnk⟩
          let source : CSource :=
            ⟨sc.name, node, parentName, sel.2.2.1, sel.1, sel.2.1, sc.unique, sc.index, sel.2.2.2⟩
          match graphAdd c.graph [node] with
          | Except.error _ => Except.error (EqlErr.graphAddErr sc.name)
          | Except.ok g => sourceInit { c with graph := g } source

/-- `mustSnakeCase`. -/
def mustSnakeCase (input : Str) : Option EqlErr :=
  if ¬ snake input = input then
    some (EqlErr.invalidConfig (EqlErr.notSnakeCased input (snake input)))
  else none

/-- The per-source validators of `gConfigValidators.sources`, in
registration order. -/
def validateSource (sc : SourceConfig) : Option EqlErr :=
  if sc.name = [] then some (EqlErr.invalidConfig EqlErr.unnamedSource)
  else
    match mustSnakeCase sc.name with
    | some e => some e
    | none =>
      if sc.values.isEmpty ∧ sc.parent = none then
        some (EqlErr.invalidConfig EqlErr.noSourceValues)
      else
        match sc.parent with
        | some p => mustSnakeCase p
        | none => none

/-- The per-value validators of `gConfigValidators.values`, in
registration order: a variant must be set, its key must be nonempty and
snake_cased, and a Linked value's target must be declared earlier in the
source list. -/
def validateValue (all : List SourceConfig) (idx : Nat) (sc : SourceConfig)
    (jdx : Nat) (scv : SourceConfigValue) : Option EqlErr :=
  match scv.int, scv.bool, scv.time, scv.float, scv.string, scv.linked with
  | none, none, none, none, none, none =>
    some (EqlErr.invalidConfig (EqlErr.emptySourceValue sc.name (jdx + 1)))
  | _, _, _, _, _, _ =>
    let keyR : Except EqlErr Str :=
      match scv.int with
      | some k => Except.ok k
      | none =>
      match scv.bool with
      | some k => Except.ok k
      | none =>
      match scv.time with
      | some k => Except.ok k
      | none =>
      match scv.float with
      | some k => Except.ok k
      | none =>
      match scv.string with
      | some pr => Except.ok pr.1
      | none =>
      match scv.linked with
      | some (src, k) =>
        if src = [] then
          Except.error (EqlErr.invalidConfig (EqlErr.emptySourceValueKey sc.name (jdx + 1)))
        else Except.ok k
      | none => Except.ok []
    match keyR with
    | Except.error e => some e
    | Except.ok key =>
      match (if key = [] then
               some (EqlErr.invalidConfig (EqlErr.emptySourceValueKey sc.name (jdx + 1)))
             else mustSnakeCase key) with
      | some e => some e
      | none =>
        match scv.linked with
        | some (src, _) =>
          if (all.take idx).any (fun osc => osc.name = src) then none
          else some (EqlErr.invalidConfig (EqlErr.parentNotFound sc.name src))
        | none => none

/-- The `Config.Validate` source loop.  `declared` carries the names of
the sources already processed (Go's `dataSources` set, which also equals
the prefix scanned by the linked-declared-first validator). -/
def validateLoop (all : List SourceConfig) :
    List SourceConfig → Nat → List Str → Option EqlErr
  | [], _, _ => none
  | sc :: rest, idx, declared =>
    match validateSource sc with
    | some e => some e
    | none =>
      match sc.values.enum.findSome? (fun p => validateValue all idx sc p.1 p.2) with
      | some e => some e
      | none =>
        match sc.parent with
        | some p =>
          if p ∈ declared then validateLoop all rest (idx + 1) (declared ++ [sc.name])
          else some (EqlErr.invalidConfig (EqlErr.parentNotFound sc.name p))
        | none => validateLoop all rest (idx + 1) (declared ++ [sc.name])

/-- `Config.Validate`: the config-level validators (snake-cased prefix,
at least one source) followed by the per-source loop. -/
def configValidate (c : Config) : Option EqlErr :=
  match (if ¬ c.pfx = [] then mustSnakeCase c.pfx else none) with
  | some e => some e
  | none =>
    if c.sources.isEmpty then some (EqlErr.invalidConfig EqlErr.noSources)
    else validateLoop c.sources c.sources 0 []

/-- `enjinql.init` as reached from `New`: validate the config, then fold
every source config through `addSource` (the table/index creation against
the database is outside this model). -/
def newEql (c : Config) : Except EqlErr CSources :=
  match configValidate c with
  | some e => Except.error e
  | none => c.sources.foldlM addSource (newSources c.pfx)

/-! ### The processor: `findUpdatedSrcKeyRefs` through `prepareSQL` -/

/-- One iteration of the `findUpdatedSrcKeyRefs` loop over
`syntax.findSources()`: resolve aliases, snake-case, look up the table and
the column, then record the update under the found key's formal string
(and under its alias too). -/
def fuskStep (c : CSources) (primaryName : Str) (ctxKeys : List Str)
    (aliased : List (Str × SrcKeyT))
    (st : List Str × List (Str × CPSrcKey)) (found0 : SrcKeyT) :
    Except EqlErr (List Str × List (Str × CPSrcKey)) :=
  match (if ¬ found0.keyAlias = [] then
           match assocGet aliased found0.keyAlias with
           | some v => Except.ok v
           | none => Except.error (EqlErr.unknownSourceKeyAlias found0.keyAlias)
         else Except.ok found0) with
  | Except.error e => Except.error e
  | Except.ok found =>
    let uSrc0 := if found.src = [] then primaryName else snake found.src
    let uKey0 := snake found.key
    match csT c uSrc0 with
    | Except.error _ => Except.error (EqlErr.tableNotFound found.src)
    | Except.ok t =>
      match tableC t (snake uKey0) with
      | none => Except.error (EqlErr.columnNotFound t.name found.key)
      | some column =>
        match getSource c uSrc0 with
        | none => Except.error (EqlErr.unknownSourceName found.src)
        | some source =>
          match getColumnConfig source uKey0 with
          | Except.error e => Except.error e
          | Except.ok colName =>
            let update : SrcKeyT := ⟨sourceFormal c source, colName, []⟩
            let formal := srcKeyString found
            let isKey := update.src ∈ ctxKeys
            let entry : CPSrcKey := ⟨source.name, isKey, column, found, update⟩
            let upd1 := assocPut st.2 formal entry
            let upd2 := if ¬ found.keyAlias = [] then assocPut upd1 found.keyAlias entry
                        else upd1
            Except.ok (stackPush st.1 formal, upd2)

/-- `cProcessor.findUpdatedSrcKeyRefs`. -/
def findUpdatedSrcKeyRefs (c : CSources) (stx : Stx) :
    Except EqlErr (List Str × List (Str × CPSrcKey)) :=
  let primaryName := getPrimarySourceName c
  let ctxKeys : List Str := stx.keys.foldl (fun acc sk =>
    match sk.source with
    | none => acc ++ [primaryName]
    | some src =>
      if src = [] then acc ++ [primaryName]
      else
        match getSource c src with
        | some s => acc ++ [sourceFormal c s]
        | none => acc) []
  let aliased : List (Str × SrcKeyT) := stx.keys.foldl (fun acc sk =>
    match sk.keyAlias with
    | some a => assocPut acc a ⟨sk.source.getD [], sk.key, sk.keyAlias.getD []⟩
    | none => acc) []
  (stxFindSources stx).foldlM (fuskStep c primaryName ctxKeys aliased) ([], [])

/-- `cProcessor.getRequiredSources`: iterate the sorted update keys,
dedup by canonical source, and collect each source's alias. -/
def getRequiredSources (c : CSources) (updated : List (Str × CPSrcKey)) :
    Except EqlErr (List Str) :=
  let keys := sortStrs (updated.map (fun p => p.1))
  let required := (keys.foldl (fun (st : List Str × List Str) formal =>
      match assocGet updated formal with
      | some bsk =>
        if bsk.u.src ∈ st.1 then st
        else (st.1 ++ [bsk.u.src], st.2 ++ [csAlias c bsk.u.src])
      | none => st) ([], [])).2
  if required.isEmpty then Except.error EqlErr.noSourcesRequired
  else Except.ok required

/-- `cProcessor.preparePlan`. -/
def preparePlan (c : CSources) (updated : List (Str × CPSrcKey)) :
    Except EqlErr GPlan :=
  match getRequiredSources c updated with
  | Except.error e => Except.error e
  | Except.ok required =>
    match gPlan c.graph required with
    | Except.error e => Except.error (EqlErr.planFailed e)
    | Except.ok planned => Except.ok planned

/-- `cProcessor.prepareBuild`: the top table and the INNER JOIN chain
`(thisTable, otherColumn, thisColumn)` in plan order.  The Go nil checks
on `t.C` always pass (an error column is a non-nil value), so the columns
are formed unconditionally; a plan table missing from the lookup is
skipped exactly as the Go `if ok` does. -/
def prepareBuild (c : CSources) (updated : List (Str × CPSrcKey)) :
    Except EqlErr (STable × List (STable × ColumnT × ColumnT)) :=
  match preparePlan c updated with
  | Except.error e => Except.error e
  | Except.ok planned =>
    match (match getSource c planned.top with
           | some s => getTable c s
           | none => Except.error EqlErr.sourceNotFound) with
    | Except.error e => Except.error e
    | Except.ok top =>
      planned.joins.foldlM
        (fun (st : STable × List (STable × ColumnT × ColumnT)) join =>
          match getSource c join.table with
          | none => Except.ok st
          | some source =>
            match getTable c source with
            | Except.error e => Except.error e
            | Except.ok thisTable =>
              match (match getSource c join.otherK.table with
                     | some os => (getTable c os).map some
                     | none => Except.ok none) with
              | Except.error e => Except.error e
              | Except.ok otherT =>
                let otherName := match otherT with
                  | some ot => ot.name
                  | none => []
                let thisColumn : ColumnT := ⟨thisTable.name, join.thisK.key⟩
                let otherColumn : ColumnT := ⟨otherName, join.otherK.key⟩
                Except.ok (st.1, st.2 ++ [(thisTable, otherColumn, thisColumn)]))
        (top, [])

/-- `enjinql.prepareSyntaxBuild`: validate, then — for QUERY mode —
overwrite the caller's `Keys` with the primary source's stub key before
resolving the source key references.  The possibly-mutated tree is
returned alongside the updates, because the Go code mutates the caller's
`*Syntax` in place. -/
def prepareSyntaxBuild (c : CSources) (stx0 : Stx) :
    Except EqlErr (Stx × List (Str × CPSrcKey)) :=
  match stxValidate stx0 with
  | some e => Except.error e
  | none =>
    let stx :=
      if stx0.query then
        match getPrimarySource c with
        | some ps => { stx0 with keys := [⟨some ps.name, pageStubKey, none⟩] }
        | none => stx0
      else stx0
    match findUpdatedSrcKeyRefs c stx with
    | Except.error e => Except.error e
    | Except.ok pr => Except.ok (stx, pr.2)

/-- A selected output column of the final SELECT. -/
inductive SelCol
  | plain (c : ColumnT) (al : Option Str)
  | count (c : ColumnT) (al : Option Str)
  | distinct (c : ColumnT) (al : Option Str)
  | countDistinct (c : ColumnT) (al : Option Str)
deriving DecidableEq, Repr

/-- An ORDER BY column: a source column or `RANDOM()`. -/
inductive OBCol
  | col (c : ColumnT)
  | randomFn
deriving DecidableEq, Repr

/-- The accumulated builder state whose deterministic serialization is the
final SQL text: selected columns, FROM/JOIN chain, WHERE, ORDER BY,
OFFSET and LIMIT. -/
structure SqlState where
  top : STable
  joins : List (STable × ColumnT × ColumnT)
  columns : List SelCol
  whereC : Option CondT
  orderBy : Option (Bool × List OBCol)
  offset : Option Int
  limit : Option Int
deriving Repr

/-- `OrderBy.make`: `RANDOM()` or the resolved source references, with the
single shared direction. -/
def orderByMake (updated : List (Str × CPSrcKey)) (o : OrderByT) :
    Except EqlErr (Bool × List OBCol) :=
  match orderByValidate o with
  | some e => Except.error e
  | none =>
    if o.random = some true then Except.ok (orderByIsDESC o, [OBCol.randomFn])
    else
      match o.sources with
      | some srcs =>
        match srcs.mapM (fun r =>
            match sourceRefMake updated r with
            | Except.error e => Except.error e
            | Except.ok (SqlVal.vCol col) => Except.ok (OBCol.col col)
            | Except.ok _ =>
              Except.error (EqlErr.syntaxErr EqlErr.invalidSyntax EqlErr.builderError)) with
        | Except.error e => Except.error e
        | Except.ok cols => Except.ok (orderByIsDESC o, cols)
      | none => Except.ok (orderByIsDESC o, [])

/-- The `getColumn` closure of `prepareSQL`: aliased keys resolve through
their alias, the rest through their formal string. -/
def getColumnSel (updated : List (Str × CPSrcKey)) (sk : SourceKeyT) :
    Option (ColumnT × Option Str) :=
  match sk.keyAlias with
  | some a =>
    match assocGet updated a with
    | some bsk => some (bsk.col, some a)
    | none => none
  | none =>
    match assocGet updated (sourceKeyString sk) with
    | some bsk => some (bsk.col, none)
    | none => none

/-- The column-list selection of the `Lookup` branch of `prepareSQL`
(COUNT/DISTINCT combinations and the plain key list; unresolved keys are
silently skipped, exactly as the Go `if ok` chains do). -/
def lookupColumns (updated : List (Str × CPSrcKey)) (stx : Stx) : List SelCol :=
  if stx.count ∧ stx.distinct then
    match stx.keys with
    | sk :: _ =>
      match getColumnSel updated sk with
      | some (c, al) => [SelCol.countDistinct c al]
      | none => []
    | [] => []
  else if stx.count then
    match stx.keys with
    | sk :: _ =>
      match getColumnSel updated sk with
      | some (c, al) => [SelCol.count c al]
      | none => []
    | [] => []
  else if stx.distinct then
    match stx.keys with
    | sk :: _ =>
      match getColumnSel updated sk with
      | some (c, al) => [SelCol.distinct c al]
      | none => []
    | [] => []
  else
    stx.keys.foldl (fun acc sk =>
      match getColumnSel updated sk with
      | some (c, al) => acc ++ [SelCol.plain c al]
      | none => acc) []

/-- `enjinql.prepareSQL`: build the full SELECT state.  Returns the state
together with the possibly-mutated `Stx` (see `prepareSyntaxBuild`). -/
def prepareSQL (c : CSources) (stx0 : Stx) : Except EqlErr (SqlState × Stx) :=
  match prepareSyntaxBuild c stx0 with
  | Except.error e => Except.error e
  | Except.ok (stx, updated) =>
    let primaryName := getPrimarySourceName c
    match prepareBuild c updated with
    | Except.error e => Except.error e
    | Except.ok (top, joins) =>
      match (if stx.lookup then
               Except.ok (lookupColumns updated stx)
             else if stx.query then
               match getSource c primaryName with
               | some source =>
                 match getTable c source with
                 | Except.error e => Except.error e
                 | Except.ok t =>
                   match tableC t pageStubKey with
                   | some stub => Except.ok [SelCol.plain stub none]
                   | none => Except.error EqlErr.queryRequiresStub
               | none => Except.error EqlErr.sourceNotFound
             else Except.ok []) with
      | Except.error e => Except.error e
      | Except.ok columns =>
        match (match stx.within with
               | some w =>
                 match cExprMake updated (exprDepth w) w with
                 | Except.error e => Except.error e
                 | Except.ok cond => Except.ok (some cond)
               | none => Except.ok none) with
        | Except.error e => Except.error e
        | Except.ok whereC =>
          match (match stx.orderBy with
                 | some o =>
                   match orderByMake updated o with
                   | Except.error e => Except.error e
                   | Except.ok ob => Except.ok (some ob)
                 | none => Except.ok none) with
          | Except.error e => Except.error e
          | Except.ok orderBy =>
            Except.ok
              ({ top := top, joins := joins, columns := columns,
                 whereC := whereC, orderBy := orderBy,
                 offset := stx.offset, limit := stx.limit }, stx)

mutual
/-- The argument values the external serializer collects from a condition
tree, in build order (column operands serialize inline and contribute no
arguments). -/
def condArgs : CondT → List SqlVal
  | CondT.andL cs => condArgsList cs
  | CondT.orL cs => condArgsList cs
  | CondT.ceq _ v => valArgs v
  | CondT.cne _ v => valArgs v
  | CondT.cge _ v => valArgs v
  | CondT.cle _ v => valArgs v
  | CondT.cgt _ v => valArgs v
  | CondT.clt _ v => valArgs v
  | CondT.clike _ pat => [SqlVal.vStr pat]
  | CondT.cnotLike _ pat => [SqlVal.vStr pat]
  | CondT.cin _ vs => valArgsList vs
  | CondT.cnotIn _ vs => valArgsList vs

/-- Arguments contributed by one operand. -/
def valArgs : SqlVal → List SqlVal
  | SqlVal.vCol _ => []
  | v => [v]

/-- Arguments of a list of conditions. -/
def condArgsList : List CondT → List SqlVal
  | [] => []
  | c :: cs => condArgs c ++ condArgsList cs

/-- Arguments of a list of operands. -/
def valArgsList : List SqlVal → List SqlVal
  | [] => []
  | v :: vs => valArgs v ++ valArgsList vs
end

/-- The SQL arguments of a built state: those of the WHERE tree. -/
def stateArgs (st : SqlState) : List SqlVal :=
  match st.whereC with
  | some c => condArgs c
  | none => []

/-- `enjinql.ParsedToSql`: compile a parsed tree.  The query string of the
Go API is the deterministic serialization of the returned state; the
caller's tree is left as the returned (possibly mutated) `Stx`. -/
def parsedToSql (c : CSources) (stx : Stx) :
    Except EqlErr ((SqlState × List SqlVal) × Stx) :=
  match prepareSQL c stx with
  | Except.error e => Except.error e
  | Except.ok (st, stx') => Except.ok ((st, stateArgs st), stx')

theorem foldlM_cons_err {α β : Type} (f : β → α → Except EqlErr β) (b : β)
    (a : α) (l : List α) (e : EqlErr) (h : f b a = Except.error e) :
    (a :: l).foldlM f b = Except.error e := by
  simp only [List.foldlM_cons, h]
  rfl

/-- The schema of the repository's own first test: a single `page` source
with one string value `shasum` (no `stub` column). -/
def c5Config : Config :=
  ⟨[], [⟨sl "page", none, [⟨none, none, none, none, some (sl "shasum", 10), none⟩],
    [[sl "shasum"]], [[sl "shasum"]]⟩]⟩

/-- The sources built from `c5Config`. -/
def c5Sources : CSources := (newEql c5Config).toOption.getD (newSources [])

/-- The primary source of `c5Sources`. -/
def c5PS : CSource :=
  (getPrimarySource c5Sources).getD
    ⟨[], ⟨[], none, []⟩, none, [], ⟨ValKind.gInvalidValue, [], 0, false⟩, [], [], [], []⟩

/-- The primary source's table. -/
def c5T : STable := (getTable c5Sources c5PS).toOption.getD ⟨[], []⟩

/-- A bare QUERY statement. -/
def c5Query : Stx := ⟨false, false, false, [], true, none, none, none, none, false⟩

/-- C5: on the repository's own single-source schema (page/shasum, no
stub column), compiling a QUERY statement fails with
`ErrColumnNotFound` for `page.stub` — not with `ErrQueryRequiresStub` as
the claim states: `prepareSyntaxBuild` rewrites the QUERY keys to the
primary stub key and `findUpdatedSrcKeyRefs` reports the missing column
before `prepareSQL`'s stub check is ever reached. -/
theorem c5_counterexample :
    newEql c5Config = Except.ok c5Sources ∧
    getTable c5Sources c5PS = Except.ok c5T ∧
    ¬ pageStubKey ∈ c5T.columns ∧
    parsedToSql c5Sources c5Query =
      Except.error (EqlErr.columnNotFound (sl "page") pageStubKey) ∧
    ¬ EqlErr.columnNotFound (sl "page") pageStubKey = EqlErr.queryRequiresStub :=
  ⟨rfl, rfl, by decide, rfl, by decide⟩

/-- C5 (amended): for every sources instance whose primary source's name
is already snake-cased and resolvable and whose table lacks a `stub`
column, compiling any valid QUERY statement fails with
`ErrColumnNotFound` on the primary table's `stub` column (the
`ErrQueryRequiresStub` branch of `prepareSQL` is unreachable). -/
theorem c5_amended (c : CSources) (ps : CSource) (t : STable) (stx : Stx)
    (hps : getPrimarySource c = some ps)
    (hsnake : snake ps.name = ps.name)
    (hlook : getSource c ps.name = some ps)
    (ht : getTable c ps = Except.ok t)
    (hstub : ¬ pageStubKey ∈ t.columns)
    (hq : stx.query = true)
    (hv : stxValidate stx = none) :
    parsedToSql c stx = Except.error (EqlErr.columnNotFound t.name pageStubKey) := by
  have hpn : getPrimarySourceName c = ps.name := by
    simp [getPrimarySourceName, hps]
  have hsn2 : snake (snake pageStubKey) = pageStubKey := by decide
  have hstep : ∀ (ck : List Str) (al : List (Str × SrcKeyT))
      (st : List Str × List (Str × CPSrcKey)),
      fuskStep c (getPrimarySourceName c) ck al st ⟨ps.name, pageStubKey, []⟩ =
        Except.error (EqlErr.columnNotFound t.name pageStubKey) := by
    intro ck al st
    by_cases hn : ps.name = []
    · simp [fuskStep, hn, hpn, csT, hn ▸ hlook, ht, tableC, hsn2, hstub]
    · simp [fuskStep, hn, hsnake, csT, hlook, ht, tableC, hsn2, hstub]
  have hfind : ∀ (s : Stx), s.keys = [⟨some ps.name, pageStubKey, none⟩] →
      findUpdatedSrcKeyRefs c s =
        Except.error (EqlErr.columnNotFound t.name pageStubKey) := by
    intro s hk
    simp only [findUpdatedSrcKeyRefs, stxFindSources, hk]
    simp only [List.map_cons, List.map_nil, sourceKeyFindSources, List.flatten,
      Option.getD_some, Option.getD_none, List.append_nil, List.nil_append,
      List.cons_append, List.singleton_append]
    exact foldlM_cons_err _ _ _ _ _ (hstep _ _ _)
  unfold parsedToSql prepareSQL prepareSyntaxBuild
  rw [hv, hq]
  simp only [if_true, hps]
  rw [hfind _ rfl]

/-- C5 witness: the amended theorem applies to the concrete
page/shasum schema. -/
theorem c5_amended_witness :
    parsedToSql c5Sources c5Query =
      Except.error (EqlErr.columnNotFound c5T.name pageStubKey) :=
  c5_amended c5Sources c5PS c5T c5Query rfl (by decide) rfl rfl (by decide) rfl rfl

/-- Outside QUERY mode, `prepareSyntaxBuild` returns the input tree
unchanged. -/
theorem prepareSyntaxBuild_nonquery (c : CSources) (s : Stx)
    (pr : Stx × List (Str × CPSrcKey))
    (hq : s.query = false) (h : prepareSyntaxBuild c s = Except.ok pr) :
    pr.1 = s := by
  unfold prepareSyntaxBuild at h
  rw [hq] at h
  simp only [Bool.false_eq_true, if_false] at h
  split at h
  · cases h
  · split at h
    · cases h
    · cases h; rfl

/-- A successful `prepareSQL` passes the tree produced by
`prepareSyntaxBuild` through unchanged. -/
theorem prepareSQL_shape (c : CSources) (s : Stx) (st : SqlState) (s1 : Stx)
    (h : prepareSQL c s = Except.ok (st, s1)) :
    ∃ upd, prepareSyntaxBuild c s = Except.ok (s1, upd) := by
  unfold prepareSQL at h
  cases hpsb : prepareSyntaxBuild c s with
  | error e => rw [hpsb] at h; cases h
  | ok pr =>
    rw [hpsb] at h
    obtain ⟨stx1, upd⟩ := pr
    refine ⟨upd, ?_⟩
    dsimp only at h
    split at h
    · cases h
    · split at h
      · cases h
      · split at h
        · cases h
        · split at h
          · cases h
          · injection h with h4
            have hs : stx1 = s1 := by
              have := congrArg Prod.snd h4
              simpa using this
            rw [← hs]

/-- C8 (amended): outside QUERY mode, compiling a valid tree leaves it
unchanged, so a second `ParsedToSql` of the returned tree yields the
identical (query, args) result.  (In QUERY mode the first call mutates
the tree's Keys and the second call fails; see the counterexample.) -/
theorem c8_amended (c : CSources) (stx : Stx) (r : SqlState × List SqlVal)
    (stx' : Stx)
    (hq : stx.query = false)
    (h : parsedToSql c stx = Except.ok (r, stx')) :
    stx' = stx ∧ parsedToSql c stx' = Except.ok (r, stx') := by
  have hstx : stx' = stx := by
    have h2 := h
    unfold parsedToSql at h2
    cases hps : prepareSQL c stx with
    | error e => rw [hps] at h2; cases h2
    | ok pr =>
      rw [hps] at h2
      obtain ⟨st, s1⟩ := pr
      dsimp only at h2
      injection h2 with h3
      obtain ⟨upd, hpsb⟩ := prepareSQL_shape c stx st s1 hps
      have := prepareSyntaxBuild_nonquery c stx (s1, upd) hq hpsb
      have hs1 : stx' = s1 := by
        have := congrArg Prod.snd h3
        simpa using this.symm
      rw [hs1, ← this]
  subst hstx
  exact ⟨rfl, h⟩

/-- Whether a compilation succeeded. -/
def isOkE {E A : Type} : Except E A → Bool
  | Except.ok _ => true
  | Except.error _ => false

/-- A single-source schema whose page table has shasum and stub string
columns, so QUERY compiles. -/
def c8Config : Config :=
  ⟨[], [⟨sl "page", none,
    [⟨none, none, none, none, some (sl "shasum", 10), none⟩,
     ⟨none, none, none, none, some (sl "stub", -1), none⟩], [], []⟩]⟩

/-- The sources built from `c8Config`. -/
def c8Sources : CSources := (newEql c8Config).toOption.getD (newSources [])

/-- A bare QUERY statement for the C8 counterexample. -/
def c8Query : Stx := ⟨false, false, false, [], true, none, none, none, none, false⟩

/-- The tree as left behind by the first compilation of `c8Query`. -/
def c8Stx2 : Stx :=
  match parsedToSql c8Sources c8Query with
  | Except.ok (_, s) => s
  | Except.error _ => c8Query

/-- C8: a valid QUERY statement compiles once, but the compilation
mutates the tree's Keys in place (`prepareSyntaxBuild` overwrites them
with the primary stub key), so the second `ParsedToSql` of the same tree
fails `Validate` with `ErrMismatchQuery` instead of returning the same
(query, args) pair. -/
theorem c8_counterexample :
    stxValidate c8Query = none ∧
    isOkE (parsedToSql c8Sources c8Query) = true ∧
    ¬ c8Stx2.keys = [] ∧
    parsedToSql c8Sources c8Stx2 =
      Except.error (EqlErr.syntaxErr EqlErr.invalidSyntax EqlErr.mismatchQuery) :=
  ⟨rfl, rfl, by decide, rfl⟩

/-- A LOOKUP statement over the same schema for the C8 witness. -/
def c8Lookup : Stx :=
  ⟨true, false, false, [⟨none, sl "shasum", none⟩], false, none, none, none, none, false⟩

/-- The first compilation of `c8Lookup`. -/
def c8LkPair : (SqlState × List SqlVal) × Stx :=
  match parsedToSql c8Sources c8Lookup with
  | Except.ok pr => pr
  | Except.error _ => ((⟨⟨[], []⟩, [], [], none, none, none, none⟩, []), c8Lookup)

/-- C8 witness: the amended theorem applies to a concrete LOOKUP
statement. -/
theorem c8_amended_witness :
    c8LkPair.2 = c8Lookup ∧
    parsedToSql c8Sources c8LkPair.2 = Except.ok c8LkPair :=
  c8_amended c8Sources c8Lookup c8LkPair.1 c8LkPair.2 rfl rfl

/-- Every parent and Linked dependency of each source names a source
declared strictly earlier in the list (`declared` carries the names of
the sources before position `idx`).  When this holds, declaration order
is a topological order of the parent/link dependency graph, so that
graph has no cycle. -/
def depsDeclaredFirstFrom (all : List SourceConfig) :
    List SourceConfig → Nat → List Str → Bool
  | [], _, _ => true
  | sc :: rest, idx, declared =>
    (match sc.parent with
     | some p => decide (p ∈ declared)
     | none => true) &&
    (sc.values.enum.all (fun p =>
      match p.2.linked with
      | some pr => (all.take idx).any (fun osc => osc.name = pr.1)
      | none => true)) &&
    depsDeclaredFirstFrom all rest (idx + 1) (declared ++ [sc.name])

/-- Acyclicity witness for a whole config. -/
def depsDeclaredFirst (c : Config) : Bool :=
  depsDeclaredFirstFrom c.sources c.sources 0 []

/-- A Linked value that passes the value validators has its target
declared earlier. -/
theorem validateValue_linked (all : List SourceConfig) (idx : Nat)
    (sc : SourceConfig) (jdx : Nat) (scv : SourceConfigValue) (pr : Str × Str)
    (hl : scv.linked = some pr)
    (h : validateValue all idx sc jdx scv = none) :
    (all.take idx).any (fun osc => osc.name = pr.1) = true := by
  obtain ⟨i, b, t, f, s, l⟩ := scv
  simp only at hl
  subst hl
  unfold validateValue at h
  split at h
  · cases h
  · dsimp only at h
    split at h
    · cases h
    · split at h
      · cases h
      · split at h
        · assumption
        · cases h

/-- The validation loop enforces declared-first dependencies. -/
theorem c9_loop (all : List SourceConfig) :
    ∀ (rest : List SourceConfig) (idx : Nat) (declared : List Str),
      validateLoop all rest idx declared = none →
      depsDeclaredFirstFrom all rest idx declared = true := by
  intro rest
  induction rest with
  | nil => intro idx declared _; rfl
  | cons sc rest ih =>
    intro idx declared h
    unfold validateLoop at h
    unfold depsDeclaredFirstFrom
    split at h
    · cases h
    · split at h
      · cases h
      · rename_i hfs
        have hvals : sc.values.enum.all (fun p =>
            match p.2.linked with
            | some pr => (all.take idx).any (fun osc => osc.name = pr.1)
            | none => true) = true := by
          rw [List.all_eq_true]
          intro p hp
          have hnone : validateValue all idx sc p.1 p.2 = none := by
            have := List.findSome?_eq_none_iff.mp hfs
            exact this p hp
          cases hlp : p.2.linked with
          | none => simp
          | some pr =>
            simpa using validateValue_linked all idx sc p.1 p.2 pr hlp hnone
        split at h
        · rename_i p hp
          split at h
          · rename_i hmem
            simp only [Bool.and_eq_true, decide_eq_true_eq]
            exact ⟨⟨hmem, hvals⟩, ih _ _ h⟩
          · cases h
        · simp only [Bool.true_and, Bool.and_eq_true]
          exact ⟨hvals, ih _ _ h⟩

/-- The names a source depends on: its Linked targets and its parent. -/
def linkedDeps (sc : SourceConfig) : List Str :=
  (sc.values.filterMap (fun v => v.linked.map (fun pr => pr.1))) ++
    (match sc.parent with | some p => [p] | none => [])

/-- One edge of a config's dependency graph. -/
def depEdgeB (c : Config) (a b : Str) : Bool :=
  c.sources.any (fun sc => sc.name = a && b ∈ linkedDeps sc)

/-- A config whose two sources link to each other: a genuine dependency
cycle. -/
def c9Mutual : Config :=
  ⟨[], [⟨sl "a", none, [⟨none, none, none, none, none, some (sl "b", sl "id")⟩], [], []⟩,
        ⟨sl "b", none, [⟨none, none, none, none, none, some (sl "a", sl "id")⟩], [], []⟩]⟩

/-- C9: a config with a mutual-Linked cycle is rejected, but the error is
`ErrInvalidConfig`/`ErrParentNotFound` ("a needs b declared first") from
the linked-declared-first validator — not a cycle error listing the
involved source names; `Config.Validate` has no cycle detector at all. -/
theorem c9_counterexample :
    depEdgeB c9Mutual (sl "a") (sl "b") = true ∧
    depEdgeB c9Mutual (sl "b") (sl "a") = true ∧
    configValidate c9Mutual =
      some (EqlErr.invalidConfig (EqlErr.parentNotFound (sl "a") (sl "b"))) :=
  ⟨by decide, by decide, rfl⟩

/-- C9 (amended): every config accepted by `Validate` has declared-first
parent/link dependencies, hence an acyclic dependency graph — so every
cyclic config is rejected; the rejection error is the declared-first
`ErrParentNotFound`, not a cycle listing. -/
theorem c9_amended (c : Config) (h : configValidate c = none) :
    depsDeclaredFirst c = true := by
  unfold configValidate at h
  split at h
  · cases h
  · split at h
    · cases h
    · exact c9_loop c.sources c.sources 0 [] h

/-- A valid config with parent and linked dependencies. -/
def c9Okay : Config :=
  ⟨[], [⟨sl "page", none, [⟨none, none, none, none, some (sl "shasum", 10), none⟩], [], []⟩,
        ⟨sl "title", some (sl "page"),
          [⟨none, none, none, none, some (sl "text", 160), none⟩], [], []⟩,
        ⟨sl "pw", none, [⟨none, none, none, none, none, some (sl "page", sl "id")⟩], [], []⟩]⟩

/-- C9 witness: the amended theorem applies to a concrete valid config. -/
theorem c9_amended_witness : depsDeclaredFirst c9Okay = true :=
  c9_amended c9Okay rfl

/-! ### `PrepareSyntax` (`src/syntax-parser.go`) -/

/-- Decidable absence of the percent character. -/
def noPct : Str → Bool
  | [] => true
  | c :: rest => (¬ c = '%') && noPct rest

/-- `strconv.Quote` restricted to the escapes this pipeline can produce:
a double-quoted string with inner double quotes backslash-escaped. -/
def goQuote (s : Str) : Str := '"' :: escapeDQs s ++ ['"']

/-- Argument kinds inside the claim's scope (strings, times, numbers,
booleans — not nil and not arbitrary other values). -/
def goodArg : GoVal → Bool
  | GoVal.gnil => false
  | GoVal.gother _ => false
  | _ => true

/-- The `fmt` default (`%v`) rendering of an argument. -/
def renderV : GoVal → Str
  | GoVal.gstr s => s
  | GoVal.gint n => intToStr n
  | GoVal.gint8 n => intToStr n
  | GoVal.gint32 n => intToStr n
  | GoVal.gint64 n => intToStr n
  | GoVal.gfloat32 f => f.render
  | GoVal.gfloat64 f => f.render
  | GoVal.gbool b => if b then sl "true" else sl "false"
  | GoVal.gnil => sl "<nil>"
  | GoVal.gtime r => r
  | GoVal.gother d => d

/-- The `fmt` `%q` rendering of the argument kinds the pipeline quotes
(strings and times, the latter through their `Stringer` text). -/
def renderQ : GoVal → Str
  | GoVal.gstr s => goQuote s
  | GoVal.gtime r => goQuote r
  | v => sl "%!q(" ++ renderV v ++ sl ")"

/-- The claimed substitution of an in-range argument: a properly-quoted
string literal for strings and times, the bare textual form otherwise. -/
def renderArg : GoVal → Str
  | GoVal.gstr s => goQuote s
  | GoVal.gtime r => goQuote r
  | v => renderV v

/-- Go type names for the `%!(EXTRA ...)` marker. -/
def goTypeName : GoVal → Str
  | GoVal.gstr _ => sl "string"
  | GoVal.gint _ => sl "int"
  | GoVal.gint8 _ => sl "int8"
  | GoVal.gint32 _ => sl "int32"
  | GoVal.gint64 _ => sl "int64"
  | GoVal.gfloat32 _ => sl "float32"
  | GoVal.gfloat64 _ => sl "float64"
  | GoVal.gbool _ => sl "bool"
  | GoVal.gnil => sl "<nil>"
  | GoVal.gtime _ => sl "time.Time"
  | GoVal.gother d => d

/-- The `%!(EXTRA type=value, ...)` marker `fmt.Sprintf` appends when no
argument index was used and arguments remain. -/
def extraGo (argv : List GoVal) : Str :=
  sl "%!(EXTRA " ++
    (List.intercalate (sl ", ")
      (argv.map (fun v =>
        match v with
        | GoVal.gnil => sl "<nil>"
        | _ => goTypeName v ++ '=' :: renderV v))) ++ sl ")"

/-- The replacement text `rplPlaceholders` substitutes for an in-range
placeholder: an indexed `%[N]q` verb for strings and times, `%[N]v`
otherwise. -/
def verbFor (argv : List GoVal) (n : Nat) : Str :=
  match argv.get? (n - 1) with
  | some (GoVal.gstr _) => sl "%[" ++ intToStr (n : Int) ++ sl "]q"
  | some (GoVal.gtime _) => sl "%[" ++ intToStr (n : Int) ++ sl "]q"
  | _ => sl "%[" ++ intToStr (n : Int) ++ sl "]v"

/-- Split a leading run of decimal digits. -/
def takeDigits : Str → (Str × Str)
  | [] => ([], [])
  | c :: rest =>
    if isDigA c then
      let pr := takeDigits rest
      (c :: pr.1, pr.2)
    else ([], c :: rest)

/-- `rplPlaceholders` as a direct left-to-right scan, fuel-guided (the
fuel is the remaining length plus one).  Replacing the regex matches of
`\x7b\d+\x7d` one at a time with brace-free text is equivalent to this
single pass: matches cannot overlap and replacements never create new
matches. -/
def rplDirectF (argv : List GoVal) : Nat → Str → Str
  | 0, _ => []
  | fuel + 1, s =>
    match s with
    | [] => []
    | c :: rest =>
      if c = lbrace then
        match takeDigits rest with
        | (ds, rest1) =>
          match rest1 with
          | c2 :: rest2 =>
            if c2 = rbrace ∧ ¬ ds = [] then
              match parseDigits ds with
              | some n =>
                if 1 ≤ n ∧ n ≤ argv.length then
                  verbFor argv n ++ rplDirectF argv fuel rest2
                else lbrace :: ds ++ rbrace :: rplDirectF argv fuel rest2
              | none => c :: rplDirectF argv fuel rest
            else c :: rplDirectF argv fuel rest
          | [] => c :: rplDirectF argv fuel rest
      else c :: rplDirectF argv fuel rest

/-- `rplPlaceholders`. -/
def rplDirect (argv : List GoVal) (s : Str) : Str :=
  rplDirectF argv (s.length + 1) s

/-- Whether the scan substitutes at least one in-range placeholder
(mirrors `rplDirectF`). -/
def emitF (argv : List GoVal) : Nat → Str → Bool
  | 0, _ => false
  | fuel + 1, s =>
    match s with
    | [] => false
    | c :: rest =>
      if c = lbrace then
        match takeDigits rest with
        | (ds, rest1) =>
          match rest1 with
          | c2 :: rest2 =>
            if c2 = rbrace ∧ ¬ ds = [] then
              match parseDigits ds with
              | some n =>
                if 1 ≤ n ∧ n ≤ argv.length then true
                else emitF argv fuel rest2
              | none => emitF argv fuel rest
            else emitF argv fuel rest
          | [] => emitF argv fuel rest
      else emitF argv fuel rest

/-- The claim's substitution pass: the same scan, but replacing each
in-range placeholder directly with the rendered argument. -/
def refRplF (argv : List GoVal) : Nat → Str → Str
  | 0, _ => []
  | fuel + 1, s =>
    match s with
    | [] => []
    | c :: rest =>
      if c = lbrace then
        match takeDigits rest with
        | (ds, rest1) =>
          match rest1 with
          | c2 :: rest2 =>
            if c2 = rbrace ∧ ¬ ds = [] then
              match parseDigits ds with
              | some n =>
                if 1 ≤ n ∧ n ≤ argv.length then
                  (match argv.get? (n - 1) with
                   | some v => renderArg v
                   | none => []) ++ refRplF argv fuel rest2
                else lbrace :: ds ++ rbrace :: refRplF argv fuel rest2
              | none => c :: refRplF argv fuel rest
            else c :: refRplF argv fuel rest
          | [] => c :: refRplF argv fuel rest
      else c :: refRplF argv fuel rest

/-- Quote characters honored by the template scan. -/
def quoteChars : List Char := ['\'', '"', btick]

/-- Split at the first quote character: text before, the quote, text
after it. -/
def sqFind : Str → Option (Str × Char × Str)
  | [] => none
  | c :: rest =>
    if c ∈ quoteChars then some ([], c, rest)
    else (sqFind rest).map (fun pr => (c :: pr.1, pr.2.1, pr.2.2))

/-- Find the matching closing quote: content and remainder. -/
def sqClose (q : Char) : Str → Option (Str × Str)
  | [] => none
  | c :: rest =>
    if c = q then some ([], rest)
    else (sqClose q rest).map (fun pr => (c :: pr.1, pr.2))

/-- `clStrings.ScanQuote`, modelled from its use in `PrepareSyntax` (the
library itself is not part of this repository): the text before the
first complete quoted literal, the literal's content, and the remainder;
an unterminated quote counts as not found.  Backslash escapes inside
quoted content are outside this model's scope. -/
def scanQuoteM (s : Str) : Option (Str × Str × Str) :=
  match sqFind s with
  | none => none
  | some (before, q, rest) =>
    match sqClose q rest with
    | none => none
    | some (content, after) => some (before, content, after)

/-- The `PrepareSyntax` scan loop: substitute placeholders outside
quotes, re-quote each quoted literal with `strconv.Quote`. -/
def scanLoopF (argv : List GoVal) : Nat → Str → Str
  | 0, _ => []
  | fuel + 1, remainder =>
    match remainder with
    | [] => []
    | _ =>
      match scanQuoteM remainder with
      | some (before, content, after) =>
        rplDirect argv before ++ goQuote content ++ scanLoopF argv fuel after
      | none => rplDirect argv remainder

/-- The claim's whole-template rendering: the same quote-honoring scan
with direct substitution (and the code's canonical re-quoting of string
literals). -/
def refScanF (argv : List GoVal) : Nat → Str → Str
  | 0, _ => []
  | fuel + 1, remainder =>
    match remainder with
    | [] => []
    | _ =>
      match scanQuoteM remainder with
      | some (before, content, after) =>
        refRplF argv (before.length + 1) before ++ goQuote content ++
          refScanF argv fuel after
      | none => refRplF argv (remainder.length + 1) remainder

/-- The claim's rendering of a whole template. -/
def refPrepare (format : Str) (argv : List GoVal) : Str :=
  refScanF argv (format.length + 1) format

/-- Whether any in-range placeholder is substituted anywhere outside
quotes. -/
def anySubstF (argv : List GoVal) : Nat → Str → Bool
  | 0, _ => false
  | fuel + 1, remainder =>
    match remainder with
    | [] => false
    | _ =>
      match scanQuoteM remainder with
      | some (before, _, after) =>
        emitF argv (before.length + 1) before || anySubstF argv fuel after
      | none => emitF argv (remainder.length + 1) remainder

/-- Whether any in-range placeholder of the template is substituted. -/
def anySubst (format : Str) (argv : List GoVal) : Bool :=
  anySubstF argv (format.length + 1) format

/-- The states of the `fmt.Sprintf` format scanner (the fragment of verbs
this pipeline can produce: `%%`, `%[N]q`, `%[N]v`). -/
inductive FmtSt
  | norm
  | pct
  | idx (ds : Str)
  | vrb (n : Option Nat)
deriving DecidableEq, Repr

/-- The `Sprintf` accumulator: output so far, scanner state, and whether
an explicit argument index was used. -/
structure FmtAcc where
  out : Str
  st : FmtSt
  reord : Bool
deriving DecidableEq, Repr

/-- One `Sprintf` step. -/
def fmtStep (argv : List GoVal) (acc : FmtAcc) (c : Char) : FmtAcc :=
  match acc.st with
  | FmtSt.norm =>
    if c = '%' then { acc with st := FmtSt.pct }
    else { acc with out := acc.out ++ [c] }
  | FmtSt.pct =>
    if c = '%' then { acc with out := acc.out ++ ['%'], st := FmtSt.norm }
    else if c = '[' then { acc with st := FmtSt.idx [] }
    else
      { acc with
        out := acc.out ++ (sl "%!" ++ [c] ++ sl "(UNMODELLED)")
        st := FmtSt.norm }
  | FmtSt.idx ds =>
    if isDigA c then { acc with st := FmtSt.idx (ds ++ [c]) }
    else if c = ']' then { acc with st := FmtSt.vrb (parseDigits ds), reord := true }
    else { acc with out := acc.out ++ sl "%!(BADINDEX)", st := FmtSt.norm }
  | FmtSt.vrb n? =>
    let rendered :=
      match n? with
      | some n =>
        (match argv.get? (n - 1) with
         | some v =>
           if c = 'q' then renderQ v
           else if c = 'v' then renderV v
           else sl "%!" ++ [c] ++ sl "(UNMODELLED)"
         | none => sl "%!" ++ [c] ++ sl "(BADINDEX)")
      | none => sl "%!" ++ [c] ++ sl "(BADINDEX)"
    { out := acc.out ++ rendered, st := FmtSt.norm, reord := acc.reord }

/-- Flush a trailing partial verb (a dangling `%` prints `%!(NOVERB)`). -/
def fmtFlush (acc : FmtAcc) : Str :=
  match acc.st with
  | FmtSt.norm => acc.out
  | FmtSt.pct => acc.out ++ sl "%!(NOVERB)"
  | FmtSt.idx _ => acc.out ++ sl "%!(BADINDEX)"
  | FmtSt.vrb _ => acc.out ++ sl "%!(BADINDEX)"

/-- `fmt.Sprintf` on this fragment: run the scanner, then append the
EXTRA marker when no argument index was used and arguments remain. -/
def sprintfGo (format : Str) (argv : List GoVal) : Str :=
  let acc := format.foldl (fmtStep argv) ⟨[], FmtSt.norm, false⟩
  let out := fmtFlush acc
  if acc.reord = false ∧ ¬ argv.isEmpty then out ++ extraGo argv else out

/-- `PrepareSyntax`: an empty argument vector returns the template as is;
otherwise the quote-honoring scan produces the modified format and
`Sprintf` renders it against the arguments. -/
def prepareGo (format : Str) (argv : List GoVal) : Str :=
  if argv.isEmpty then format
  else sprintfGo (scanLoopF argv (format.length + 1) format) argv

/-- The format of the C3 counterexample: a percent sign directly before
an in-range placeholder. -/
def c3Fmt : Str := '%' :: lbrace :: '1' :: rbrace :: []

/-- C3: on the template percent-brace-1-brace with one string argument,
`PrepareSyntax` does not substitute a quoted literal: `rplPlaceholders`
turns the text into a double percent followed by the verb, `Sprintf`
reads the doubled percent as a literal, leaves the verb text unprocessed
and appends the EXTRA marker for the unused argument. -/
theorem c3_counterexample :
    prepareGo c3Fmt [GoVal.gstr (sl "x")] = sl "%[1]q%!(EXTRA string=x)" ∧
    refPrepare c3Fmt [GoVal.gstr (sl "x")] = '%' :: goQuote (sl "x") ∧
    ¬ prepareGo c3Fmt [GoVal.gstr (sl "x")] =
        refPrepare c3Fmt [GoVal.gstr (sl "x")] :=
  ⟨rfl, rfl, by decide⟩

theorem natDigitsF_digits (fuel : Nat) :
    ∀ (n : Nat), ∀ c ∈ natDigitsF fuel n, isDigA c = true := by
  induction fuel with
  | zero => intro n c hc; simp [natDigitsF] at hc
  | succ fuel ih =>
    intro n c hc
    by_cases hn : n = 0
    · simp [natDigitsF, hn] at hc
    · simp only [natDigitsF, if_neg hn, List.mem_append, List.mem_singleton] at hc
      rcases hc with hc | hc
      · exact ih _ c hc
      · subst hc
        have h10 : n % 10 < 10 := Nat.mod_lt _ (by decide)
        interval_cases h : (n % 10) <;> decide

/-- The digit-accumulating step of `parseDigits`. -/
def pdStep (acc : Option Nat) (c : Char) : Option Nat :=
  match acc, digitVal c with
  | some n, some d => some (n * 10 + d)
  | _, _ => none

theorem pd_foldl (fuel : Nat) :
    ∀ (n a : Nat), n < fuel →
      List.foldl pdStep (some a) (natDigitsF fuel n) =
        some (a * 10 ^ (natDigitsF fuel n).length + n) := by
  induction fuel with
  | zero => intro n a h; omega
  | succ fuel ih =>
    intro n a h
    by_cases hn : n = 0
    · simp [natDigitsF, hn]
    · have hdiv : n / 10 < fuel := by
        have h1 : n / 10 < n := Nat.div_lt_self (Nat.pos_of_ne_zero hn) (by decide)
        omega
      simp only [natDigitsF, if_neg hn, List.foldl_append, List.foldl_cons,
        List.foldl_nil, ih _ a hdiv]
      have hmod : n % 10 < 10 := Nat.mod_lt _ (by decide)
      have hdv : digitVal (Char.ofNat (48 + n % 10)) = some (n % 10) := by
        interval_cases h : (n % 10) <;> decide
      simp only [pdStep, hdv, List.length_append, List.length_singleton]
      have : (a * 10 ^ (natDigitsF fuel (n / 10)).length + n / 10) * 10 + n % 10 =
          a * 10 ^ ((natDigitsF fuel (n / 10)).length + 1) + n := by
        have := Nat.div_add_mod n 10
        ring_nf
        omega
      rw [this]

theorem natDigits_ne_nil (n : Nat) (h : 1 ≤ n) : ¬ natDigits n = [] := by
  unfold natDigits natDigitsF
  have hn : ¬ n = 0 := by omega
  simp [hn]

theorem parse_natDigits (n : Nat) (h : 1 ≤ n) :
    parseDigits (natDigits n) = some n := by
  have hfold := pd_foldl (n + 1) n 0 (by omega)
  have hne := natDigits_ne_nil n h
  unfold parseDigits
  cases hd : natDigits n with
  | nil => exact absurd hd hne
  | cons c cs =>
    have : List.foldl pdStep (some 0) (c :: cs) = some n := by
      rw [← hd]
      unfold natDigits at hfold ⊢
      rw [hfold]
      simp
    simpa [pdStep] using this

theorem intToStr_nat (n : Nat) (h : 1 ≤ n) : intToStr (n : Int) = natDigits n := by
  unfold intToStr
  have h1 : ¬ (n : Int) < 0 := by omega
  have h2 : ¬ (n : Int) = 0 := by omega
  simp [h1, h2]

/-- Percent-free text passes through the `Sprintf` scanner verbatim. -/
theorem fmtFold_lit (argv : List GoVal) (cs : Str) :
    ∀ (out : Str) (r : Bool), noPct cs = true →
      List.foldl (fmtStep argv) ⟨out, FmtSt.norm, r⟩ cs = ⟨out ++ cs, FmtSt.norm, r⟩ := by
  induction cs with
  | nil => intro out r _; simp
  | cons c cs ih =>
    intro out r h
    simp only [noPct, Bool.and_eq_true, decide_eq_true_eq] at h
    simp only [List.foldl_cons]
    have hstep : fmtStep argv ⟨out, FmtSt.norm, r⟩ c = ⟨out ++ [c], FmtSt.norm, r⟩ := by
      simp [fmtStep, h.1]
    rw [hstep, ih _ _ h.2]
    simp

/-- Digit characters accumulate in the index state. -/
theorem fmtFold_digits (argv : List GoVal) (cs : Str) :
    ∀ (out : Str) (ds : Str) (r : Bool), (∀ c ∈ cs, isDigA c = true) →
      List.foldl (fmtStep argv) ⟨out, FmtSt.idx ds, r⟩ cs =
        ⟨out, FmtSt.idx (ds ++ cs), r⟩ := by
  induction cs with
  | nil => intro out ds r _; simp
  | cons c cs ih =>
    intro out ds r h
    simp only [List.foldl_cons]
    have hc : isDigA c = true := h c (List.mem_cons_self c cs)
    have hstep : fmtStep argv ⟨out, FmtSt.idx ds, r⟩ c = ⟨out, FmtSt.idx (ds ++ [c]), r⟩ := by
      simp [fmtStep, hc]
    rw [hstep, ih _ _ _ (fun x hx => h x (List.mem_cons_of_mem c hx))]
    simp

/-- The rendering of one in-range placeholder. -/
def renderPH (argv : List GoVal) (n : Nat) : Str :=
  match argv.get? (n - 1) with
  | some v => renderArg v
  | none => []

/-- The `Sprintf` scanner renders an inserted `%[N]q`/`%[N]v` verb to the
claimed substitution and records the explicit index use. -/
theorem fmtFold_verb (argv : List GoVal) (n : Nat) (out : Str) (r : Bool)
    (h1 : 1 ≤ n) (h2 : n ≤ argv.length) :
    List.foldl (fmtStep argv) ⟨out, FmtSt.norm, r⟩ (verbFor argv n) =
      ⟨out ++ renderPH argv n, FmtSt.norm, true⟩ := by
  have hget : ∃ v, argv.get? (n - 1) = some v := by
    have : n - 1 < argv.length := by omega
    exact ⟨argv.get ⟨n - 1, this⟩, List.get?_eq_get this⟩
  obtain ⟨v, hv⟩ := hget
  have hv2 : argv[n - 1]? = some v := by
    simpa [List.get?_eq_getElem?] using hv
  have hni : intToStr (n : Int) = natDigits n := intToStr_nat n h1
  have hdigits := natDigitsF_digits (n + 1) n
  have hparse := parse_natDigits n h1
  have hstep1 : fmtStep argv ⟨out, FmtSt.norm, r⟩ '%' = ⟨out, FmtSt.pct, r⟩ := by
    simp [fmtStep]
  have hstep2 : fmtStep argv ⟨out, FmtSt.pct, r⟩ '[' = ⟨out, FmtSt.idx [], r⟩ := by
    simp [fmtStep]
  have hstep3 : fmtStep argv ⟨out, FmtSt.idx (natDigits n), r⟩ ']' =
      ⟨out, FmtSt.vrb (some n), true⟩ := by
    have hd : isDigA ']' = false := by decide
    simp [fmtStep, hd, hparse]
  have hrunQ : ∀ (rest : Str), List.foldl (fmtStep argv)
      ⟨out, FmtSt.norm, r⟩ ('%' :: '[' :: (natDigits n ++ (']' :: rest))) =
        List.foldl (fmtStep argv) ⟨out, FmtSt.vrb (some n), true⟩ rest := by
    intro rest
    simp only [List.foldl_cons, hstep1, hstep2, List.foldl_append, List.foldl_cons]
    rw [fmtFold_digits argv (natDigits n) out [] r hdigits]
    simp only [List.nil_append]
    rw [hstep3]
  unfold verbFor renderPH
  rw [hv]
  cases v with
  | gstr s =>
    show List.foldl (fmtStep argv) ⟨out, FmtSt.norm, r⟩
      ('%' :: '[' :: (intToStr (n : Int) ++ (']' :: 'q' :: []))) = _
    rw [hni, hrunQ]
    simp [List.foldl_cons, fmtStep, hv, hv2, renderQ, renderArg]
  | gtime t =>
    show List.foldl (fmtStep argv) ⟨out, FmtSt.norm, r⟩
      ('%' :: '[' :: (intToStr (n : Int) ++ (']' :: 'q' :: []))) = _
    rw [hni, hrunQ]
    simp [List.foldl_cons, fmtStep, hv, hv2, renderQ, renderArg]
  | gint m =>
    show List.foldl (fmtStep argv) ⟨out, FmtSt.norm, r⟩
      ('%' :: '[' :: (intToStr (n : Int) ++ (']' :: 'v' :: []))) = _
    rw [hni, hrunQ]
    simp [List.foldl_cons, fmtStep, hv, hv2, renderArg]
  | gint8 m =>
    show List.foldl (fmtStep argv) ⟨out, FmtSt.norm, r⟩
      ('%' :: '[' :: (intToStr (n : Int) ++ (']' :: 'v' :: []))) = _
    rw [hni, hrunQ]
    simp [List.foldl_cons, fmtStep, hv, hv2, renderArg]
  | gint32 m =>
    show List.foldl (fmtStep argv) ⟨out, FmtSt.norm, r⟩
      ('%' :: '[' :: (intToStr (n : Int) ++ (']' :: 'v' :: []))) = _
    rw [hni, hrunQ]
    simp [List.foldl_cons, fmtStep, hv, hv2, renderArg]
  | gint64 m =>
    show List.foldl (fmtStep argv) ⟨out, FmtSt.norm, r⟩
      ('%' :: '[' :: (intToStr (n : Int) ++ (']' :: 'v' :: []))) = _
    rw [hni, hrunQ]
    simp [List.foldl_cons, fmtStep, hv, hv2, renderArg]
  | gfloat32 f =>
    show List.foldl (fmtStep argv) ⟨out, FmtSt.norm, r⟩
      ('%' :: '[' :: (intToStr (n : Int) ++ (']' :: 'v' :: []))) = _
    rw [hni, hrunQ]
    simp [List.foldl_cons, fmtStep, hv, hv2, renderArg]
  | gfloat64 f =>
    show List.foldl (fmtStep argv) ⟨out, FmtSt.norm, r⟩
      ('%' :: '[' :: (intToStr (n : Int) ++ (']' :: 'v' :: []))) = _
    rw [hni, hrunQ]
    simp [List.foldl_cons, fmtStep, hv, hv2, renderArg]
  | gbool b =>
    show List.foldl (fmtStep argv) ⟨out, FmtSt.norm, r⟩
      ('%' :: '[' :: (intToStr (n : Int) ++ (']' :: 'v' :: []))) = _
    rw [hni, hrunQ]
    simp [List.foldl_cons, fmtStep, hv, hv2, renderArg]
  | gnil =>
    show List.foldl (fmtStep argv) ⟨out, FmtSt.norm, r⟩
      ('%' :: '[' :: (intToStr (n : Int) ++ (']' :: 'v' :: []))) = _
    rw [hni, hrunQ]
    simp [List.foldl_cons, fmtStep, hv, hv2, renderArg]
  | gother d =>
    show List.foldl (fmtStep argv) ⟨out, FmtSt.norm, r⟩
      ('%' :: '[' :: (intToStr (n : Int) ++ (']' :: 'v' :: []))) = _
    rw [hni, hrunQ]
    simp [List.foldl_cons, fmtStep, hv, hv2, renderArg]

theorem noPct_append (a b : Str) :
    noPct (a ++ b) = (noPct a && noPct b) := by
  induction a with
  | nil => simp [noPct]
  | cons c cs ih => simp [noPct, ih, Bool.and_assoc]

theorem takeDigits_eq_append (s : Str) :
    s = (takeDigits s).1 ++ (takeDigits s).2 := by
  induction s with
  | nil => rfl
  | cons c cs ih =>
    unfold takeDigits
    by_cases h : isDigA c = true
    · simp only [h, if_true]
      exact congrArg (c :: ·) ih
    · simp only [h]
      simp

theorem noPct_escapeDQs (s : Str) (h : noPct s = true) :
    noPct (escapeDQs s) = true := by
  induction s with
  | nil => simpa using h
  | cons c cs ih =>
    simp only [noPct, Bool.and_eq_true, decide_eq_true_eq] at h
    unfold escapeDQs
    split
    · simp_all [noPct]
    · rename_i heq
      injection heq with e1 e2
      subst e1
      subst e2
      simp [noPct, h.1, ih h.2]
    · rename_i heq
      injection heq with e1 e2
      subst e1
      subst e2
      simp [noPct, h.1, ih h.2]

theorem noPct_goQuote (s : Str) (h : noPct s = true) :
    noPct (goQuote s) = true := by
  unfold goQuote
  rw [show ('"' :: escapeDQs s ++ ['"'] : Str) = ['"'] ++ escapeDQs s ++ ['"'] from rfl]
  rw [noPct_append, noPct_append, noPct_escapeDQs s h]
  decide

/-- The scanner output of the replacement pass renders, through the
`Sprintf` machine, to the claimed direct substitution; the index-use flag
records whether anything was substituted. -/
theorem fmtFold_rpl (argv : List GoVal) (fuel : Nat) :
    ∀ (s out : Str) (r : Bool), noPct s = true →
      List.foldl (fmtStep argv) ⟨out, FmtSt.norm, r⟩ (rplDirectF argv fuel s) =
        ⟨out ++ refRplF argv fuel s, FmtSt.norm, r || emitF argv fuel s⟩ := by
  induction fuel with
  | zero => intro s out r _; simp [rplDirectF, refRplF, emitF]
  | succ fuel ih =>
    intro s out r h
    cases s with
    | nil => simp [rplDirectF, refRplF, emitF]
    | cons c rest =>
      simp only [noPct, Bool.and_eq_true, decide_eq_true_eq] at h
      have hcstep : fmtStep argv ⟨out, FmtSt.norm, r⟩ c = ⟨out ++ [c], FmtSt.norm, r⟩ := by
        simp [fmtStep, h.1]
      by_cases hc : c = lbrace
      · rcases htd : takeDigits rest with ⟨ds, rest1⟩
        have hrest : rest = ds ++ rest1 := by
          have := takeDigits_eq_append rest
          rw [htd] at this
          exact this
        have hnp : noPct ds = true ∧ noPct rest1 = true := by
          have := h.2
          rw [hrest, noPct_append, Bool.and_eq_true] at this
          exact this
        simp only [rplDirectF, refRplF, emitF, hc, if_true, htd]
        cases rest1 with
        | nil =>
          simp only [List.foldl_cons, hc ▸ hcstep]
          rw [ih rest (out ++ [lbrace]) r h.2]
          simp [hc]
        | cons c2 rest2 =>
          have hnp2 : noPct rest2 = true := by
            have := hnp.2
            simp only [noPct, Bool.and_eq_true] at this
            exact this.2
          by_cases h2 : c2 = rbrace ∧ ¬ ds = []
          · simp only [if_pos h2]
            cases hpd : parseDigits ds with
            | none =>
              simp only [List.foldl_cons, hc ▸ hcstep]
              rw [ih rest (out ++ [lbrace]) r h.2]
              simp [hc]
            | some n =>
              by_cases hin : 1 ≤ n ∧ n ≤ argv.length
              · simp only [if_pos hin]
                rw [List.foldl_append]
                rw [fmtFold_verb argv n out r hin.1 hin.2]
                rw [ih rest2 (out ++ renderPH argv n) true hnp2]
                simp [renderPH]
              · simp only [if_neg hin]
                have hlit : noPct (lbrace :: ds ++ [rbrace]) = true := by
                  rw [show (lbrace :: ds ++ [rbrace] : Str) = [lbrace] ++ ds ++ [rbrace] from rfl]
                  rw [noPct_append, noPct_append, hnp.1]
                  decide
                rw [show (lbrace :: ds ++ rbrace :: rplDirectF argv fuel rest2 : Str) =
                  (lbrace :: ds ++ [rbrace]) ++ rplDirectF argv fuel rest2 by simp]
                rw [List.foldl_append]
                rw [fmtFold_lit argv (lbrace :: ds ++ [rbrace]) out r hlit]
                rw [ih rest2 (out ++ (lbrace :: ds ++ [rbrace])) r hnp2]
                simp
          · simp only [if_neg h2]
            simp only [List.foldl_cons, hc ▸ hcstep]
            rw [ih rest (out ++ [lbrace]) r h.2]
            simp [hc]
      · simp only [rplDirectF, refRplF, emitF, hc, if_neg hc, if_false]
        simp only [List.foldl_cons, hcstep]
        rw [ih rest (out ++ [c]) r h.2]
        simp

/-- A found quote splits its input. -/
theorem sqFind_spec (s : Str) :
    ∀ b q r, sqFind s = some (b, q, r) → s = b ++ q :: r := by
  induction s with
  | nil => intro b q r h; cases h
  | cons c rest ih =>
    intro b q r h
    unfold sqFind at h
    by_cases hq : c ∈ quoteChars
    · rw [if_pos hq] at h
      injection h with h1
      injection h1 with hb hqr
      injection hqr with hq2 hr
      subst hb; subst hq2; subst hr
      rfl
    · rw [if_neg hq] at h
      cases hf : sqFind rest with
      | none => rw [hf] at h; cases h
      | some pr =>
        rw [hf] at h
        obtain ⟨b0, q0, r0⟩ := pr
        simp only [Option.map_some'] at h
        injection h with h1
        injection h1 with hb hqr
        injection hqr with hq2 hr
        subst hb; subst hq2; subst hr
        simpa using congrArg (c :: ·) (ih b0 q0 r0 hf)

/-- A found closing quote splits its input. -/
theorem sqClose_spec (q : Char) (s : Str) :
    ∀ content after, sqClose q s = some (content, after) →
      s = content ++ q :: after := by
  induction s with
  | nil => intro content after h; cases h
  | cons c rest ih =>
    intro content after h
    unfold sqClose at h
    by_cases hq : c = q
    · rw [if_pos hq] at h
      injection h with h1
      injection h1 with hb hr
      subst hb; subst hr; subst hq
      rfl
    · rw [if_neg hq] at h
      cases hf : sqClose q rest with
      | none => rw [hf] at h; cases h
      | some pr =>
        rw [hf] at h
        obtain ⟨c0, a0⟩ := pr
        simp only [Option.map_some'] at h
        injection h with h1
        injection h1 with hb hr
        subst hb; subst hr
        simpa using congrArg (c :: ·) (ih c0 a0 hf)

/-- A successful quote scan decomposes the input around one quote
character. -/
theorem scanQuoteM_spec (s before content after : Str)
    (h : scanQuoteM s = some (before, content, after)) :
    ∃ q, s = before ++ q :: (content ++ q :: after) := by
  unfold scanQuoteM at h
  cases hf : sqFind s with
  | none => rw [hf] at h; cases h
  | some pr =>
    rw [hf] at h
    obtain ⟨b0, q0, r0⟩ := pr
    dsimp only at h
    cases hc : sqClose q0 r0 with
    | none => rw [hc] at h; cases h
    | some pr2 =>
      rw [hc] at h
      obtain ⟨c0, a0⟩ := pr2
      injection h with h1
      injection h1 with hb hca
      injection hca with hcc ha
      subst hb; subst hcc; subst ha
      refine ⟨q0, ?_⟩
      rw [sqFind_spec s b0 q0 r0 hf, sqClose_spec q0 r0 c0 a0 hc]

/-- The whole modified template renders, through the `Sprintf` machine,
to the claim's rendering; the index-use flag records whether any
placeholder was substituted. -/
theorem fmtFold_scan (argv : List GoVal) (fuel : Nat) :
    ∀ (rem out : Str) (r : Bool), noPct rem = true →
      List.foldl (fmtStep argv) ⟨out, FmtSt.norm, r⟩ (scanLoopF argv fuel rem) =
        ⟨out ++ refScanF argv fuel rem, FmtSt.norm, r || anySubstF argv fuel rem⟩ := by
  induction fuel with
  | zero => intro rem out r _; simp [scanLoopF, refScanF, anySubstF]
  | succ fuel ih =>
    intro rem out r h
    cases rem with
    | nil => simp [scanLoopF, refScanF, anySubstF]
    | cons c rest =>
      cases hsq : scanQuoteM (c :: rest) with
      | none =>
        simp only [scanLoopF, refScanF, anySubstF, hsq]
        exact fmtFold_rpl argv ((c :: rest).length + 1) (c :: rest) out r h
      | some triple =>
        obtain ⟨before, content, after⟩ := triple
        obtain ⟨q, hdec⟩ := scanQuoteM_spec (c :: rest) before content after hsq
        have hnp3 : noPct before = true ∧ noPct content = true ∧ noPct after = true := by
          have h2 := h
          rw [hdec] at h2
          rw [show (before ++ q :: (content ++ q :: after) : Str) =
            before ++ ([q] ++ (content ++ ([q] ++ after))) from rfl] at h2
          simp only [noPct_append, Bool.and_eq_true] at h2
          exact ⟨h2.1, h2.2.2.1, h2.2.2.2.2⟩
        simp only [scanLoopF, refScanF, anySubstF, hsq]
        rw [show (rplDirect argv before ++ goQuote content ++ scanLoopF argv fuel after : Str) =
          rplDirect argv before ++ (goQuote content ++ scanLoopF argv fuel after) by simp]
        rw [List.foldl_append, List.foldl_append]
        unfold rplDirect
        rw [fmtFold_rpl argv (before.length + 1) before out r hnp3.1]
        rw [fmtFold_lit argv (goQuote content) _ _ (noPct_goQuote content hnp3.2.1)]
        rw [ih after _ _ hnp3.2.2]
        simp [List.append_assoc, Bool.or_assoc]

/-- C3 (amended): for every percent-free template with well-formed
quoting and arguments of string/time/number/boolean kinds,
`PrepareSyntax` with no arguments returns the template unchanged, and
with arguments it performs exactly the claimed substitution — in-range
placeholders outside quotes become properly-quoted literals (strings,
times) or bare text (numbers, booleans), out-of-range ones stay, quoted
literals are canonically re-quoted and never substituted inside — except
that when no placeholder is substituted `fmt.Sprintf` appends its
`(EXTRA)` marker for the unused arguments. -/
theorem c3_amended (format : Str) (argv : List GoVal)
    (hpct : noPct format = true)
    (hargv : argv.all goodArg = true) :
    (argv = [] → prepareGo format argv = format) ∧
    (¬ argv = [] →
      prepareGo format argv =
        refPrepare format argv ++
          (if anySubst format argv then [] else extraGo argv)) := by
  constructor
  · intro he
    subst he
    rfl
  · intro hne
    have hie : argv.isEmpty = false := by
      cases argv with
      | nil => exact absurd rfl hne
      | cons a as => rfl
    unfold prepareGo sprintfGo
    rw [hie]
    simp only [Bool.false_eq_true, if_false]
    have hfold := fmtFold_scan argv (format.length + 1) format [] false hpct
    simp only [List.nil_append, Bool.false_or] at hfold
    rw [hfold]
    unfold fmtFlush refPrepare anySubst
    cases ha : anySubstF argv (format.length + 1) format with
    | true => simp [hie]
    | false => simp [hie]

/-- The witness template: a lookup with one placeholder. -/
def c3WFmt : Str := sl "LOOKUP .id WITHIN .shasum == \x7b1\x7d"

/-- The witness arguments. -/
def c3WArgs : List GoVal := [GoVal.gstr (sl "abc")]

/-- C3 witness: the amended theorem applies to a concrete template. -/
theorem c3_amended_witness :
    (c3WArgs = [] → prepareGo c3WFmt c3WArgs = c3WFmt) ∧
    (¬ c3WArgs = [] → prepareGo c3WFmt c3WArgs =
      refPrepare c3WFmt c3WArgs ++
        (if anySubst c3WFmt c3WArgs then [] else extraGo c3WArgs)) :=
  c3_amended c3WFmt c3WArgs (by decide) (by decide)

/-! ### The EQL lexer (`gSyntaxLexer`, `src/syntax-parser.go`) -/

/-- The lexer's token kinds, each carrying its matched text. -/
inductive Tok
  | tPlace (text : Str)
  | tInt (text : Str)
  | tFloat (text : Str)
  | tStr (text : Str)
  | tOp (text : Str)
  | tPunct (text : Str)
  | tKw (text : Str)
  | tIdent (text : Str)
deriving DecidableEq, Repr

/-- The text of a token (what parser literals match against). -/
def tokText : Tok → Str
  | Tok.tPlace t => t
  | Tok.tInt t => t
  | Tok.tFloat t => t
  | Tok.tStr t => t
  | Tok.tOp t => t
  | Tok.tPunct t => t
  | Tok.tKw t => t
  | Tok.tIdent t => t

/-- Regex word characters. -/
def isWordA (c : Char) : Bool := isDigA c || isLoA c || isUpA c || c = '_'

/-- Word-ness of the previously consumed character (start of input counts
as non-word). -/
def wordOpt : Option Char → Bool
  | none => false
  | some p => isWordA p

/-- A regex word boundary between the previous character and `c`. -/
def bdry (prev : Option Char) (c : Char) : Bool := ¬ wordOpt prev = isWordA c

/-- A word boundary after a token ending in `last`, before the rest. -/
def bdryEnd (last : Char) : Str → Bool
  | [] => true
  | c :: _ => ¬ isWordA last = isWordA c

/-- The `Placeholder` rule. -/
def matchPlace : Str → Option (Str × Str)
  | [] => none
  | c :: rest =>
    if c = lbrace then
      match takeDigits rest with
      | (ds, c2 :: r2) =>
        if c2 = rbrace ∧ ¬ ds = [] then some (c :: ds ++ [c2], r2) else none
      | _ => none
    else none

/-- The `Int` rule: word-bounded digits. -/
def matchIntTok (prev : Option Char) (s : Str) : Option (Str × Str) :=
  match takeDigits s with
  | ([], _) => none
  | (ds, rest) =>
    if wordOpt prev = false ∧ bdryEnd '0' rest = true then some (ds, rest)
    else none

/-- The `Float` rule: word-bounded optional digits, a dot, then digits. -/
def matchFloatTok (prev : Option Char) (s : Str) : Option (Str × Str) :=
  match takeDigits s with
  | (ds1, r1) =>
    match r1 with
    | '.' :: r2 =>
      match takeDigits r2 with
      | ([], _) => none
      | (ds2, rest) =>
        let firstOK : Bool :=
          match ds1 with
          | [] => wordOpt prev
          | _ => ! wordOpt prev
        if firstOK = true ∧ bdryEnd '0' rest = true then
          some (ds1 ++ '.' :: ds2, rest)
        else none
    | _ => none

/-- Scan a quoted body honoring backslash-escaped closing quotes. -/
def strBody (q : Char) : Str → Option (Str × Str)
  | [] => none
  | '\\' :: c2 :: r2 =>
    if c2 = q then (strBody q r2).map (fun pr => ('\\' :: c2 :: pr.1, pr.2))
    else (strBody q (c2 :: r2)).map (fun pr => ('\\' :: pr.1, pr.2))
  | c :: rest =>
    if c = q then some ([c], rest)
    else (strBody q rest).map (fun pr => (c :: pr.1, pr.2))

/-- The `String` rule: one of the three quote styles. -/
def matchStrTok : Str → Option (Str × Str)
  | [] => none
  | c :: rest =>
    if c ∈ quoteChars then (strBody c rest).map (fun pr => (c :: pr.1, pr.2))
    else none

/-- The `Operator` alternatives, in the regex's order. -/
def opAlts : List Str :=
  [sl "==", sl "!=", sl "^=", sl "$=", sl "~=", sl "*=", sl "<=", sl ">=",
   sl "<>", sl "<", sl ">"]

/-- The `Operator` rule. -/
def matchOpTok (s : Str) : Option (Str × Str) :=
  (opAlts.find? (fun alt => hasPfx s alt)).map (fun alt => (alt, s.drop alt.length))

/-- The `Punctuation` rule. -/
def matchPunctTok : Str → Option (Str × Str)
  | [] => none
  | c :: rest =>
    if c ∈ ['.', ',', ';', '!', '(', ')'] then some ([c], rest) else none

/-- The keyword list, in the regex's order. -/
def kwList : List Str :=
  [sl "DISTINCT",
   sl "LOOKUP", sl "OFFSET", sl "WITHIN", sl "RANDOM",
   sl "QUERY", sl "COUNT", sl "FALSE", sl "ORDER", sl "LIMIT",
   sl "DESC", sl "LIKE", sl "TRUE", sl "NULL",
   sl "AND", sl "ASC", sl "DSC", sl "NOT", sl "NIL",
   sl "AS", sl "BY", sl "IN", sl "OR"]

/-- The `Keyword` rule: case-insensitive, word-bounded, first alternative
that fits wins. -/
def matchKwTok (prev : Option Char) (s : Str) : Option (Str × Str) :=
  if wordOpt prev = true then none
  else
    (kwList.find? (fun kw =>
      strUpper (s.take kw.length) = kw && bdryEnd 'A' (s.drop kw.length))).map
      (fun kw => (s.take kw.length, s.drop kw.length))

/-- Leading identifier characters. -/
def isIdentStart (c : Char) : Bool := isLoA c || isUpA c || c = '_'

/-- Take a run of word characters. -/
def takeWord : Str → (Str × Str)
  | [] => ([], [])
  | c :: rest =>
    if isWordA c then
      let pr := takeWord rest
      (c :: pr.1, pr.2)
    else ([], c :: rest)

/-- The `Ident` rule. -/
def matchIdentTok (prev : Option Char) (s : Str) : Option (Str × Str) :=
  match s with
  | [] => none
  | c :: _ =>
    if isIdentStart c ∧ wordOpt prev = false then
      some (takeWord s)
    else none

/-- Take a run of whitespace. -/
def takeWs : Str → (Str × Str)
  | [] => ([], [])
  | c :: rest =>
    if isWsA c then
      let pr := takeWs rest
      (c :: pr.1, pr.2)
    else ([], c :: rest)

/-- One lexer step: the rules tried in declaration order; whitespace is
elided.  Returns the produced token (if any), the rest, and the consumed
text. -/
def lexStep (prev : Option Char) (s : Str) :
    Option (Option Tok × Str × Str) :=
  match matchPlace s with
  | some (t, rest) => some (some (Tok.tPlace t), rest, t)
  | none =>
  match matchIntTok prev s with
  | some (t, rest) => some (some (Tok.tInt t), rest, t)
  | none =>
  match matchFloatTok prev s with
  | some (t, rest) => some (some (Tok.tFloat t), rest, t)
  | none =>
  match matchStrTok s with
  | some (t, rest) => some (some (Tok.tStr t), rest, t)
  | none =>
  match matchOpTok s with
  | some (t, rest) => some (some (Tok.tOp t), rest, t)
  | none =>
  match matchPunctTok s with
  | some (t, rest) => some (some (Tok.tPunct t), rest, t)
  | none =>
  match matchKwTok prev s with
  | some (t, rest) => some (some (Tok.tKw t), rest, t)
  | none =>
  match matchIdentTok prev s with
  | some (t, rest) => some (some (Tok.tIdent t), rest, t)
  | none =>
  match takeWs s with
  | ([], _) => none
  | (ws, rest) => some (none, rest, ws)

/-- The lexer loop, fuel-guided (every step consumes at least one
character, so the input length plus one suffices). -/
def lexF (prev : Option Char) : Nat → Str → Option (List Tok)
  | 0, _ => none
  | _ + 1, [] => some []
  | fuel + 1, c :: rest0 =>
    match lexStep prev (c :: rest0) with
    | none => none
    | some (tk, rest, consumed) =>
      match lexF (consumed.getLast? <|> prev) fuel rest with
      | none => none
      | some toks =>
        match tk with
        | some t => some (t :: toks)
        | none => some toks

/-- Tokenize an EQL text. -/
def lexEql (s : Str) : Option (List Tok) := lexF none (s.length + 1) s

/-! ### The EQL parser (the participle grammar from the struct tags) -/

/-- Match a literal against the next token's text. -/
def litM (lit : Str) : List Tok → Option (List Tok)
  | t :: rest => if tokText t = lit then some rest else none
  | [] => none

/-- Capture an `Ident` token. -/
def identM : List Tok → Option (Str × List Tok)
  | Tok.tIdent s :: rest => some (s, rest)
  | _ => none

/-- `SourceKey`: optional dotted source (with lookahead), the key, an
optional alias. -/
def parseSourceKey (toks : List Tok) : Option (SourceKeyT × List Tok) :=
  let srcPr : Option Str × List Tok :=
    match toks with
    | Tok.tIdent s :: t2 :: rest =>
      if tokText t2 = sl "." then (some s, t2 :: rest) else (none, toks)
    | _ => (none, toks)
  match litM (sl ".") srcPr.2 with
  | none => none
  | some r1 =>
    match identM r1 with
    | none => none
    | some (k, r2) =>
      match r2 with
      | t :: r3 =>
        if tokText t = sl "AS" then
          match identM r3 with
          | some (a, r4) => some (⟨srcPr.1, k, some a⟩, r4)
          | none => none
        else some (⟨srcPr.1, k, none⟩, r2)
      | [] => some (⟨srcPr.1, k, none⟩, r2)

/-- `SourceRef`: a dotted reference or a bare alias. -/
def parseSourceRef (toks : List Tok) : Option (SourceRefT × List Tok) :=
  let srcPr : Option Str × List Tok :=
    match toks with
    | Tok.tIdent s :: t2 :: rest =>
      if tokText t2 = sl "." then (some s, t2 :: rest) else (none, toks)
    | _ => (none, toks)
  match litM (sl ".") srcPr.2 with
  | some r1 =>
    match identM r1 with
    | some (k, r2) => some (⟨srcPr.1, some k, none⟩, r2)
    | none =>
      match identM toks with
      | some (a, rest) => some (⟨none, none, some a⟩, rest)
      | none => none
  | none =>
    match identM toks with
    | some (a, rest) => some (⟨none, none, some a⟩, rest)
    | none => none

/-- `Value`: string, int, float, boolean, null, source reference or
placeholder, in the tag order. -/
def parseValue (toks : List Tok) : Option (ValueT × List Tok) :=
  match toks with
  | Tok.tStr s :: rest => some ({ text := some s }, rest)
  | Tok.tInt s :: rest =>
    some ({ intv := some ((parseIntS s).getD 0) }, rest)
  | Tok.tFloat s :: rest => some ({ floatv := some ⟨s⟩ }, rest)
  | t :: rest =>
    if tokText t = sl "TRUE" then
      some ({ boolv := some (strUpper (tokText t) = sl "TRUE") }, rest)
    else if tokText t = sl "FALSE" then
      some ({ boolv := some (strUpper (tokText t) = sl "TRUE") }, rest)
    else if tokText t = sl "NIL" ∨ tokText t = sl "NULL" then
      some ({ nullv := some true }, rest)
    else
      match parseSourceRef toks with
      | some (r, rest2) => some ({ sourceRef := some r }, rest2)
      | none =>
        match toks with
        | Tok.tPlace s :: rest2 => some ({ placeholder := some s }, rest2)
        | _ => none
  | [] => none

/-- `Operator`: the comparison alternatives, else an optionally negated
matching operator. -/
def parseOperator (toks : List Tok) : Option (OperatorT × List Tok) :=
  match toks with
  | t :: rest =>
    if tokText t = sl "==" then some ({ opEQ := true }, rest)
    else if tokText t = sl "!=" ∨ tokText t = sl "<>" then
      some ({ opNE := true }, rest)
    else if tokText t = sl ">=" then some ({ opGE := true }, rest)
    else if tokText t = sl "<=" then some ({ opLE := true }, rest)
    else if tokText t = sl ">" then some ({ opGT := true }, rest)
    else if tokText t = sl "<" then some ({ opLT := true }, rest)
    else
      let negPr : Bool × Bool × List Tok :=
        if tokText t = sl "NOT" then (true, false, rest)
        else if tokText t = sl "!" then (false, true, rest)
        else (false, false, toks)
      match negPr.2.2 with
      | t2 :: rest2 =>
        if tokText t2 = sl "LIKE" then
          some ({ opNot := negPr.1, opNt := negPr.2.1, opLK := true }, rest2)
        else if tokText t2 = sl "^=" then
          some ({ opNot := negPr.1, opNt := negPr.2.1, opSW := true }, rest2)
        else if tokText t2 = sl "$=" then
          some ({ opNot := negPr.1, opNt := negPr.2.1, opEW := true }, rest2)
        else if tokText t2 = sl "*=" then
          some ({ opNot := negPr.1, opNt := negPr.2.1, opCS := true }, rest2)
        else if tokText t2 = sl "~=" then
          some ({ opNot := negPr.1, opNt := negPr.2.1, opCF := true }, rest2)
        else none
      | [] => none
  | [] => none

/-- The tail of an IN value list: comma-separated further values,
fuel-guided. -/
def parseInVals : Nat → List Tok → List ValueT → Option (List ValueT × List Tok)
  | 0, _, _ => none
  | fuel + 1, ts, acc =>
    match ts with
    | t2 :: r4 =>
      if tokText t2 = sl "," then
        match parseValue r4 with
        | some (v, r5) => parseInVals fuel r5 (acc ++ [v])
        | none => none
      else some (acc, ts)
    | [] => some (acc, ts)

/-- `Constraint`: a source reference compared with a value, or an
optionally-negated IN list. -/
def parseConstraint (toks : List Tok) : Option (ConstraintT × List Tok) :=
  match parseSourceRef toks with
  | none => none
  | some (l, r1) =>
    match parseOperator r1 with
    | some (op, r2) =>
      match parseValue r2 with
      | some (v, r3) => some ({ left := some l, op := some op, right := some v }, r3)
      | none => none
    | none =>
      let notPr : Bool × List Tok :=
        match r1 with
        | t :: rest => if tokText t = sl "NOT" then (true, rest) else (false, r1)
        | [] => (false, r1)
      match notPr.2 with
      | t :: rest =>
        if tokText t = sl "IN" then
          match litM (sl "(") rest with
          | none => none
          | some r2 =>
            match parseValue r2 with
            | none => none
            | some (v0, r3) =>
              match parseInVals (r3.length + 1) r3 [v0] with
              | none => none
              | some (vals, r6) =>
                match litM (sl ")") r6 with
                | none => none
                | some r7 =>
                  some ({ left := some l, cnot := notPr.1, cin := true,
                          values := vals }, r7)
        else none
      | [] => none

/-- `Expression` and `Condition`, fuel-guided (a constraint is tried
before a parenthesized condition, as in the tag order). -/
def parseExprF : Nat → List Tok → Option (ExpressionT × List Tok)
  | 0, _ => none
  | fuel + 1, toks =>
    match parseConstraint toks with
    | some (c, rest) => some (ExpressionT.mk (some c) none, rest)
    | none =>
      match parseCondF fuel toks with
      | some (c, rest) => some (ExpressionT.mk none (some c), rest)
      | none => none
where
  parseCondF : Nat → List Tok → Option (ConditionT × List Tok)
  | 0, _ => none
  | fuel + 1, toks =>
    match litM (sl "(") toks with
    | none => none
    | some r1 =>
      match parseExprF fuel r1 with
      | none => none
      | some (le, r2) =>
        match litM (sl ")") r2 with
        | none => none
        | some r3 =>
          match r3 with
          | t :: r4 =>
            if tokText t = sl "AND" ∨ tokText t = sl "OR" then
              match litM (sl "(") r4 with
              | none => none
              | some r5 =>
                match parseExprF fuel r5 with
                | none => none
                | some (re, r6) =>
                  match litM (sl ")") r6 with
                  | none => none
                  | some r7 =>
                    some (ConditionT.mk (some le) (tokText t) (some re), r7)
            else none
          | [] => none

/-- The comma-separated tail of an ORDER BY reference list. -/
def parseOrderRefs : Nat → List Tok → List SourceRefT →
    Option (List SourceRefT × List Tok)
  | 0, _, _ => none
  | fuel + 1, ts, acc =>
    match ts with
    | t :: r1 =>
      if tokText t = sl "," then
        match parseSourceRef r1 with
        | some (r, r2) => parseOrderRefs fuel r2 (acc ++ [r])
        | none => none
      else some (acc, ts)
    | [] => some (acc, ts)

/-- `OrderBy`. -/
def parseOrderBy (toks : List Tok) : Option (OrderByT × List Tok) :=
  match litM (sl "ORDER") toks with
  | none => none
  | some r1 =>
    match litM (sl "BY") r1 with
    | none => none
    | some r2 =>
      let body : Option ((Option (List SourceRefT) × Option Bool) × List Tok) :=
        match parseSourceRef r2 with
        | some (r, r3) =>
          match parseOrderRefs (r3.length + 1) r3 [r] with
          | some (refs, r4) => some ((some refs, none), r4)
          | none => none
        | none =>
          match litM (sl "RANDOM") r2 with
          | none => none
          | some r3 =>
            match litM (sl "(") r3 with
            | none => none
            | some r4 =>
              match litM (sl ")") r4 with
              | none => none
              | some r5 => some ((none, some true), r5)
      match body with
      | none => none
      | some ((srcs, rnd), r6) =>
        match r6 with
        | t :: r7 =>
          if tokText t = sl "ASC" ∨ tokText t = sl "DSC" ∨ tokText t = sl "DESC" then
            some (⟨srcs, rnd, some (tokText t)⟩, r7)
          else some (⟨srcs, rnd, none⟩, r6)
        | [] => some (⟨srcs, rnd, none⟩, r6)

/-- The comma-separated tail of the LOOKUP key list. -/
def parseKeysTail : Nat → List Tok → List SourceKeyT →
    Option (List SourceKeyT × List Tok)
  | 0, _, _ => none
  | fuel + 1, ts, acc =>
    match ts with
    | t :: r1 =>
      if tokText t = sl "," then
        match parseSourceKey r1 with
        | some (k, r2) => parseKeysTail fuel r2 (acc ++ [k])
        | none => none
      else some (acc, ts)
    | [] => some (acc, ts)

/-- The `Syntax` root production. -/
def parseStx (toks : List Tok) : Option (Stx × List Tok) :=
  let head : Option ((Bool × Bool × Bool × List SourceKeyT × Bool) × List Tok) :=
    match litM (sl "LOOKUP") toks with
    | some r1 =>
      let cPr : Bool × List Tok :=
        match litM (sl "COUNT") r1 with
        | some r2 => (true, r2)
        | none => (false, r1)
      let dPr : Bool × List Tok :=
        match litM (sl "DISTINCT") cPr.2 with
        | some r2 => (true, r2)
        | none => (false, cPr.2)
      match parseSourceKey dPr.2 with
      | none => none
      | some (k0, r3) =>
        match parseKeysTail (r3.length + 1) r3 [k0] with
        | none => none
        | some (keys, r4) => some ((true, cPr.1, dPr.1, keys, false), r4)
    | none =>
      match litM (sl "QUERY") toks with
      | some r1 => some ((false, false, false, [], true), r1)
      | none => none
  match head with
  | none => none
  | some ((lk, cnt, dst, keys, qr), r5) =>
    let winPr : Option (Option ExpressionT × List Tok) :=
      match litM (sl "WITHIN") r5 with
      | some r6 =>
        match parseExprF (r6.length + 1) r6 with
        | some (e, r7) => some (some e, r7)
        | none => none
      | none => some (none, r5)
    match winPr with
    | none => none
    | some (win, r8) =>
      let obPr : Option (Option OrderByT × List Tok) :=
        match parseOrderBy r8 with
        | some (o, r9) => some (some o, r9)
        | none => some (none, r8)
      match obPr with
      | none => none
      | some (ob, r10) =>
        let offPr : Option (Option Int × List Tok) :=
          match litM (sl "OFFSET") r10 with
          | some r11 =>
            match r11 with
            | Tok.tInt s :: r12 => some (some ((parseIntS s).getD 0), r12)
            | _ => none
          | none => some (none, r10)
        match offPr with
        | none => none
        | some (off, r13) =>
          let limPr : Option (Option Int × List Tok) :=
            match litM (sl "LIMIT") r13 with
            | some r14 =>
              match r14 with
              | Tok.tInt s :: r15 => some (some ((parseIntS s).getD 0), r15)
              | _ => none
            | none => some (none, r13)
          match limPr with
          | none => none
          | some (lim, r16) =>
            let semiPr : Bool × List Tok :=
              match litM (sl ";") r16 with
              | some r17 => (true, r17)
              | none => (false, r16)
            some (⟨lk, cnt, dst, keys, qr, win, ob, off, lim, semiPr.1⟩, semiPr.2)

/-- `ParseSyntax`: tokenize, parse the root production to the end of the
input, then `init` and `Validate`. -/
def parseEql (s : Str) : Except EqlErr Stx :=
  match lexEql s with
  | none => Except.error EqlErr.parseFailed
  | some toks =>
    match parseStx toks with
    | none => Except.error EqlErr.parseFailed
    | some (stx, rest) =>
      match rest with
      | _ :: _ => Except.error EqlErr.parseFailed
      | [] =>
        match stxInit stx with
        | Except.error e => Except.error e
        | Except.ok stx1 =>
          match stxValidate stx1 with
          | some e => Except.error e
          | none => Except.ok stx1

/-- `enjinql.ToSQL` (also the heart of `Perform`): `Parse` (placeholder
preparation, then the syntax parser) followed by `ParsedToSql`.  The
parsed tree's `apply` method is never invoked anywhere on this path. -/
def toSQLGo (c : CSources) (format : Str) (argv : List GoVal) :
    Except EqlErr ((SqlState × List SqlVal) × Stx) :=
  if prepareGo format argv = [] then Except.error EqlErr.emptyInput
  else
    match parseEql (prepareGo format argv) with
    | Except.error e => Except.error e
    | Except.ok stx => parsedToSql c stx

/-- The C1 input: a lookup with OFFSET and LIMIT clauses. -/
def c1Input : Str := sl "LOOKUP .id OFFSET 10 LIMIT 5"

/-- The parse of the C1 input. -/
def c1Stx : Stx :=
  (parseEql c1Input).toOption.getD
    ⟨false, false, false, [], false, none, none, none, none, false⟩

/-- C1: the OFFSET/LIMIT round trip is broken — `Syntax.String` renders
the offset and limit as bare integers without their keywords, so the
printed form of a statement carrying them fails to re-parse (the two
trailing integers match no production after the key list). -/
theorem c1_roundtrip_bug :
    parseEql c1Input = Except.ok c1Stx ∧
    c1Stx.offset = some 10 ∧
    c1Stx.limit = some 5 ∧
    stxString c1Stx = sl "LOOKUP .id 10 5" ∧
    parseEql (stxString c1Stx) = Except.error EqlErr.parseFailed :=
  ⟨rfl, rfl, rfl, rfl, rfl⟩

/-- The C4 input: one in-range placeholder and one out-of-range
placeholder that survives preparation into the parsed tree. -/
def c4Fmt : Str :=
  sl "LOOKUP .id WITHIN (.shasum == \x7b1\x7d) AND (.shasum == \x7b2\x7d)"

/-- The tree `Parse` produces for the C4 input: the second constraint
still carries the literal placeholder. -/
def c4Stx : Stx :=
  ⟨true, false, false, [⟨none, sl "id", none⟩], false,
    some (ExpressionT.mk none (some (ConditionT.mk
      (some (ExpressionT.mk (some
        { left := some ⟨none, some (sl "shasum"), none⟩,
          op := some { opEQ := true },
          right := some { text := some (sl "\"x\"") } }) none))
      (sl "AND")
      (some (ExpressionT.mk (some
        { left := some ⟨none, some (sl "shasum"), none⟩,
          op := some { opEQ := true },
          right := some { placeholder := some (lbrace :: '2' :: rbrace :: []) } })
        none))))),
    none, none, none, false⟩

/-- The compilation of the C4 tree against the page/shasum schema. -/
def c4Res : Except EqlErr ((SqlState × List SqlVal) × Stx) :=
  parsedToSql c5Sources c4Stx

/-- The argument list of the compiled C4 query. -/
def c4Args : List SqlVal :=
  match c4Res with
  | Except.ok ((_, a), _) => a
  | Except.error _ => []

/-- C4: `ToSQL`/`Perform` never invoke the parsed tree's `apply`, so a
placeholder that survives preparation is not bound to a typed value:
the compilation succeeds and its argument vector carries the literal
placeholder text (brace-2-brace) as a string argument. -/
theorem c4_placeholder_not_bound :
    toSQLGo c5Sources c4Fmt [GoVal.gstr (sl "x")] = c4Res ∧
    isOkE c4Res = true ∧
    c4Args = [SqlVal.vStr (sl "x"),
      SqlVal.vStr (lbrace :: '2' :: rbrace :: [])] := by
  have hprep : ¬ prepareGo c4Fmt [GoVal.gstr (sl "x")] = [] := by decide
  have hparse : parseEql (prepareGo c4Fmt [GoVal.gstr (sl "x")]) =
      Except.ok c4Stx := by rfl
  refine ⟨?_, rfl, rfl⟩
  unfold toSQLGo
  rw [if_neg hprep, hparse]
  rfl
